import Mathlib

/-!
Verification of the OSC99 codec (OscMessage.c, OscBundle.c, OscPacket.c, OscSlip.c).

Shallow embedding conventions:
* C `char` buffers become `List Nat` holding byte values; a fixed-size C array
  together with its committed length field becomes the committed `List` of
  bytes (the list's length plays the role of the length field).  Reads of a
  byte at an index use `List.getD i 0`; a read past the end of the modelled
  data (an out-of-bounds read in C) yields the default value `0`.
* 32-bit and 64-bit values (`int32_t`, `float`, `OscTimeTag`, `double`) are
  modelled by their bit patterns as `Nat` below `2^32` / `2^64`; the source
  manipulates them purely through byte-struct unions, so a pattern-level model
  is byte-exact (including floats, which the codec never interprets
  numerically).
* A C function `int f(T * const t, ...)` that mutates `t` and returns an error
  code becomes `f : T → ... → Nat × T`, returning the error code and the
  updated structure; error paths return the structure exactly as the C code
  leaves it.
* Loops become fuel-indexed structural recursions; call sites pass fuel large
  enough that exhaustion is unreachable (each C loop is bounded by the very
  counter used as fuel).
-/

namespace Osc99

/-- Modelled from the spec: the capacity constants of §3.6 live in headers
(OscCommon.h, OscMessage.h, OscBundle.h, OscPacket.h) that are not part of the
given sources; the values below are fixed maxima consistent with the spec's
constraints (every bound a multiple of 4, message/bundle/packet bounds equal to
the transport bound). -/
def MAX_TRANSPORT_SIZE : Nat := 1472

def MAX_OSC_PACKET_SIZE : Nat := MAX_TRANSPORT_SIZE

def MAX_OSC_CONTENTS_SIZE : Nat := MAX_OSC_PACKET_SIZE

def MAX_OSC_MESSAGE_SIZE : Nat := MAX_OSC_CONTENTS_SIZE

def MIN_OSC_MESSAGE_SIZE : Nat := 8

def MAX_OSC_BUNDLE_SIZE : Nat := MAX_OSC_CONTENTS_SIZE

def MIN_OSC_BUNDLE_SIZE : Nat := 16

def MAX_OSC_ADDRESS_PATTERN_LENGTH : Nat := 64

def MAX_NUMBER_OF_ARGUMENTS : Nat := 16

def MAX_OSC_TYPE_TAG_STRING_LENGTH : Nat := MAX_NUMBER_OF_ARGUMENTS + 1

def MAX_ARGUMENTS_SIZE : Nat := 1384

def MAX_OSC_BUNDLE_ELEMENTS_SIZE : Nat := MAX_OSC_BUNDLE_SIZE - 16

def OSC_SLIP_DECODER_BUFFER_SIZE : Nat := MAX_TRANSPORT_SIZE

/-- ASCII byte of the message discriminator char, the solidus. -/
def OscContentsTypeMessage : Nat := 47

/-- ASCII byte of the bundle discriminator char, the number sign. -/
def OscContentsTypeBundle : Nat := 35

def OscTypeTagInt32 : Nat := 105

def OscTypeTagFloat32 : Nat := 102

def OscTypeTagString : Nat := 115

def OscTypeTagBlob : Nat := 98

def OscTypeTagInt64 : Nat := 104

def OscTypeTagTimeTag : Nat := 116

def OscTypeTagDouble : Nat := 100

def OscTypeTagAlternateString : Nat := 83

def OscTypeTagCharacter : Nat := 99

def OscTypeTagRgbaColour : Nat := 114

def OscTypeTagMidiMessage : Nat := 109

def OscTypeTagTrue : Nat := 84

def OscTypeTagFalse : Nat := 70

def OscTypeTagNil : Nat := 78

def OscTypeTagInfinitum : Nat := 73

def OscTypeTagBeginArray : Nat := 91

def OscTypeTagEndArray : Nat := 93

/-- ASCII byte of the comma that leads every OSC type tag string. -/
def commaByte : Nat := 44

/-- The 8 bytes of the `OSC_BUNDLE_HEADER` constant. -/
def OSC_BUNDLE_HEADER : List Nat := [35, 98, 117, 110, 100, 108, 101, 0]

/-- Rounding a byte count up to the next multiple of 4, as computed by the
`if (n % 4 != 0) n += 4 - n % 4;` pattern of the source. -/
def padTo4 (n : Nat) : Nat := if n % 4 ≠ 0 then n + (4 - n % 4) else n

/-- The big-endian byte extraction performed by writing `byte3, byte2, byte1,
byte0` of the `OscArgument32` union. -/
def be32 (v : Nat) : List Nat :=
  [v / 2 ^ 24 % 256, v / 2 ^ 16 % 256, v / 2 ^ 8 % 256, v % 256]

/-- The big-endian byte extraction performed by writing `byte7 .. byte0` of the
`OscArgument64` union. -/
def be64 (v : Nat) : List Nat :=
  [v / 2 ^ 56 % 256, v / 2 ^ 48 % 256, v / 2 ^ 40 % 256, v / 2 ^ 32 % 256,
   v / 2 ^ 24 % 256, v / 2 ^ 16 % 256, v / 2 ^ 8 % 256, v % 256]

/-- Reassembling a 32-bit pattern from bytes `byte3 .. byte0` of the
`OscArgument32` union. -/
def word32 (b3 b2 b1 b0 : Nat) : Nat := ((b3 * 256 + b2) * 256 + b1) * 256 + b0

/-- Reassembling a 64-bit pattern from bytes `byte7 .. byte0` of the
`OscArgument64` union. -/
def word64 (b7 b6 b5 b4 b3 b2 b1 b0 : Nat) : Nat :=
  ((((((b7 * 256 + b6) * 256 + b5) * 256 + b4) * 256 + b3) * 256 + b2) * 256 + b1) * 256 + b0

/-- The state of an `OscMessage` structure.  The C arrays
`oscAddressPattern`, `oscTypeTagString` and `arguments` are modelled by their
committed contents; the length fields `oscAddressPatternLength`,
`oscTypeTagStringLength` and `argumentsSize` are the lengths of those lists. -/
structure OscMessage where
  oscAddressPattern : List Nat
  oscTypeTagString : List Nat
  arguments : List Nat
  oscTypeTagStringIndex : Nat
  argumentsIndex : Nat
deriving DecidableEq

def OscMessage.oscAddressPatternLength (m : OscMessage) : Nat :=
  m.oscAddressPattern.length

def OscMessage.oscTypeTagStringLength (m : OscMessage) : Nat :=
  m.oscTypeTagString.length

def OscMessage.argumentsSize (m : OscMessage) : Nat :=
  m.arguments.length

/-- The copy loop of `OscMessageAppendAddressPattern`: each character is
bound-checked against `MAX_OSC_ADDRESS_PATTERN_LENGTH` before being written. -/
def appendAddressLoop : List Nat → List Nat → Nat × List Nat
  | acc, [] => (0, acc)
  | acc, c :: rest =>
    if acc.length ≥ MAX_OSC_ADDRESS_PATTERN_LENGTH then (1, acc)
    else appendAddressLoop (acc ++ [c]) rest

/-- `OscMessageAppendAddressPattern` of OscMessage.c. -/
def OscMessageAppendAddressPattern (m : OscMessage) (appendedParts : List Nat) :
    Nat × OscMessage :=
  if appendedParts.getD 0 0 ≠ OscContentsTypeMessage then (1, m)
  else
    match appendAddressLoop m.oscAddressPattern appendedParts with
    | (0, acc) => (0, { m with oscAddressPattern := acc })
    | (_, acc) => (1, { m with oscAddressPattern := acc })

/-- `OscMessageSetAddressPattern` of OscMessage.c. -/
def OscMessageSetAddressPattern (m : OscMessage) (oscAddressPattern : List Nat) :
    Nat × OscMessage :=
  OscMessageAppendAddressPattern { m with oscAddressPattern := [] } oscAddressPattern

/-- `OscMessageInitialise` of OscMessage.c.  A C string argument is modelled by
the list of its bytes before the terminating null. -/
def OscMessageInitialise (oscAddressPattern : List Nat) : Nat × OscMessage :=
  let m : OscMessage :=
    { oscAddressPattern := []
      oscTypeTagString := [commaByte]
      arguments := []
      oscTypeTagStringIndex := 1
      argumentsIndex := 0 }
  if oscAddressPattern.getD 0 0 ≠ 0 then OscMessageSetAddressPattern m oscAddressPattern
  else (0, m)

/-- `TerminateOscString` of OscMessage.c: append nulls (at least one) until the
size is a multiple of 4, failing when the maximum size would be exceeded.  The
do-while loop runs at most 4 times, hence the structural fuel. -/
def TerminateOscString : Nat → List Nat → Nat → Option (List Nat)
  | 0, _, _ => none
  | fuel + 1, oscString, maxOscStringSize =>
    if oscString.length ≥ maxOscStringSize then none
    else
      let oscString' := oscString ++ [0]
      if oscString'.length % 4 = 0 then some oscString'
      else TerminateOscString fuel oscString' maxOscStringSize

/-- `OscMessageAddInt32` of OscMessage.c; `int32` is the 32-bit pattern. -/
def OscMessageAddInt32 (m : OscMessage) (int32 : Nat) : Nat × OscMessage :=
  if m.oscTypeTagString.length > MAX_NUMBER_OF_ARGUMENTS then (1, m)
  else if m.arguments.length + 4 > MAX_ARGUMENTS_SIZE then (1, m)
  else
    (0, { m with
          oscTypeTagString := m.oscTypeTagString ++ [OscTypeTagInt32]
          arguments := m.arguments ++ be32 int32 })

/-- `OscMessageAddFloat32` of OscMessage.c; `float32` is the IEEE-754 bit
pattern, which the source only ever moves through the `OscArgument32` union. -/
def OscMessageAddFloat32 (m : OscMessage) (float32 : Nat) : Nat × OscMessage :=
  if m.oscTypeTagString.length > MAX_NUMBER_OF_ARGUMENTS then (1, m)
  else if m.arguments.length + 4 > MAX_ARGUMENTS_SIZE then (1, m)
  else
    (0, { m with
          oscTypeTagString := m.oscTypeTagString ++ [OscTypeTagFloat32]
          arguments := m.arguments ++ be32 float32 })

/-- The copy loop of `OscMessageAddString`, writing through the local cursor
`argumentsSize` with a capacity check before every byte. -/
def addStringLoop : List Nat → List Nat → Option (List Nat)
  | acc, [] => some acc
  | acc, c :: rest =>
    if acc.length ≥ MAX_ARGUMENTS_SIZE then none
    else addStringLoop (acc ++ [c]) rest

/-- `OscMessageAddString` of OscMessage.c: copy the string through the local
cursor, null-terminate and pad it, and only then commit the argument bytes and
the tag character; each of the two stages can fail with the message left
untouched. -/
def OscMessageAddString (m : OscMessage) (string : List Nat) : Nat × OscMessage :=
  if m.oscTypeTagString.length > MAX_NUMBER_OF_ARGUMENTS then (1, m)
  else
    match (addStringLoop m.arguments string).bind
        (fun acc => TerminateOscString 4 acc MAX_ARGUMENTS_SIZE) with
    | none => (1, m)
    | some acc' =>
      (0, { m with
            oscTypeTagString := m.oscTypeTagString ++ [OscTypeTagString]
            arguments := acc' })

/-- The zero-padding loop of `OscMessageAddBlob` (at most 3 iterations). -/
def blobPadLoop : Nat → List Nat → Option (List Nat)
  | 0, _ => none
  | fuel + 1, acc =>
    if acc.length % 4 ≠ 0 then
      if acc.length ≥ MAX_ARGUMENTS_SIZE then none
      else blobPadLoop fuel (acc ++ [0])
    else some acc

/-- `OscMessageAddBlob` of OscMessage.c. -/
def OscMessageAddBlob (m : OscMessage) (source : List Nat) : Nat × OscMessage :=
  if m.oscTypeTagString.length > MAX_NUMBER_OF_ARGUMENTS then (1, m)
  else if m.arguments.length + 4 + source.length > MAX_ARGUMENTS_SIZE then (1, m)
  else
    match blobPadLoop 4 (m.arguments ++ be32 source.length ++ source) with
    | none => (1, m)
    | some acc =>
      (0, { m with
            oscTypeTagString := m.oscTypeTagString ++ [OscTypeTagBlob]
            arguments := acc })

/-- `OscMessageAddInt64` of OscMessage.c; `int64` is the 64-bit pattern. -/
def OscMessageAddInt64 (m : OscMessage) (int64 : Nat) : Nat × OscMessage :=
  if m.oscTypeTagString.length > MAX_NUMBER_OF_ARGUMENTS then (1, m)
  else if m.arguments.length + 8 > MAX_ARGUMENTS_SIZE then (1, m)
  else
    (0, { m with
          oscTypeTagString := m.oscTypeTagString ++ [OscTypeTagInt64]
          arguments := m.arguments ++ be64 int64 })

/-- `OscMessageAddTimeTag` of OscMessage.c; the time tag is its 64-bit
pattern. -/
def OscMessageAddTimeTag (m : OscMessage) (oscTimeTag : Nat) : Nat × OscMessage :=
  if m.oscTypeTagString.length > MAX_NUMBER_OF_ARGUMENTS then (1, m)
  else if m.arguments.length + 8 > MAX_ARGUMENTS_SIZE then (1, m)
  else
    (0, { m with
          oscTypeTagString := m.oscTypeTagString ++ [OscTypeTagTimeTag]
          arguments := m.arguments ++ be64 oscTimeTag })

/-- `OscMessageAddDouble` of OscMessage.c; `double64` is the IEEE-754 bit
pattern. -/
def OscMessageAddDouble (m : OscMessage) (double64 : Nat) : Nat × OscMessage :=
  if m.oscTypeTagString.length > MAX_NUMBER_OF_ARGUMENTS then (1, m)
  else if m.arguments.length + 8 > MAX_ARGUMENTS_SIZE then (1, m)
  else
    (0, { m with
          oscTypeTagString := m.oscTypeTagString ++ [OscTypeTagDouble]
          arguments := m.arguments ++ be64 double64 })

/-- `OscMessageAddAlternateString` of OscMessage.c: add as a string, then
overwrite the just-written tag with the alternate-string tag. -/
def OscMessageAddAlternateString (m : OscMessage) (string : List Nat) :
    Nat × OscMessage :=
  match OscMessageAddString m string with
  | (0, m') =>
    (0, { m' with
          oscTypeTagString :=
            m'.oscTypeTagString.set (m'.oscTypeTagString.length - 1)
              OscTypeTagAlternateString })
  | _ => (1, m)

/-- `OscMessageAddCharacter` of OscMessage.c. -/
def OscMessageAddCharacter (m : OscMessage) (asciiChar : Nat) : Nat × OscMessage :=
  if m.oscTypeTagString.length > MAX_NUMBER_OF_ARGUMENTS then (1, m)
  else if m.arguments.length + 4 > MAX_ARGUMENTS_SIZE then (1, m)
  else
    (0, { m with
          oscTypeTagString := m.oscTypeTagString ++ [OscTypeTagCharacter]
          arguments := m.arguments ++ [0, 0, 0, asciiChar] })

/-- `OscMessageAddRgbaColour` of OscMessage.c; the colour is the 32-bit pattern
held by the `OscArgument32` union. -/
def OscMessageAddRgbaColour (m : OscMessage) (rgbaColour : Nat) : Nat × OscMessage :=
  if m.oscTypeTagString.length > MAX_NUMBER_OF_ARGUMENTS then (1, m)
  else if m.arguments.length + 4 > MAX_ARGUMENTS_SIZE then (1, m)
  else
    (0, { m with
          oscTypeTagString := m.oscTypeTagString ++ [OscTypeTagRgbaColour]
          arguments := m.arguments ++ be32 rgbaColour })

/-- `OscMessageAddMidiMessage` of OscMessage.c; the MIDI message is the 32-bit
pattern held by the `OscArgument32` union. -/
def OscMessageAddMidiMessage (m : OscMessage) (midiMessage : Nat) : Nat × OscMessage :=
  if m.oscTypeTagString.length > MAX_NUMBER_OF_ARGUMENTS then (1, m)
  else if m.arguments.length + 4 > MAX_ARGUMENTS_SIZE then (1, m)
  else
    (0, { m with
          oscTypeTagString := m.oscTypeTagString ++ [OscTypeTagMidiMessage]
          arguments := m.arguments ++ be32 midiMessage })

/-- `OscMessageAddBool` of OscMessage.c. -/
def OscMessageAddBool (m : OscMessage) (boolean : Bool) : Nat × OscMessage :=
  if m.oscTypeTagString.length > MAX_NUMBER_OF_ARGUMENTS then (1, m)
  else
    (0, { m with
          oscTypeTagString :=
            m.oscTypeTagString ++ [if boolean then OscTypeTagTrue else OscTypeTagFalse] })

/-- `OscMessageAddNil` of OscMessage.c. -/
def OscMessageAddNil (m : OscMessage) : Nat × OscMessage :=
  if m.oscTypeTagString.length > MAX_NUMBER_OF_ARGUMENTS then (1, m)
  else (0, { m with oscTypeTagString := m.oscTypeTagString ++ [OscTypeTagNil] })

/-- `OscMessageAddInfinitum` of OscMessage.c. -/
def OscMessageAddInfinitum (m : OscMessage) : Nat × OscMessage :=
  if m.oscTypeTagString.length > MAX_NUMBER_OF_ARGUMENTS then (1, m)
  else (0, { m with oscTypeTagString := m.oscTypeTagString ++ [OscTypeTagInfinitum] })

/-- `OscMessageAddBeginArray` of OscMessage.c. -/
def OscMessageAddBeginArray (m : OscMessage) : Nat × OscMessage :=
  if m.oscTypeTagString.length > MAX_NUMBER_OF_ARGUMENTS then (1, m)
  else (0, { m with oscTypeTagString := m.oscTypeTagString ++ [OscTypeTagBeginArray] })

/-- `OscMessageAddEndArray` of OscMessage.c. -/
def OscMessageAddEndArray (m : OscMessage) : Nat × OscMessage :=
  if m.oscTypeTagString.length > MAX_NUMBER_OF_ARGUMENTS then (1, m)
  else (0, { m with oscTypeTagString := m.oscTypeTagString ++ [OscTypeTagEndArray] })

/-- `OscMessageGetSize` of OscMessage.c: the address length plus its null
rounded up to a multiple of 4 (the source's inline
`if (messageSize % 4 != 0) messageSize += 4 - messageSize % 4;` pattern is
`padTo4`), then the type tag string length plus its null rounded up again,
then the argument bytes. -/
def OscMessageGetSize (m : OscMessage) : Nat :=
  padTo4 (padTo4 (m.oscAddressPattern.length + 1) + m.oscTypeTagString.length + 1) +
    m.arguments.length

/-- `OscMessageToCharArray` of OscMessage.c.  The destination char array is
modelled by the returned list of written bytes (so `*oscMessageSize` is its
length); `none` is the error return 1, in which case the source leaves
`*oscMessageSize` at 0. -/
def OscMessageToCharArray (m : OscMessage) (destinationSize : Nat) :
    Option (List Nat) :=
  if m.oscAddressPattern.length = 0 then none
  else if m.oscAddressPattern.getD 0 0 ≠ OscContentsTypeMessage then none
  else if m.oscAddressPattern.length > destinationSize then none
  else
    (TerminateOscString 4 m.oscAddressPattern destinationSize).bind fun d1 =>
      if d1.length + m.oscTypeTagString.length > destinationSize then none
      else
        (TerminateOscString 4 (d1 ++ m.oscTypeTagString) destinationSize).bind fun d2 =>
          if d2.length + m.arguments.length > destinationSize then none
          else some (d2 ++ m.arguments)

/-- The address-pattern copy loop of `OscMessageInitialiseFromCharArray`:
copy source bytes until a null, bound-checking the address length after each
write and the source index after each advance.  Returns the error code, the
final source index and the accumulated address bytes. -/
def msgParseAddrLoop : Nat → List Nat → Nat → Nat → List Nat → Nat × Nat × List Nat
  | 0, _, _, i, acc => (1, i, acc)
  | fuel + 1, source, sourceSize, i, acc =>
    if source.getD i 0 ≠ 0 then
      let acc' := acc ++ [source.getD i 0]
      if acc'.length > MAX_OSC_ADDRESS_PATTERN_LENGTH then (1, i, acc')
      else if i + 1 ≥ sourceSize then (1, i + 1, acc')
      else msgParseAddrLoop fuel source sourceSize (i + 1) acc'
    else (0, i, acc)

/-- The advance-to-type-tag loop of `OscMessageInitialiseFromCharArray`:
`while (source[sourceIndex - 1] != ',') { if (++sourceIndex >= sourceSize) return 1; }`. -/
def msgParseSkipToCommaLoop : Nat → List Nat → Nat → Nat → Nat × Nat
  | 0, _, _, i => (1, i)
  | fuel + 1, source, sourceSize, i =>
    if source.getD (i - 1) 0 ≠ commaByte then
      if i + 1 ≥ sourceSize then (1, i + 1)
      else msgParseSkipToCommaLoop fuel source sourceSize (i + 1)
    else (0, i)

/-- The type-tag copy loop of `OscMessageInitialiseFromCharArray`. -/
def msgParseTagLoop : Nat → List Nat → Nat → Nat → List Nat → Nat × Nat × List Nat
  | 0, _, _, i, acc => (1, i, acc)
  | fuel + 1, source, sourceSize, i, acc =>
    if source.getD i 0 ≠ 0 then
      let acc' := acc ++ [source.getD i 0]
      if acc'.length > MAX_OSC_TYPE_TAG_STRING_LENGTH then (1, i, acc')
      else if i + 1 ≥ sourceSize then (1, i + 1, acc')
      else msgParseTagLoop fuel source sourceSize (i + 1) acc'
    else (0, i, acc)

/-- The advance-to-arguments do-while loop of
`OscMessageInitialiseFromCharArray`:
`do { if (++sourceIndex > sourceSize) return 1; } while (sourceIndex % 4 != 0);`. -/
def msgParseAlignLoop : Nat → Nat → Nat → Nat × Nat
  | 0, _, i => (1, i)
  | fuel + 1, sourceSize, i =>
    let i' := i + 1
    if i' > sourceSize then (1, i')
    else if i' % 4 ≠ 0 then msgParseAlignLoop fuel sourceSize i'
    else (0, i')

/-- The argument copy loop of `OscMessageInitialiseFromCharArray`:
`while (sourceIndex < sourceSize) copy;`. -/
def msgParseArgsLoop : Nat → List Nat → Nat → Nat → List Nat → List Nat
  | 0, _, _, _, acc => acc
  | fuel + 1, source, sourceSize, i, acc =>
    if i < sourceSize then
      msgParseArgsLoop fuel source sourceSize (i + 1) (acc ++ [source.getD i 0])
    else acc

/-- The freshly initialised message produced by `OscMessageInitialise` with an
empty address pattern, which `OscMessageInitialiseFromCharArray` starts from. -/
def freshMessage : OscMessage :=
  { oscAddressPattern := []
    oscTypeTagString := [commaByte]
    arguments := []
    oscTypeTagStringIndex := 1
    argumentsIndex := 0 }

/-- `OscMessageInitialiseFromCharArray` of OscMessage.c.  Returns the error
code together with the message exactly as the source leaves it (partially
filled on the error paths). -/
def OscMessageInitialiseFromCharArray (source : List Nat) (sourceSize : Nat) :
    Nat × OscMessage :=
  let m := freshMessage
  if sourceSize % 4 ≠ 0 then (1, m)
  else if sourceSize < MIN_OSC_MESSAGE_SIZE then (1, m)
  else if sourceSize > MAX_OSC_MESSAGE_SIZE then (1, m)
  else if source.getD 0 0 ≠ OscContentsTypeMessage then (1, m)
  else
    match msgParseAddrLoop (sourceSize + 1) source sourceSize 0 [] with
    | (1, _, addr) => (1, { m with oscAddressPattern := addr })
    | (_, i1, addr) =>
      let m1 := { m with oscAddressPattern := addr }
      match msgParseSkipToCommaLoop (sourceSize + 1) source sourceSize i1 with
      | (1, _) => (1, m1)
      | (_, i2) =>
        match msgParseTagLoop (sourceSize + 1) source sourceSize i2 m1.oscTypeTagString with
        | (1, _, tags) => (1, { m1 with oscTypeTagString := tags })
        | (_, i3, tags) =>
          let m2 := { m1 with oscTypeTagString := tags }
          match msgParseAlignLoop 4 sourceSize i3 with
          | (1, _) => (1, m2)
          | (_, i4) =>
            (0, { m2 with
                  arguments := msgParseArgsLoop (sourceSize + 1) source sourceSize i4 [] })

/-- `OscMessageIsArgumentAvailable` of OscMessage.c. -/
def OscMessageIsArgumentAvailable (m : OscMessage) : Bool :=
  m.oscTypeTagStringIndex ≤ m.oscTypeTagString.length - 1

/-- `OscMessageGetArgumentType` of OscMessage.c.  Reading
`oscTypeTagString[oscTypeTagStringIndex]` at the in-bounds index equal to the
length yields the array's null terminator, which the committed-list model
renders as the `getD` default 0. -/
def OscMessageGetArgumentType (m : OscMessage) : Nat :=
  if m.oscTypeTagStringIndex > m.oscTypeTagString.length then 0
  else m.oscTypeTagString.getD m.oscTypeTagStringIndex 0

/-- `OscMessageSkipArgument` of OscMessage.c. -/
def OscMessageSkipArgument (m : OscMessage) : Nat × OscMessage :=
  if m.oscTypeTagStringIndex > m.oscTypeTagString.length then (1, m)
  else (0, { m with oscTypeTagStringIndex := m.oscTypeTagStringIndex + 1 })

/-- `OscMessageGetInt32` of OscMessage.c; the returned value is the 32-bit
pattern reassembled from the four big-endian bytes. -/
def OscMessageGetInt32 (m : OscMessage) : Nat × OscMessage × Option Nat :=
  if m.oscTypeTagString.getD m.oscTypeTagStringIndex 0 ≠ OscTypeTagInt32 then (1, m, none)
  else if m.argumentsIndex + 4 > m.arguments.length then (1, m, none)
  else
    let i := m.argumentsIndex
    let v := word32 (m.arguments.getD i 0) (m.arguments.getD (i + 1) 0)
      (m.arguments.getD (i + 2) 0) (m.arguments.getD (i + 3) 0)
    (0, { m with argumentsIndex := i + 4,
                 oscTypeTagStringIndex := m.oscTypeTagStringIndex + 1 }, some v)

/-- `OscMessageGetFloat32` of OscMessage.c; the value is the bit pattern. -/
def OscMessageGetFloat32 (m : OscMessage) : Nat × OscMessage × Option Nat :=
  if m.oscTypeTagString.getD m.oscTypeTagStringIndex 0 ≠ OscTypeTagFloat32 then (1, m, none)
  else if m.argumentsIndex + 4 > m.arguments.length then (1, m, none)
  else
    let i := m.argumentsIndex
    let v := word32 (m.arguments.getD i 0) (m.arguments.getD (i + 1) 0)
      (m.arguments.getD (i + 2) 0) (m.arguments.getD (i + 3) 0)
    (0, { m with argumentsIndex := i + 4,
                 oscTypeTagStringIndex := m.oscTypeTagStringIndex + 1 }, some v)

/-- The copy do-while loop of `OscMessageGetString`: write each byte into the
destination (bound-checked), advancing the arguments cursor, until the null is
copied.  Returns the written destination bytes (terminator included) and the
cursor just past the null. -/
def getStringLoop : Nat → List Nat → Nat → List Nat → Nat → Option (List Nat × Nat)
  | 0, _, _, _, _ => none
  | fuel + 1, args, i, acc, destinationSize =>
    let c := args.getD i 0
    let acc' := acc ++ [c]
    if acc'.length > destinationSize then none
    else if c ≠ 0 then getStringLoop fuel args (i + 1) acc' destinationSize
    else some (acc', i + 1)

/-- The cursor realignment while-loop shared by `OscMessageGetString` and
`OscMessageGetBlob`:
`while (argumentsIndex % 4 != 0) { if (++argumentsIndex > argumentsSize) return 1; }`. -/
def getAlignCursorLoop : Nat → Nat → Nat → Option Nat
  | 0, _, i => some i
  | fuel + 1, argumentsSize, i =>
    if i % 4 ≠ 0 then
      if i + 1 > argumentsSize then none
      else getAlignCursorLoop fuel argumentsSize (i + 1)
    else some i

/-- `OscMessageGetString` of OscMessage.c; accepts both the string and the
alternate-string tag.  The returned list is the written destination buffer,
terminating null included. -/
def OscMessageGetString (m : OscMessage) (destinationSize : Nat) :
    Nat × OscMessage × Option (List Nat) :=
  let tagc := m.oscTypeTagString.getD m.oscTypeTagStringIndex 0
  if tagc ≠ OscTypeTagString ∧ tagc ≠ OscTypeTagAlternateString then (1, m, none)
  else if m.argumentsIndex + 4 > m.arguments.length then (1, m, none)
  else if 4 > destinationSize then (1, m, none)
  else
    match getStringLoop (m.arguments.length + 2) m.arguments m.argumentsIndex [] destinationSize with
    | none => (1, m, none)
    | some (dest, i1) =>
      match getAlignCursorLoop 4 m.arguments.length i1 with
      | none => (1, m, none)
      | some i2 =>
        (0, { m with argumentsIndex := i2,
                     oscTypeTagStringIndex := m.oscTypeTagStringIndex + 1 }, some dest)

/-- `OscMessageGetBlob` of OscMessage.c.  The size prefix is read through the
`OscArgument32` union as a signed `int32`; a pattern at or above `2^31` is
negative and makes both `int`-vs-`size_t` comparisons fail via the unsigned
conversion, so the model rejects it at the range check. -/
def OscMessageGetBlob (m : OscMessage) (destinationSize : Nat) :
    Nat × OscMessage × Option (Nat × List Nat) :=
  if m.oscTypeTagString.getD m.oscTypeTagStringIndex 0 ≠ OscTypeTagBlob then (1, m, none)
  else if m.argumentsIndex + 4 > m.arguments.length then (1, m, none)
  else
    let i := m.argumentsIndex
    let n := word32 (m.arguments.getD i 0) (m.arguments.getD (i + 1) 0)
      (m.arguments.getD (i + 2) 0) (m.arguments.getD (i + 3) 0)
    if 2 ^ 31 ≤ n then (1, m, none)
    else if i + 4 + n > m.arguments.length then (1, m, none)
    else if n > destinationSize then (1, m, none)
    else
      let dest := (List.range n).map fun j => m.arguments.getD (i + 4 + j) 0
      match getAlignCursorLoop 4 m.arguments.length (i + 4 + n) with
      | none => (1, m, none)
      | some i2 =>
        (0, { m with argumentsIndex := i2,
                     oscTypeTagStringIndex := m.oscTypeTagStringIndex + 1 }, some (n, dest))

/-- `OscMessageGetInt64` of OscMessage.c; the value is the 64-bit pattern. -/
def OscMessageGetInt64 (m : OscMessage) : Nat × OscMessage × Option Nat :=
  if m.oscTypeTagString.getD m.oscTypeTagStringIndex 0 ≠ OscTypeTagInt64 then (1, m, none)
  else if m.argumentsIndex + 8 > m.arguments.length then (1, m, none)
  else
    let i := m.argumentsIndex
    let v := word64 (m.arguments.getD i 0) (m.arguments.getD (i + 1) 0)
      (m.arguments.getD (i + 2) 0) (m.arguments.getD (i + 3) 0)
      (m.arguments.getD (i + 4) 0) (m.arguments.getD (i + 5) 0)
      (m.arguments.getD (i + 6) 0) (m.arguments.getD (i + 7) 0)
    (0, { m with argumentsIndex := i + 8,
                 oscTypeTagStringIndex := m.oscTypeTagStringIndex + 1 }, some v)

/-- `OscMessageGetTimeTag` of OscMessage.c. -/
def OscMessageGetTimeTag (m : OscMessage) : Nat × OscMessage × Option Nat :=
  if m.oscTypeTagString.getD m.oscTypeTagStringIndex 0 ≠ OscTypeTagTimeTag then (1, m, none)
  else if m.argumentsIndex + 8 > m.arguments.length then (1, m, none)
  else
    let i := m.argumentsIndex
    let v := word64 (m.arguments.getD i 0) (m.arguments.getD (i + 1) 0)
      (m.arguments.getD (i + 2) 0) (m.arguments.getD (i + 3) 0)
      (m.arguments.getD (i + 4) 0) (m.arguments.getD (i + 5) 0)
      (m.arguments.getD (i + 6) 0) (m.arguments.getD (i + 7) 0)
    (0, { m with argumentsIndex := i + 8,
                 oscTypeTagStringIndex := m.oscTypeTagStringIndex + 1 }, some v)

/-- `OscMessageGetDouble` of OscMessage.c; the value is the bit pattern. -/
def OscMessageGetDouble (m : OscMessage) : Nat × OscMessage × Option Nat :=
  if m.oscTypeTagString.getD m.oscTypeTagStringIndex 0 ≠ OscTypeTagDouble then (1, m, none)
  else if m.argumentsIndex + 8 > m.arguments.length then (1, m, none)
  else
    let i := m.argumentsIndex
    let v := word64 (m.arguments.getD i 0) (m.arguments.getD (i + 1) 0)
      (m.arguments.getD (i + 2) 0) (m.arguments.getD (i + 3) 0)
      (m.arguments.getD (i + 4) 0) (m.arguments.getD (i + 5) 0)
      (m.arguments.getD (i + 6) 0) (m.arguments.getD (i + 7) 0)
    (0, { m with argumentsIndex := i + 8,
                 oscTypeTagStringIndex := m.oscTypeTagStringIndex + 1 }, some v)

/-- `OscMessageGetCharacter` of OscMessage.c. -/
def OscMessageGetCharacter (m : OscMessage) : Nat × OscMessage × Option Nat :=
  if m.oscTypeTagString.getD m.oscTypeTagStringIndex 0 ≠ OscTypeTagCharacter then (1, m, none)
  else if m.argumentsIndex + 4 > m.arguments.length then (1, m, none)
  else
    let c := m.arguments.getD (m.argumentsIndex + 3) 0
    (0, { m with argumentsIndex := m.argumentsIndex + 4,
                 oscTypeTagStringIndex := m.oscTypeTagStringIndex + 1 }, some c)

/-- `OscMessageGetRgbaColour` of OscMessage.c; the value is the 32-bit
pattern. -/
def OscMessageGetRgbaColour (m : OscMessage) : Nat × OscMessage × Option Nat :=
  if m.oscTypeTagString.getD m.oscTypeTagStringIndex 0 ≠ OscTypeTagRgbaColour then (1, m, none)
  else if m.argumentsIndex + 4 > m.arguments.length then (1, m, none)
  else
    let i := m.argumentsIndex
    let v := word32 (m.arguments.getD i 0) (m.arguments.getD (i + 1) 0)
      (m.arguments.getD (i + 2) 0) (m.arguments.getD (i + 3) 0)
    (0, { m with argumentsIndex := i + 4,
                 oscTypeTagStringIndex := m.oscTypeTagStringIndex + 1 }, some v)

/-- `OscMessageGetMidiMessage` of OscMessage.c; the value is the 32-bit
pattern. -/
def OscMessageGetMidiMessage (m : OscMessage) : Nat × OscMessage × Option Nat :=
  if m.oscTypeTagString.getD m.oscTypeTagStringIndex 0 ≠ OscTypeTagMidiMessage then (1, m, none)
  else if m.argumentsIndex + 4 > m.arguments.length then (1, m, none)
  else
    let i := m.argumentsIndex
    let v := word32 (m.arguments.getD i 0) (m.arguments.getD (i + 1) 0)
      (m.arguments.getD (i + 2) 0) (m.arguments.getD (i + 3) 0)
    (0, { m with argumentsIndex := i + 4,
                 oscTypeTagStringIndex := m.oscTypeTagStringIndex + 1 }, some v)

/-- The state of an `OscBundle` structure.  `header` is the 8-byte header
array, `oscTimeTag` the 64-bit time tag pattern, `oscBundleElements` the
committed element bytes (`oscBundleElementsSize` is its length) and
`oscBundleElementsIndex` the iteration cursor. -/
structure OscBundle where
  header : List Nat
  oscTimeTag : Nat
  oscBundleElements : List Nat
  oscBundleElementsIndex : Nat
deriving DecidableEq

def OscBundle.oscBundleElementsSize (b : OscBundle) : Nat :=
  b.oscBundleElements.length

/-- `OscBundleInitialise` of OscBundle.c. -/
def OscBundleInitialise (oscTimeTag : Nat) : OscBundle :=
  { header := OSC_BUNDLE_HEADER
    oscTimeTag := oscTimeTag
    oscBundleElements := []
    oscBundleElementsIndex := 0 }

/-- `OscBundleEmpty` of OscBundle.c. -/
def OscBundleEmpty (b : OscBundle) : OscBundle := { b with oscBundleElements := [] }

/-- `OscBundleIsEmpty` of OscBundle.c. -/
def OscBundleIsEmpty (b : OscBundle) : Bool := b.oscBundleElements.length = 0

/-- `OscBundleGetRemainingCapacity` of OscBundle.c. -/
def OscBundleGetRemainingCapacity (b : OscBundle) : Nat :=
  MAX_OSC_BUNDLE_ELEMENTS_SIZE - b.oscBundleElements.length - 4

/-- `OscBundleGetSize` of OscBundle.c. -/
def OscBundleGetSize (b : OscBundle) : Nat :=
  8 + 8 + b.oscBundleElements.length

/-- `OscBundleToCharArray` of OscBundle.c; the destination char array is the
returned list of written bytes. -/
def OscBundleToCharArray (b : OscBundle) (destinationSize : Nat) :
    Option (List Nat) :=
  if 8 + 8 + b.oscBundleElements.length > destinationSize then none
  else
    some ([b.header.getD 0 0, b.header.getD 1 0, b.header.getD 2 0, b.header.getD 3 0,
           b.header.getD 4 0, b.header.getD 5 0, b.header.getD 6 0, b.header.getD 7 0]
      ++ be64 b.oscTimeTag ++ b.oscBundleElements)

/-- An OSC message or OSC bundle, as passed through `OscContents`. -/
inductive OscContents where
  | msg (m : OscMessage)
  | bundle (b : OscBundle)
deriving DecidableEq

/-- The first byte of the structure pointed to by an `OscContents` pointer:
for a message the first address-pattern byte (the terminating null of an empty
address reads as 0), for a bundle the first header byte. -/
def contentsFirstByte : OscContents → Nat
  | .msg m => m.oscAddressPattern.getD 0 0
  | .bundle b => b.header.getD 0 0

/-- The `OSC_CONTENTS_IS_MESSAGE` macro. -/
def OSC_CONTENTS_IS_MESSAGE (c : OscContents) : Bool :=
  contentsFirstByte c = OscContentsTypeMessage

/-- The `OSC_CONTENTS_IS_BUNDLE` macro. -/
def OSC_CONTENTS_IS_BUNDLE (c : OscContents) : Bool :=
  contentsFirstByte c = OscContentsTypeBundle

/-- `OscBundleAddContents` of OscBundle.c: serialize the child into the
element region just past a reserved 4-byte slot, then commit the big-endian
size prefix and the serialized bytes. -/
def OscBundleAddContents (b : OscBundle) (oscContents : OscContents) :
    Nat × OscBundle :=
  if b.oscBundleElements.length + 4 > MAX_OSC_BUNDLE_ELEMENTS_SIZE then (1, b)
  else
    let serialized : Option (List Nat) :=
      if OSC_CONTENTS_IS_MESSAGE oscContents then
        match oscContents with
        | .msg m => OscMessageToCharArray m (OscBundleGetRemainingCapacity b)
        | .bundle _ => none
      else if OSC_CONTENTS_IS_BUNDLE oscContents then
        match oscContents with
        | .bundle child => OscBundleToCharArray child (OscBundleGetRemainingCapacity b)
        | .msg _ => none
      else none
    match serialized with
    | none => (1, b)
    | some bytes =>
      (0, { b with oscBundleElements := b.oscBundleElements ++ be32 bytes.length ++ bytes })

/-- The element copy do-while loop of `OscBundleInitialiseFromCharArray`.
Being a do-while, it always copies at least one byte; when the remaining
source is empty this reads past the source array (undefined in C), which the
model renders as the `getD` default 0. -/
def bundleCopyElementsLoop : Nat → List Nat → Nat → Nat → List Nat → List Nat
  | 0, _, _, _, acc => acc
  | fuel + 1, source, sourceSize, i, acc =>
    let acc' := acc ++ [source.getD i 0]
    if i + 1 < sourceSize then bundleCopyElementsLoop fuel source sourceSize (i + 1) acc'
    else acc'

/-- `OscBundleInitialiseFromCharArray` of OscBundle.c.  `b0` is the bundle
structure passed in by the caller (left untouched on the validation error
paths). -/
def OscBundleInitialiseFromCharArray (b0 : OscBundle) (source : List Nat)
    (sourceSize : Nat) : Nat × OscBundle :=
  if sourceSize % 4 ≠ 0 then (1, b0)
  else if sourceSize < MIN_OSC_BUNDLE_SIZE then (1, b0)
  else if sourceSize > MAX_OSC_BUNDLE_SIZE then (1, b0)
  else if source.getD 0 0 ≠ OscContentsTypeBundle then (1, b0)
  else
    (0, { header := [source.getD 0 0, source.getD 1 0, source.getD 2 0, source.getD 3 0,
                     source.getD 4 0, source.getD 5 0, source.getD 6 0, source.getD 7 0]
          oscTimeTag := word64 (source.getD 8 0) (source.getD 9 0) (source.getD 10 0)
            (source.getD 11 0) (source.getD 12 0) (source.getD 13 0) (source.getD 14 0)
            (source.getD 15 0)
          oscBundleElements := bundleCopyElementsLoop (sourceSize + 1) source sourceSize 16 []
          oscBundleElementsIndex := 0 })

/-- `OscBundleIsBundleElementAvailable` of OscBundle.c. -/
def OscBundleIsBundleElementAvailable (b : OscBundle) : Bool :=
  b.oscBundleElementsIndex + 4 < b.oscBundleElements.length

/-- An `OscBundleElement`: the size read from the big-endian `int32` prefix
and the element's contents bytes. -/
structure OscBundleElement where
  size : Nat
  contents : List Nat
deriving DecidableEq

/-- `OscBundleGetBundleElement` of OscBundle.c.  The four prefix bytes are
consumed (advancing the cursor) before the size is validated, exactly as in
the source; a prefix pattern at or above `2^31` is a negative `int32`. -/
def OscBundleGetBundleElement (b : OscBundle) :
    Nat × OscBundle × Option OscBundleElement :=
  if b.oscBundleElementsIndex + 4 ≥ b.oscBundleElements.length then (1, b, none)
  else
    let i := b.oscBundleElementsIndex
    let n := word32 (b.oscBundleElements.getD i 0) (b.oscBundleElements.getD (i + 1) 0)
      (b.oscBundleElements.getD (i + 2) 0) (b.oscBundleElements.getD (i + 3) 0)
    let b' := { b with oscBundleElementsIndex := i + 4 }
    if 2 ^ 31 ≤ n then (1, b', none)
    else if n % 4 ≠ 0 then (1, b', none)
    else if i + 4 + n > b.oscBundleElements.length then (1, b', none)
    else
      (0, { b with oscBundleElementsIndex := i + 4 + n },
        some { size := n, contents := (b.oscBundleElements.drop (i + 4)).take n })

/-- The state of an `OscPacket` structure: the contents bytes (`size` is the
list's length).  The `processMessage` handler pointer is modelled separately
as a Boolean registration flag where needed. -/
structure OscPacket where
  contents : List Nat
deriving DecidableEq

def OscPacket.size (p : OscPacket) : Nat := p.contents.length

/-- `OscPacketInitialise` of OscPacket.c. -/
def OscPacketInitialise : OscPacket := { contents := [] }

/-- `OscPacketInitialiseFromContents` of OscPacket.c.  Note the source's
final `return 1`: even after a successful serialization the function reports
error 1 (the serialized bytes are nevertheless left in the packet). -/
def OscPacketInitialiseFromContents (oscContents : OscContents) : Nat × OscPacket :=
  let serialized : Option (List Nat) :=
    if OSC_CONTENTS_IS_MESSAGE oscContents then
      match oscContents with
      | .msg m => OscMessageToCharArray m MAX_OSC_PACKET_SIZE
      | .bundle _ => none
    else if OSC_CONTENTS_IS_BUNDLE oscContents then
      match oscContents with
      | .bundle b => OscBundleToCharArray b MAX_OSC_PACKET_SIZE
      | .msg _ => none
    else none
  match serialized with
  | none => (1, { contents := [] })
  | some bytes => (1, { contents := bytes })

/-- `OscPacketInitialiseFromCharArray` of OscPacket.c. -/
def OscPacketInitialiseFromCharArray (source : List Nat) (sourceSize : Nat) :
    Nat × OscPacket :=
  if sourceSize > MAX_OSC_PACKET_SIZE then (1, { contents := [] })
  else (0, { contents := (List.range sourceSize).map fun i => source.getD i 0 })

/-- The uninitialised stack-local `OscBundle` of `DeconstructContents`,
modelled as the all-zero structure. -/
def uninitialisedBundle : OscBundle :=
  { header := [0, 0, 0, 0, 0, 0, 0, 0]
    oscTimeTag := 0
    oscBundleElements := []
    oscBundleElementsIndex := 0 }

mutual

/-- `DeconstructContents` of OscPacket.c.  The handler is modelled by
accumulating the `(oscTimeTag, oscMessage)` pairs it is invoked with (`none`
is the NULL time tag of a bare message).  Note that the return values of
`OscMessageInitialiseFromCharArray` and `OscBundleInitialiseFromCharArray`
are discarded, exactly as in the source. -/
def DeconstructContents : Nat → Option Nat → List Nat → Nat →
    Nat × List (Option Nat × OscMessage)
  | 0, _, _, _ => (1, [])
  | fuel + 1, oscTimeTag, oscContents, contentsSize =>
    if contentsSize = 0 then (1, [])
    else if oscContents.getD 0 0 = OscContentsTypeMessage then
      let (_, oscMessage) := OscMessageInitialiseFromCharArray oscContents contentsSize
      (0, [(oscTimeTag, oscMessage)])
    else if oscContents.getD 0 0 = OscContentsTypeBundle then
      let (_, oscBundle) := OscBundleInitialiseFromCharArray uninitialisedBundle
        oscContents contentsSize
      deconstructBundleLoop fuel oscBundle
    else (1, [])

/-- The element iteration do-while loop of `DeconstructContents`. -/
def deconstructBundleLoop : Nat → OscBundle → Nat × List (Option Nat × OscMessage)
  | 0, _ => (1, [])
  | fuel + 1, oscBundle =>
    if ¬ OscBundleIsBundleElementAvailable oscBundle then (0, [])
    else
      match OscBundleGetBundleElement oscBundle with
      | (0, oscBundle', some oscBundleElement) =>
        match DeconstructContents fuel (some oscBundle.oscTimeTag)
          oscBundleElement.contents oscBundleElement.size with
        | (0, calls) =>
          let (e2, calls2) := deconstructBundleLoop fuel oscBundle'
          (e2, calls ++ calls2)
        | (e, calls) => (e, calls)
      | (e, _, _) => (e, [])

end

/-- `OscPacketProcessMessages` of OscPacket.c; `hasHandler` models whether the
`processMessage` pointer is non-NULL. -/
def OscPacketProcessMessages (hasHandler : Bool) (p : OscPacket) :
    Nat × List (Option Nat × OscMessage) :=
  if ¬ hasHandler then (1, [])
  else DeconstructContents (p.contents.length + 1) none p.contents p.contents.length

/-- SLIP frame end byte. -/
def SLIP_END : Nat := 192

/-- SLIP escape byte. -/
def SLIP_ESC : Nat := 219

/-- SLIP escaped frame end byte. -/
def SLIP_ESC_END : Nat := 220

/-- SLIP escaped escape byte. -/
def SLIP_ESC_ESC : Nat := 221

/-- The state of an `OscSlipDecoder` structure: the receive buffer (a list of
length `OSC_SLIP_DECODER_BUFFER_SIZE`), the write index, and whether a
`processPacket` handler is registered. -/
structure OscSlipDecoder where
  buffer : List Nat
  bufferIndex : Nat
  hasHandler : Bool
deriving DecidableEq

/-- `OscSlipDecoderInitialise` of OscSlip.c, with the buffer modelled as
zero-filled (the C buffer is uninitialised, but only bytes written since the
last frame start are ever reachable by the decode loop before the terminating
END byte). -/
def OscSlipDecoderInitialise : OscSlipDecoder :=
  { buffer := List.replicate OSC_SLIP_DECODER_BUFFER_SIZE 0
    bufferIndex := 0
    hasHandler := false }

/-- The un-escaping while loop of `OscSlipDecoderProcessByte`, walking the
buffer from index 0 until the END byte, un-escaping and bound-checking the
decoded packet after every byte.  Walking past the end of the modelled buffer
(an out-of-bounds read in C) is rendered as a decode failure. -/
def slipDecodeLoop : List Nat → List Nat → Option (List Nat)
  | [], _ => none
  | b :: rest, acc =>
    if b = SLIP_END then some acc
    else if b = SLIP_ESC then
      match rest with
      | [] => none
      | e :: rest' =>
        if e = SLIP_ESC_END then
          if acc.length + 1 > MAX_OSC_PACKET_SIZE then none
          else slipDecodeLoop rest' (acc ++ [SLIP_END])
        else if e = SLIP_ESC_ESC then
          if acc.length + 1 > MAX_OSC_PACKET_SIZE then none
          else slipDecodeLoop rest' (acc ++ [SLIP_ESC])
        else none
    else
      if acc.length + 1 > MAX_OSC_PACKET_SIZE then none
      else slipDecodeLoop rest (acc ++ [b])

/-- `OscSlipDecoderProcessByte` of OscSlip.c.  Returns the error code, the
updated decoder, and the list of packets passed to the `processPacket`
handler during the call (empty or a singleton). -/
def OscSlipDecoderProcessByte (d : OscSlipDecoder) (byte : Nat) :
    Nat × OscSlipDecoder × List OscPacket :=
  let buf := d.buffer.set d.bufferIndex byte
  let idx := if d.bufferIndex + 1 ≥ OSC_SLIP_DECODER_BUFFER_SIZE then 0 else d.bufferIndex + 1
  if byte = SLIP_END then
    let d' : OscSlipDecoder := { buffer := buf, bufferIndex := 0, hasHandler := d.hasHandler }
    if ¬ d.hasHandler then (1, d', [])
    else
      match slipDecodeLoop buf [] with
      | none => (1, d', [])
      | some contents => (0, d', [{ contents := contents }])
  else (0, { buffer := buf, bufferIndex := idx, hasHandler := d.hasHandler }, [])

/-- The encode loop of `OscSlipEncodePacket`, escaping each packet byte with a
capacity check at the top of every iteration. -/
def slipEncodeLoop : List Nat → List Nat → Nat → Option (List Nat)
  | [], out, _ => some (out ++ [SLIP_END])
  | b :: rest, out, destinationSize =>
    if out.length + 1 > destinationSize then none
    else if b = SLIP_END then slipEncodeLoop rest (out ++ [SLIP_ESC, SLIP_ESC_END]) destinationSize
    else if b = SLIP_ESC then slipEncodeLoop rest (out ++ [SLIP_ESC, SLIP_ESC_ESC]) destinationSize
    else slipEncodeLoop rest (out ++ [b]) destinationSize

/-- `OscSlipEncodePacket` of OscSlip.c.  The returned list holds every byte
the source writes to the destination, in order of their indices — including,
on the success path, the unchecked trailing END write; `none` is the error
return 1 (with `*slipPacketSize` left at 0). -/
def OscSlipEncodePacket (p : OscPacket) (destinationSize : Nat) : Option (List Nat) :=
  slipEncodeLoop p.contents [] destinationSize

/-- Feeding a byte sequence one byte at a time into a SLIP decoder,
accumulating the packets handed to the handler. -/
def feedBytes (d : OscSlipDecoder) (bytes : List Nat) :
    OscSlipDecoder × List OscPacket :=
  bytes.foldl
    (fun s b =>
      let r := OscSlipDecoderProcessByte s.1 b
      (r.2.1, s.2 ++ r.2.2))
    (d, [])

/-- A single OSC argument value, one constructor per `append_*` call of the
construction API.  Numeric values are bit patterns (see the module header). -/
inductive OscArg where
  | int32 (v : Nat)
  | float32 (v : Nat)
  | string (s : List Nat)
  | blob (bytes : List Nat)
  | int64 (v : Nat)
  | timeTag (v : Nat)
  | double64 (v : Nat)
  | altString (s : List Nat)
  | character (c : Nat)
  | rgba (v : Nat)
  | midi (v : Nat)
  | boolean (b : Bool)
  | nil
  | infinitum
  | beginArray
  | endArray
deriving DecidableEq

/-- The `append_*` call of the construction API corresponding to an
argument. -/
def appendOscArg (m : OscMessage) : OscArg → Nat × OscMessage
  | .int32 v => OscMessageAddInt32 m v
  | .float32 v => OscMessageAddFloat32 m v
  | .string s => OscMessageAddString m s
  | .blob bytes => OscMessageAddBlob m bytes
  | .int64 v => OscMessageAddInt64 m v
  | .timeTag v => OscMessageAddTimeTag m v
  | .double64 v => OscMessageAddDouble m v
  | .altString s => OscMessageAddAlternateString m s
  | .character c => OscMessageAddCharacter m c
  | .rgba v => OscMessageAddRgbaColour m v
  | .midi v => OscMessageAddMidiMessage m v
  | .boolean b => OscMessageAddBool m b
  | .nil => OscMessageAddNil m
  | .infinitum => OscMessageAddInfinitum m
  | .beginArray => OscMessageAddBeginArray m
  | .endArray => OscMessageAddEndArray m

/-- Appending a list of arguments in order, failing as soon as one
`append_*` call reports an error. -/
def buildArgs (m : OscMessage) : List OscArg → Option OscMessage
  | [] => some m
  | a :: rest =>
    match appendOscArg m a with
    | (0, m') => buildArgs m' rest
    | _ => none

/-- Building a message through the construction API: `OscMessageInitialise`
with the address pattern, then the `append_*` calls in order. -/
def buildMessage (oscAddressPattern : List Nat) (args : List OscArg) :
    Option OscMessage :=
  match OscMessageInitialise oscAddressPattern with
  | (0, m) => buildArgs m args
  | _ => none

/-- The positional read of one argument: the `get_*` call matching the
argument's kind (payload-free kinds are read through
`OscMessageGetArgumentType` followed by `OscMessageSkipArgument`).  Succeeds
only when the call succeeds and the value read back equals the argument. -/
def checkArg (m : OscMessage) : OscArg → Option OscMessage
  | .int32 v =>
    match OscMessageGetInt32 m with
    | (0, m', some w) => if w = v then some m' else none
    | _ => none
  | .float32 v =>
    match OscMessageGetFloat32 m with
    | (0, m', some w) => if w = v then some m' else none
    | _ => none
  | .string s =>
    match OscMessageGetString m (MAX_ARGUMENTS_SIZE + 4) with
    | (0, m', some dest) => if dest = s ++ [0] then some m' else none
    | _ => none
  | .blob bytes =>
    match OscMessageGetBlob m MAX_ARGUMENTS_SIZE with
    | (0, m', some (n, dest)) => if n = bytes.length ∧ dest = bytes then some m' else none
    | _ => none
  | .int64 v =>
    match OscMessageGetInt64 m with
    | (0, m', some w) => if w = v then some m' else none
    | _ => none
  | .timeTag v =>
    match OscMessageGetTimeTag m with
    | (0, m', some w) => if w = v then some m' else none
    | _ => none
  | .double64 v =>
    match OscMessageGetDouble m with
    | (0, m', some w) => if w = v then some m' else none
    | _ => none
  | .altString s =>
    match OscMessageGetString m (MAX_ARGUMENTS_SIZE + 4) with
    | (0, m', some dest) => if dest = s ++ [0] then some m' else none
    | _ => none
  | .character c =>
    match OscMessageGetCharacter m with
    | (0, m', some w) => if w = c then some m' else none
    | _ => none
  | .rgba v =>
    match OscMessageGetRgbaColour m with
    | (0, m', some w) => if w = v then some m' else none
    | _ => none
  | .midi v =>
    match OscMessageGetMidiMessage m with
    | (0, m', some w) => if w = v then some m' else none
    | _ => none
  | .boolean b =>
    if OscMessageGetArgumentType m = (if b then OscTypeTagTrue else OscTypeTagFalse) then
      match OscMessageSkipArgument m with
      | (0, m') => some m'
      | _ => none
    else none
  | .nil =>
    if OscMessageGetArgumentType m = OscTypeTagNil then
      match OscMessageSkipArgument m with
      | (0, m') => some m'
      | _ => none
    else none
  | .infinitum =>
    if OscMessageGetArgumentType m = OscTypeTagInfinitum then
      match OscMessageSkipArgument m with
      | (0, m') => some m'
      | _ => none
    else none
  | .beginArray =>
    if OscMessageGetArgumentType m = OscTypeTagBeginArray then
      match OscMessageSkipArgument m with
      | (0, m') => some m'
      | _ => none
    else none
  | .endArray =>
    if OscMessageGetArgumentType m = OscTypeTagEndArray then
      match OscMessageSkipArgument m with
      | (0, m') => some m'
      | _ => none
    else none

/-- Reading back a list of arguments in positional order. -/
def checkArgs (m : OscMessage) : List OscArg → Option OscMessage
  | [] => some m
  | a :: rest =>
    match checkArg m a with
    | some m' => checkArgs m' rest
    | none => none

/-- The type tag character an `append_*` call writes for an argument. -/
def argTag : OscArg → Nat
  | .int32 _ => OscTypeTagInt32
  | .float32 _ => OscTypeTagFloat32
  | .string _ => OscTypeTagString
  | .blob _ => OscTypeTagBlob
  | .int64 _ => OscTypeTagInt64
  | .timeTag _ => OscTypeTagTimeTag
  | .double64 _ => OscTypeTagDouble
  | .altString _ => OscTypeTagAlternateString
  | .character _ => OscTypeTagCharacter
  | .rgba _ => OscTypeTagRgbaColour
  | .midi _ => OscTypeTagMidiMessage
  | .boolean b => if b then OscTypeTagTrue else OscTypeTagFalse
  | .nil => OscTypeTagNil
  | .infinitum => OscTypeTagInfinitum
  | .beginArray => OscTypeTagBeginArray
  | .endArray => OscTypeTagEndArray

/-- The payload bytes an `append_*` call writes for an argument. -/
def argPayload : OscArg → List Nat
  | .int32 v => be32 v
  | .float32 v => be32 v
  | .string s => s ++ List.replicate (padTo4 (s.length + 1) - s.length) 0
  | .blob bytes => be32 bytes.length ++ bytes ++ List.replicate ((4 - bytes.length % 4) % 4) 0
  | .int64 v => be64 v
  | .timeTag v => be64 v
  | .double64 v => be64 v
  | .altString s => s ++ List.replicate (padTo4 (s.length + 1) - s.length) 0
  | .character c => [0, 0, 0, c]
  | .rgba v => be32 v
  | .midi v => be32 v
  | .boolean _ => []
  | .nil => []
  | .infinitum => []
  | .beginArray => []
  | .endArray => []

/-- Well-formedness of an argument value for the byte-level model: numeric
patterns fit their width, string characters are non-null bytes, blob and
character bytes are bytes. -/
def ArgWF : OscArg → Prop
  | .int32 v => v < 2 ^ 32
  | .float32 v => v < 2 ^ 32
  | .string s => ∀ c ∈ s, 0 < c ∧ c < 256
  | .blob bytes => ∀ c ∈ bytes, c < 256
  | .int64 v => v < 2 ^ 64
  | .timeTag v => v < 2 ^ 64
  | .double64 v => v < 2 ^ 64
  | .altString s => ∀ c ∈ s, 0 < c ∧ c < 256
  | .character c => c < 256
  | .rgba v => v < 2 ^ 32
  | .midi v => v < 2 ^ 32
  | .boolean _ => True
  | .nil => True
  | .infinitum => True
  | .beginArray => True
  | .endArray => True

/-- Well-formedness of an address pattern for the construction API: non-empty,
leading solidus, and non-null byte characters (a C string). -/
def AddrWF (addr : List Nat) : Prop :=
  addr ≠ [] ∧ addr.getD 0 0 = OscContentsTypeMessage ∧ ∀ c ∈ addr, 0 < c ∧ c < 256

/-- The serialized byte image of a message: address as an OSC-string, type tag
string as an OSC-string, then the raw argument bytes. -/
def serialBytes (m : OscMessage) : List Nat :=
  m.oscAddressPattern ++
    List.replicate (padTo4 (m.oscAddressPattern.length + 1) - m.oscAddressPattern.length) 0 ++
    m.oscTypeTagString ++
    List.replicate (padTo4 (m.oscTypeTagString.length + 1) - m.oscTypeTagString.length) 0 ++
    m.arguments

/-- A message whose type tag string already holds the maximum 16 tag
characters, used to witness capacity refusals of the append calls. -/
def fullTagsMessage : OscMessage :=
  { oscAddressPattern := [47, 97]
    oscTypeTagString := commaByte :: List.replicate 16 OscTypeTagInt32
    arguments := []
    oscTypeTagStringIndex := 1
    argumentsIndex := 0 }

/-- A message whose argument region holds 1383 bytes (one below
`MAX_ARGUMENTS_SIZE`), used to witness capacity refusals of the string and
blob appends. -/
def nearFullArgsMessage : OscMessage :=
  { oscAddressPattern := [47, 97]
    oscTypeTagString := [commaByte]
    arguments := List.replicate 1383 7
    oscTypeTagStringIndex := 1
    argumentsIndex := 0 }

/-- The SLIP escape expansion of one packet byte (the three cases of the
encode loop's switch). -/
def escByte (b : Nat) : List Nat :=
  if b = SLIP_END then [SLIP_ESC, SLIP_ESC_END]
  else if b = SLIP_ESC then [SLIP_ESC, SLIP_ESC_ESC]
  else [b]

/-! ### Arithmetic facts about `padTo4` -/

lemma le_padTo4 (n : Nat) : n ≤ padTo4 n := by
  unfold padTo4; split_ifs <;> omega

lemma padTo4_le (n : Nat) : padTo4 n ≤ n + 3 := by
  unfold padTo4; split_ifs <;> omega

lemma padTo4_mod (n : Nat) : padTo4 n % 4 = 0 := by
  unfold padTo4; split_ifs <;> omega

lemma padTo4_add_left (k n : Nat) (h : k % 4 = 0) : padTo4 (k + n) = k + padTo4 n := by
  unfold padTo4; split_ifs <;> omega

lemma padTo4_of_mod (n : Nat) (h : n % 4 = 0) : padTo4 n = n := by
  unfold padTo4; split_ifs <;> omega

lemma padTo4_succ_of_not (n : Nat) (h : (n + 1) % 4 ≠ 0) :
    padTo4 (n + 1 + 1) = padTo4 (n + 1) := by
  unfold padTo4; split_ifs <;> omega

lemma padTo4_le_of_le (m n : Nat) (h : m ≤ n) (hn : n % 4 = 0) : padTo4 m ≤ n := by
  unfold padTo4; split_ifs <;> omega

/-! ### Characterization of `TerminateOscString` -/

lemma terminateOscString_some (fuel : Nat) (l : List Nat) (maxSize : Nat)
    (h : padTo4 (l.length + 1) ≤ maxSize)
    (hf : padTo4 (l.length + 1) - l.length ≤ fuel) :
    TerminateOscString fuel l maxSize =
      some (l ++ List.replicate (padTo4 (l.length + 1) - l.length) 0) := by
  induction fuel generalizing l with
  | zero =>
    exfalso
    have := le_padTo4 (l.length + 1)
    omega
  | succ fuel ih =>
    have hlt : ¬ l.length ≥ maxSize := by
      have := le_padTo4 (l.length + 1); omega
    unfold TerminateOscString
    rw [if_neg hlt]
    by_cases h1 : (l ++ [0]).length % 4 = 0
    · rw [if_pos h1]
      have hlen : (l ++ [0]).length = l.length + 1 := by simp
      rw [hlen] at h1
      have : padTo4 (l.length + 1) = l.length + 1 := padTo4_of_mod _ h1
      rw [this]
      simp
    · rw [if_neg h1]
      have hlen : (l ++ [0]).length = l.length + 1 := by simp
      rw [hlen] at h1
      have heq : padTo4 (l.length + 1 + 1) = padTo4 (l.length + 1) := padTo4_succ_of_not _ h1
      have h' : padTo4 ((l ++ [0]).length + 1) ≤ maxSize := by
        rw [hlen, heq]; exact h
      have hf' : padTo4 ((l ++ [0]).length + 1) - (l ++ [0]).length ≤ fuel := by
        rw [hlen, heq]
        have := le_padTo4 (l.length + 1); omega
      rw [ih (l ++ [0]) h' hf']
      rw [hlen, heq]
      have hge : l.length + 1 ≤ padTo4 (l.length + 1) := le_padTo4 _
      have : padTo4 (l.length + 1) - (l.length + 1) + 1 = padTo4 (l.length + 1) - l.length := by
        omega
      rw [List.append_assoc]
      congr 1
      rw [← this, List.singleton_append, ← List.replicate_succ]

lemma terminateOscString_spec (fuel : Nat) (l : List Nat) (maxSize : Nat)
    (l' : List Nat) (h : TerminateOscString fuel l maxSize = some l') :
    l' = l ++ List.replicate (l'.length - l.length) 0 ∧
      l'.length = padTo4 (l.length + 1) ∧ l'.length ≤ maxSize := by
  induction fuel generalizing l with
  | zero => simp [TerminateOscString] at h
  | succ fuel ih =>
    unfold TerminateOscString at h
    by_cases hlt : l.length ≥ maxSize
    · rw [if_pos hlt] at h; simp at h
    · rw [if_neg hlt] at h
      by_cases h1 : (l ++ [0]).length % 4 = 0
      · rw [if_pos h1] at h
        have hlen : (l ++ [0]).length = l.length + 1 := by simp
        rw [hlen] at h1
        cases h
        constructor
        · simp
        · rw [hlen, padTo4_of_mod _ h1]
          omega
      · rw [if_neg h1] at h
        have hlen : (l ++ [0]).length = l.length + 1 := by simp
        rw [hlen] at h1
        obtain ⟨he, hl, hm⟩ := ih (l ++ [0]) h
        rw [hlen] at hl
        have heq : padTo4 (l.length + 1 + 1) = padTo4 (l.length + 1) := padTo4_succ_of_not _ h1
        refine ⟨?_, by omega, hm⟩
        rw [hlen] at he
        conv_lhs => rw [he]
        rw [List.append_assoc]
        congr 1
        have hge : l.length + 1 ≤ padTo4 (l.length + 1) := le_padTo4 _
        have : l'.length - (l.length + 1) + 1 = l'.length - l.length := by omega
        rw [← this, List.singleton_append, ← List.replicate_succ]

/-! ### Characterization of `OscMessageGetSize` and `OscMessageToCharArray` -/

lemma oscMessageGetSize_eq (m : OscMessage) :
    OscMessageGetSize m =
      padTo4 (m.oscAddressPattern.length + 1) + padTo4 (m.oscTypeTagString.length + 1) +
        m.arguments.length := by
  unfold OscMessageGetSize
  rw [show padTo4 (m.oscAddressPattern.length + 1) + m.oscTypeTagString.length + 1 =
    padTo4 (m.oscAddressPattern.length + 1) + (m.oscTypeTagString.length + 1) by omega]
  rw [padTo4_add_left _ _ (padTo4_mod _)]

lemma serialBytes_length (m : OscMessage) :
    (serialBytes m).length = OscMessageGetSize m := by
  have h1 := le_padTo4 (m.oscAddressPattern.length + 1)
  have h2 := le_padTo4 (m.oscTypeTagString.length + 1)
  simp [serialBytes, oscMessageGetSize_eq]
  omega

lemma toCharArray_eq_serialBytes (m : OscMessage) (D : Nat)
    (h1 : m.oscAddressPattern.length ≠ 0)
    (h2 : m.oscAddressPattern.getD 0 0 = OscContentsTypeMessage)
    (hcap : OscMessageGetSize m ≤ D) :
    OscMessageToCharArray m D = some (serialBytes m) := by
  have hsz := oscMessageGetSize_eq m
  have hp1 := le_padTo4 (m.oscAddressPattern.length + 1)
  have hp2 := le_padTo4 (m.oscTypeTagString.length + 1)
  unfold OscMessageToCharArray
  rw [if_neg (by omega : ¬ m.oscAddressPattern.length = 0)]
  rw [if_neg (by rw [h2]; simp)]
  rw [if_neg (by omega : ¬ m.oscAddressPattern.length > D)]
  rw [terminateOscString_some 4 _ D (by omega)
    (by have := padTo4_le (m.oscAddressPattern.length + 1); omega)]
  rw [Option.some_bind]
  have hd1len :
      (m.oscAddressPattern ++
        List.replicate (padTo4 (m.oscAddressPattern.length + 1) -
          m.oscAddressPattern.length) 0).length =
      padTo4 (m.oscAddressPattern.length + 1) := by
    simp; omega
  rw [if_neg (by rw [hd1len]; omega)]
  have hcat :
      (m.oscAddressPattern ++
          List.replicate (padTo4 (m.oscAddressPattern.length + 1) -
            m.oscAddressPattern.length) 0 ++ m.oscTypeTagString).length =
        padTo4 (m.oscAddressPattern.length + 1) + m.oscTypeTagString.length := by
    simp; omega
  rw [terminateOscString_some 4 _ D
    (by
      rw [hcat, show padTo4 (m.oscAddressPattern.length + 1) + m.oscTypeTagString.length + 1 =
        padTo4 (m.oscAddressPattern.length + 1) + (m.oscTypeTagString.length + 1) by omega,
        padTo4_add_left _ _ (padTo4_mod _)]
      omega)
    (by
      rw [hcat, show padTo4 (m.oscAddressPattern.length + 1) + m.oscTypeTagString.length + 1 =
        padTo4 (m.oscAddressPattern.length + 1) + (m.oscTypeTagString.length + 1) by omega,
        padTo4_add_left _ _ (padTo4_mod _)]
      have := padTo4_le (m.oscTypeTagString.length + 1); omega)]
  rw [Option.some_bind]
  have hpadeq : padTo4 ((m.oscAddressPattern ++
      List.replicate (padTo4 (m.oscAddressPattern.length + 1) -
        m.oscAddressPattern.length) 0 ++ m.oscTypeTagString).length + 1) =
      padTo4 (m.oscAddressPattern.length + 1) + padTo4 (m.oscTypeTagString.length + 1) := by
    rw [hcat, show padTo4 (m.oscAddressPattern.length + 1) + m.oscTypeTagString.length + 1 =
      padTo4 (m.oscAddressPattern.length + 1) + (m.oscTypeTagString.length + 1) by omega,
      padTo4_add_left _ _ (padTo4_mod _)]
  have harg :
      (m.oscAddressPattern ++
            List.replicate (padTo4 (m.oscAddressPattern.length + 1) -
              m.oscAddressPattern.length) 0 ++ m.oscTypeTagString ++
            List.replicate (padTo4 ((m.oscAddressPattern ++
                List.replicate (padTo4 (m.oscAddressPattern.length + 1) -
                  m.oscAddressPattern.length) 0 ++ m.oscTypeTagString).length + 1) -
              (m.oscAddressPattern ++
                List.replicate (padTo4 (m.oscAddressPattern.length + 1) -
                  m.oscAddressPattern.length) 0 ++ m.oscTypeTagString).length) 0).length =
        padTo4 (m.oscAddressPattern.length + 1) + padTo4 (m.oscTypeTagString.length + 1) := by
    rw [List.length_append, List.length_replicate, hpadeq, hcat]
    omega
  rw [if_neg (by rw [harg]; omega)]
  have hcnteq :
      padTo4 ((m.oscAddressPattern ++
            List.replicate (padTo4 (m.oscAddressPattern.length + 1) -
              m.oscAddressPattern.length) 0 ++ m.oscTypeTagString).length + 1) -
          (m.oscAddressPattern ++
            List.replicate (padTo4 (m.oscAddressPattern.length + 1) -
              m.oscAddressPattern.length) 0 ++ m.oscTypeTagString).length =
        padTo4 (m.oscTypeTagString.length + 1) - m.oscTypeTagString.length := by
    rw [hpadeq, hcat]
    omega
  rw [hcnteq]
  rfl

/-- C10 helper: any successful serialization writes exactly
`OscMessageGetSize` bytes. -/
lemma toCharArray_length (m : OscMessage) (D : Nat) (out : List Nat)
    (h : OscMessageToCharArray m D = some out) :
    out.length = OscMessageGetSize m := by
  unfold OscMessageToCharArray at h
  split at h
  · exact absurd h (by simp)
  split at h
  · exact absurd h (by simp)
  split at h
  · exact absurd h (by simp)
  rcases ht1 : TerminateOscString 4 m.oscAddressPattern D with _ | d1 <;> rw [ht1] at h
  · rw [Option.none_bind] at h; exact absurd h (by simp)
  rw [Option.some_bind] at h
  obtain ⟨_, hl1, _⟩ := terminateOscString_spec _ _ _ _ ht1
  split at h
  · exact absurd h (by simp)
  rcases ht2 : TerminateOscString 4 (d1 ++ m.oscTypeTagString) D with _ | d2 <;> rw [ht2] at h
  · rw [Option.none_bind] at h; exact absurd h (by simp)
  rw [Option.some_bind] at h
  obtain ⟨_, hl2, _⟩ := terminateOscString_spec _ _ _ _ ht2
  split at h
  · exact absurd h (by simp)
  cases h
  unfold OscMessageGetSize
  simp at hl2 ⊢
  rw [hl1] at hl2
  omega

/-! ### Failure of an `append_*` call leaves the message unchanged (C5) -/

lemma addInt32_fail_noop (m : OscMessage) (v : Nat)
    (h : (OscMessageAddInt32 m v).1 ≠ 0) : (OscMessageAddInt32 m v).2 = m := by
  unfold OscMessageAddInt32 at h ⊢
  split_ifs at h ⊢ <;> simp_all

lemma addFloat32_fail_noop (m : OscMessage) (v : Nat)
    (h : (OscMessageAddFloat32 m v).1 ≠ 0) : (OscMessageAddFloat32 m v).2 = m := by
  unfold OscMessageAddFloat32 at h ⊢
  split_ifs at h ⊢ <;> simp_all

lemma addString_fail_noop (m : OscMessage) (s : List Nat)
    (h : (OscMessageAddString m s).1 ≠ 0) : (OscMessageAddString m s).2 = m := by
  unfold OscMessageAddString at h ⊢
  split_ifs at h ⊢
  · rfl
  · rcases hx : (addStringLoop m.arguments s).bind
        (fun acc => TerminateOscString 4 acc MAX_ARGUMENTS_SIZE) with _ | acc
    · rfl
    · rw [hx] at h
      simp at h

lemma addBlob_fail_noop (m : OscMessage) (s : List Nat)
    (h : (OscMessageAddBlob m s).1 ≠ 0) : (OscMessageAddBlob m s).2 = m := by
  unfold OscMessageAddBlob at h ⊢
  split_ifs at h ⊢
  · rfl
  · rfl
  · rcases hx : blobPadLoop 4 (m.arguments ++ be32 s.length ++ s) with _ | acc
    · rfl
    · rw [hx] at h
      simp at h

lemma addInt64_fail_noop (m : OscMessage) (v : Nat)
    (h : (OscMessageAddInt64 m v).1 ≠ 0) : (OscMessageAddInt64 m v).2 = m := by
  unfold OscMessageAddInt64 at h ⊢
  split_ifs at h ⊢ <;> simp_all

lemma addTimeTag_fail_noop (m : OscMessage) (v : Nat)
    (h : (OscMessageAddTimeTag m v).1 ≠ 0) : (OscMessageAddTimeTag m v).2 = m := by
  unfold OscMessageAddTimeTag at h ⊢
  split_ifs at h ⊢ <;> simp_all

lemma addDouble_fail_noop (m : OscMessage) (v : Nat)
    (h : (OscMessageAddDouble m v).1 ≠ 0) : (OscMessageAddDouble m v).2 = m := by
  unfold OscMessageAddDouble at h ⊢
  split_ifs at h ⊢ <;> simp_all

lemma addAlternateString_fail_noop (m : OscMessage) (s : List Nat)
    (h : (OscMessageAddAlternateString m s).1 ≠ 0) :
    (OscMessageAddAlternateString m s).2 = m := by
  unfold OscMessageAddAlternateString at h ⊢
  rcases hx : OscMessageAddString m s with ⟨e, m'⟩
  cases e
  · rw [hx] at h
    simp at h
  · rfl

lemma addCharacter_fail_noop (m : OscMessage) (c : Nat)
    (h : (OscMessageAddCharacter m c).1 ≠ 0) : (OscMessageAddCharacter m c).2 = m := by
  unfold OscMessageAddCharacter at h ⊢
  split_ifs at h ⊢ <;> simp_all

lemma addRgbaColour_fail_noop (m : OscMessage) (v : Nat)
    (h : (OscMessageAddRgbaColour m v).1 ≠ 0) : (OscMessageAddRgbaColour m v).2 = m := by
  unfold OscMessageAddRgbaColour at h ⊢
  split_ifs at h ⊢ <;> simp_all

lemma addMidiMessage_fail_noop (m : OscMessage) (v : Nat)
    (h : (OscMessageAddMidiMessage m v).1 ≠ 0) : (OscMessageAddMidiMessage m v).2 = m := by
  unfold OscMessageAddMidiMessage at h ⊢
  split_ifs at h ⊢ <;> simp_all

lemma addBool_fail_noop (m : OscMessage) (b : Bool)
    (h : (OscMessageAddBool m b).1 ≠ 0) : (OscMessageAddBool m b).2 = m := by
  unfold OscMessageAddBool at h ⊢
  split_ifs at h ⊢ <;> simp_all

lemma addNil_fail_noop (m : OscMessage)
    (h : (OscMessageAddNil m).1 ≠ 0) : (OscMessageAddNil m).2 = m := by
  unfold OscMessageAddNil at h ⊢
  split_ifs at h ⊢ <;> simp_all

lemma addInfinitum_fail_noop (m : OscMessage)
    (h : (OscMessageAddInfinitum m).1 ≠ 0) : (OscMessageAddInfinitum m).2 = m := by
  unfold OscMessageAddInfinitum at h ⊢
  split_ifs at h ⊢ <;> simp_all

lemma addBeginArray_fail_noop (m : OscMessage)
    (h : (OscMessageAddBeginArray m).1 ≠ 0) : (OscMessageAddBeginArray m).2 = m := by
  unfold OscMessageAddBeginArray at h ⊢
  split_ifs at h ⊢ <;> simp_all

lemma addEndArray_fail_noop (m : OscMessage)
    (h : (OscMessageAddEndArray m).1 ≠ 0) : (OscMessageAddEndArray m).2 = m := by
  unfold OscMessageAddEndArray at h ⊢
  split_ifs at h ⊢ <;> simp_all

/-- C5: every `append_*` call that fails (in particular the capacity
refusals of `OscMessageAddString` and `OscMessageAddBlob`) returns a nonzero
error and leaves the message's observable state — address pattern, type tag
string (hence tag count), argument bytes and arguments size — exactly as it
was before the call. -/
theorem C5_append_failure_is_noop :
    (∀ m s, (OscMessageAddString m s).1 ≠ 0 → (OscMessageAddString m s).2 = m) ∧
    (∀ m s, (OscMessageAddBlob m s).1 ≠ 0 → (OscMessageAddBlob m s).2 = m) ∧
    (∀ m v, (OscMessageAddInt32 m v).1 ≠ 0 → (OscMessageAddInt32 m v).2 = m) ∧
    (∀ m v, (OscMessageAddFloat32 m v).1 ≠ 0 → (OscMessageAddFloat32 m v).2 = m) ∧
    (∀ m v, (OscMessageAddInt64 m v).1 ≠ 0 → (OscMessageAddInt64 m v).2 = m) ∧
    (∀ m v, (OscMessageAddTimeTag m v).1 ≠ 0 → (OscMessageAddTimeTag m v).2 = m) ∧
    (∀ m v, (OscMessageAddDouble m v).1 ≠ 0 → (OscMessageAddDouble m v).2 = m) ∧
    (∀ m s, (OscMessageAddAlternateString m s).1 ≠ 0 →
      (OscMessageAddAlternateString m s).2 = m) ∧
    (∀ m c, (OscMessageAddCharacter m c).1 ≠ 0 → (OscMessageAddCharacter m c).2 = m) ∧
    (∀ m v, (OscMessageAddRgbaColour m v).1 ≠ 0 → (OscMessageAddRgbaColour m v).2 = m) ∧
    (∀ m v, (OscMessageAddMidiMessage m v).1 ≠ 0 → (OscMessageAddMidiMessage m v).2 = m) ∧
    (∀ m b, (OscMessageAddBool m b).1 ≠ 0 → (OscMessageAddBool m b).2 = m) ∧
    (∀ m, (OscMessageAddNil m).1 ≠ 0 → (OscMessageAddNil m).2 = m) ∧
    (∀ m, (OscMessageAddInfinitum m).1 ≠ 0 → (OscMessageAddInfinitum m).2 = m) ∧
    (∀ m, (OscMessageAddBeginArray m).1 ≠ 0 → (OscMessageAddBeginArray m).2 = m) ∧
    (∀ m, (OscMessageAddEndArray m).1 ≠ 0 → (OscMessageAddEndArray m).2 = m) :=
  ⟨addString_fail_noop, addBlob_fail_noop, addInt32_fail_noop, addFloat32_fail_noop,
    addInt64_fail_noop, addTimeTag_fail_noop, addDouble_fail_noop,
    addAlternateString_fail_noop, addCharacter_fail_noop, addRgbaColour_fail_noop,
    addMidiMessage_fail_noop, addBool_fail_noop, addNil_fail_noop,
    addInfinitum_fail_noop, addBeginArray_fail_noop, addEndArray_fail_noop⟩

set_option maxRecDepth 10000 in
/-- C5 witness: a string append that hits the argument-capacity bound, a blob
append that hits it, and an int32 append that hits the tag-count bound all
fail and leave the concrete messages untouched. -/
theorem C5_append_failure_is_noop_witness :
    (OscMessageAddString nearFullArgsMessage [104]).1 ≠ 0 ∧
    (OscMessageAddString nearFullArgsMessage [104]).2 = nearFullArgsMessage ∧
    (OscMessageAddBlob nearFullArgsMessage [1, 2, 3]).1 ≠ 0 ∧
    (OscMessageAddBlob nearFullArgsMessage [1, 2, 3]).2 = nearFullArgsMessage ∧
    (OscMessageAddInt32 fullTagsMessage 5).1 ≠ 0 ∧
    (OscMessageAddInt32 fullTagsMessage 5).2 = fullTagsMessage :=
  ⟨by decide, C5_append_failure_is_noop.1 nearFullArgsMessage [104] (by decide),
    by decide, C5_append_failure_is_noop.2.1 nearFullArgsMessage [1, 2, 3] (by decide),
    by decide, C5_append_failure_is_noop.2.2.1 fullTagsMessage 5 (by decide)⟩

/-! ### C10: the reported size equals the number of serialized bytes -/

/-- C10: for every message whose serialization succeeds, the size reported by
`OscMessageGetSize` equals the number of bytes actually written by
`OscMessageToCharArray`. -/
theorem C10_getSize_eq_written_size (m : OscMessage) (destinationSize : Nat)
    (out : List Nat) (h : OscMessageToCharArray m destinationSize = some out) :
    out.length = OscMessageGetSize m :=
  toCharArray_length m destinationSize out h

/-- C10 witness: the 16-byte serialization of the message with address
`/test` and one int32 argument has exactly the reported size. -/
theorem C10_getSize_eq_written_size_witness :
    OscMessageToCharArray ⟨[47, 116, 101, 115, 116], [44, 105], [0, 0, 0, 1], 1, 0⟩
        MAX_OSC_PACKET_SIZE =
      some [47, 116, 101, 115, 116, 0, 0, 0, 44, 105, 0, 0, 0, 0, 0, 1] ∧
    ([47, 116, 101, 115, 116, 0, 0, 0, 44, 105, 0, 0, 0, 0, 0, 1] : List Nat).length =
      OscMessageGetSize ⟨[47, 116, 101, 115, 116], [44, 105], [0, 0, 0, 1], 1, 0⟩ :=
  ⟨by decide,
    C10_getSize_eq_written_size ⟨[47, 116, 101, 115, 116], [44, 105], [0, 0, 0, 1], 1, 0⟩
      MAX_OSC_PACKET_SIZE [47, 116, 101, 115, 116, 0, 0, 0, 44, 105, 0, 0, 0, 0, 0, 1]
      (by decide)⟩

/-! ### SLIP encoder and decoder lemmas (C3, C6, C8) -/

lemma slipEncodeLoop_some (p : List Nat) (out : List Nat) (D : Nat) (res : List Nat)
    (h : slipEncodeLoop p out D = some res) :
    res = out ++ p.flatMap escByte ++ [SLIP_END] := by
  induction p generalizing out with
  | nil =>
    unfold slipEncodeLoop at h
    simp only [Option.some.injEq] at h
    subst h
    simp
  | cons b rest ih =>
    unfold slipEncodeLoop at h
    by_cases h1 : out.length + 1 > D
    · rw [if_pos h1] at h
      exact absurd h (by simp)
    · rw [if_neg h1] at h
      by_cases h2 : b = SLIP_END
      · rw [if_pos h2] at h
        rw [ih _ h, List.flatMap_cons, h2,
          show escByte SLIP_END = [SLIP_ESC, SLIP_ESC_END] from rfl]
        simp
      · rw [if_neg h2] at h
        by_cases h3 : b = SLIP_ESC
        · rw [if_pos h3] at h
          rw [ih _ h, List.flatMap_cons, h3,
            show escByte SLIP_ESC = [SLIP_ESC, SLIP_ESC_ESC] from rfl]
          simp
        · rw [if_neg h3] at h
          rw [ih _ h, List.flatMap_cons,
            show escByte b = [b] by unfold escByte; rw [if_neg h2, if_neg h3]]
          simp

lemma escByte_ne_end (b : Nat) (x : Nat) (hx : x ∈ escByte b) : x ≠ SLIP_END := by
  unfold escByte at hx
  split_ifs at hx with h1 h2
  · simp at hx
    rcases hx with hx | hx <;> subst hx <;> decide
  · simp at hx
    rcases hx with hx | hx <;> subst hx <;> decide
  · simp at hx
    subst hx
    exact h1

lemma flatMap_escByte_ne_end (p : List Nat) (x : Nat) (hx : x ∈ p.flatMap escByte) :
    x ≠ SLIP_END := by
  rw [List.mem_flatMap] at hx
  obtain ⟨b, _, hb⟩ := hx
  exact escByte_ne_end b x hb

lemma slipDecodeLoop_cons_end (rest acc : List Nat) :
    slipDecodeLoop (SLIP_END :: rest) acc = some acc := by
  conv_lhs => unfold slipDecodeLoop
  rw [if_pos rfl]

lemma slipDecodeLoop_cons_escEnd (rest acc : List Nat)
    (h : ¬ acc.length + 1 > MAX_OSC_PACKET_SIZE) :
    slipDecodeLoop (SLIP_ESC :: SLIP_ESC_END :: rest) acc =
      slipDecodeLoop rest (acc ++ [SLIP_END]) := by
  conv_lhs => unfold slipDecodeLoop
  simp only [SLIP_END, SLIP_ESC, SLIP_ESC_END, SLIP_ESC_ESC] at h ⊢
  simp [h]

lemma slipDecodeLoop_cons_escEsc (rest acc : List Nat)
    (h : ¬ acc.length + 1 > MAX_OSC_PACKET_SIZE) :
    slipDecodeLoop (SLIP_ESC :: SLIP_ESC_ESC :: rest) acc =
      slipDecodeLoop rest (acc ++ [SLIP_ESC]) := by
  conv_lhs => unfold slipDecodeLoop
  simp only [SLIP_END, SLIP_ESC, SLIP_ESC_END, SLIP_ESC_ESC] at h ⊢
  simp [h]

lemma slipDecodeLoop_cons_plain (b : Nat) (rest acc : List Nat)
    (hb1 : ¬ b = SLIP_END) (hb2 : ¬ b = SLIP_ESC)
    (h : ¬ acc.length + 1 > MAX_OSC_PACKET_SIZE) :
    slipDecodeLoop (b :: rest) acc = slipDecodeLoop rest (acc ++ [b]) := by
  conv_lhs => unfold slipDecodeLoop
  rw [if_neg hb1, if_neg hb2, if_neg h]

lemma slipDecodeLoop_unescape (p : List Nat) (rest : List Nat) (acc : List Nat)
    (hsize : acc.length + p.length ≤ MAX_OSC_PACKET_SIZE) :
    slipDecodeLoop (p.flatMap escByte ++ SLIP_END :: rest) acc = some (acc ++ p) := by
  induction p generalizing acc with
  | nil =>
    rw [List.flatMap_nil, List.nil_append, slipDecodeLoop_cons_end]
    simp
  | cons b q ih =>
    rw [List.flatMap_cons, List.append_assoc]
    by_cases h1 : b = SLIP_END
    · subst h1
      rw [show escByte SLIP_END = [SLIP_ESC, SLIP_ESC_END] from rfl]
      rw [show ([SLIP_ESC, SLIP_ESC_END] : List Nat) ++
          (q.flatMap escByte ++ SLIP_END :: rest) =
          SLIP_ESC :: SLIP_ESC_END :: (q.flatMap escByte ++ SLIP_END :: rest) from rfl]
      rw [slipDecodeLoop_cons_escEnd _ _ (by simp at hsize ⊢; omega)]
      rw [ih _ (by simp at hsize ⊢; omega)]
      simp
    · by_cases h2 : b = SLIP_ESC
      · subst h2
        rw [show escByte SLIP_ESC = [SLIP_ESC, SLIP_ESC_ESC] from rfl]
        rw [show ([SLIP_ESC, SLIP_ESC_ESC] : List Nat) ++
            (q.flatMap escByte ++ SLIP_END :: rest) =
            SLIP_ESC :: SLIP_ESC_ESC :: (q.flatMap escByte ++ SLIP_END :: rest) from rfl]
        rw [slipDecodeLoop_cons_escEsc _ _ (by simp at hsize ⊢; omega)]
        rw [ih _ (by simp at hsize ⊢; omega)]
        simp
      · rw [show escByte b = [b] by unfold escByte; rw [if_neg h1, if_neg h2]]
        rw [show ([b] : List Nat) ++ (q.flatMap escByte ++ SLIP_END :: rest) =
            b :: (q.flatMap escByte ++ SLIP_END :: rest) from rfl]
        rw [slipDecodeLoop_cons_plain b _ _ h1 h2 (by simp at hsize ⊢; omega)]
        rw [ih _ (by simp at hsize ⊢; omega)]
        simp

/-- The step function of `feedBytes`. -/
lemma feedBytes_aux (bytes : List Nat) (d : OscSlipDecoder) (cs : List OscPacket) :
    bytes.foldl
        (fun s b =>
          let r := OscSlipDecoderProcessByte s.1 b
          (r.2.1, s.2 ++ r.2.2))
        (d, cs) =
      ((feedBytes d bytes).1, cs ++ (feedBytes d bytes).2) := by
  induction bytes generalizing d cs with
  | nil => simp [feedBytes]
  | cons b rest ih =>
    rw [List.foldl_cons]
    unfold feedBytes
    rw [List.foldl_cons]
    simp only []
    rw [ih, ih ((OscSlipDecoderProcessByte d b).2.1)]
    simp

lemma feedBytes_cons (d : OscSlipDecoder) (b : Nat) (bytes : List Nat) :
    feedBytes d (b :: bytes) =
      ((feedBytes (OscSlipDecoderProcessByte d b).2.1 bytes).1,
        (OscSlipDecoderProcessByte d b).2.2 ++
          (feedBytes (OscSlipDecoderProcessByte d b).2.1 bytes).2) := by
  conv_lhs => unfold feedBytes
  rw [List.foldl_cons]
  simp only []
  rw [feedBytes_aux]
  simp

lemma feedBytes_append (d d' : OscSlipDecoder) (cs : List OscPacket)
    (xs ys : List Nat) (h : feedBytes d xs = (d', cs)) :
    feedBytes d (xs ++ ys) = ((feedBytes d' ys).1, cs ++ (feedBytes d' ys).2) := by
  unfold feedBytes at h
  conv_lhs => unfold feedBytes
  rw [List.foldl_append, h, feedBytes_aux]

lemma set_append_replicate (pre : List Nat) (k : Nat) (x : Nat) (hk : 0 < k) :
    (pre ++ List.replicate k 0).set pre.length x =
      (pre ++ [x]) ++ List.replicate (k - 1) 0 := by
  rw [List.set_append, if_neg (by simp)]
  simp
  rcases k with _ | k
  · omega
  · rw [List.replicate_succ, List.set_cons_zero]
    simp [List.replicate_succ]

lemma feed_no_end (xs : List Nat) (pre : List Nat)
    (hxs : ∀ x ∈ xs, x ≠ SLIP_END)
    (hlen : pre.length + xs.length < OSC_SLIP_DECODER_BUFFER_SIZE) :
    feedBytes
        ⟨pre ++ List.replicate (OSC_SLIP_DECODER_BUFFER_SIZE - pre.length) 0,
          pre.length, true⟩ xs =
      (⟨(pre ++ xs) ++
            List.replicate (OSC_SLIP_DECODER_BUFFER_SIZE - (pre.length + xs.length)) 0,
          pre.length + xs.length, true⟩, []) := by
  induction xs generalizing pre with
  | nil => simp [feedBytes]
  | cons x rest ih =>
    have hx : x ≠ SLIP_END := hxs x (by simp)
    have hstep : OscSlipDecoderProcessByte
        ⟨pre ++ List.replicate (OSC_SLIP_DECODER_BUFFER_SIZE - pre.length) 0,
          pre.length, true⟩ x =
        (0, ⟨(pre ++ [x]) ++
              List.replicate (OSC_SLIP_DECODER_BUFFER_SIZE - (pre ++ [x]).length) 0,
            (pre ++ [x]).length, true⟩, []) := by
      unfold OscSlipDecoderProcessByte
      simp only []
      rw [if_neg hx]
      rw [set_append_replicate pre _ x (by simp at hlen ⊢; omega)]
      rw [if_neg (by simp at hlen ⊢; omega)]
      rw [show OSC_SLIP_DECODER_BUFFER_SIZE - pre.length - 1 =
        OSC_SLIP_DECODER_BUFFER_SIZE - (pre ++ [x]).length by simp; omega]
      rw [show pre.length + 1 = (pre ++ [x]).length by simp]
    have hgoal1 : pre ++ x :: rest = (pre ++ [x]) ++ rest := by simp
    have hgoal2 : pre.length + (x :: rest).length = (pre ++ [x]).length + rest.length := by
      simp
      omega
    rw [hgoal1, hgoal2, feedBytes_cons, hstep]
    simp only []
    rw [ih (pre ++ [x]) (fun y hy => hxs y (by simp [hy]))
      (by simp at hlen ⊢; omega)]
    simp

/-- C3: for every packet whose SLIP encoding fits in the decoder buffer and
whose size is at most `MAX_OSC_PACKET_SIZE`, feeding the encoder's output one
byte at a time to a freshly initialised decoder with a registered handler
invokes the handler exactly once, with a packet equal to the original. -/
theorem C3_slip_roundtrip (p : OscPacket) (destinationSize : Nat) (enc : List Nat)
    (henc : OscSlipEncodePacket p destinationSize = some enc)
    (hfit : enc.length ≤ OSC_SLIP_DECODER_BUFFER_SIZE)
    (hsize : p.contents.length ≤ MAX_OSC_PACKET_SIZE) :
    (feedBytes { OscSlipDecoderInitialise with hasHandler := true } enc).2 = [p] := by
  have hshape := slipEncodeLoop_some p.contents [] destinationSize enc henc
  simp only [List.nil_append] at hshape
  subst hshape
  have hxs : ∀ x ∈ p.contents.flatMap escByte, x ≠ SLIP_END := fun x hx =>
    flatMap_escByte_ne_end p.contents x hx
  have hn : (p.contents.flatMap escByte).length < OSC_SLIP_DECODER_BUFFER_SIZE := by
    rw [List.length_append] at hfit
    simp only [List.length_singleton] at hfit
    omega
  have hfeed := feed_no_end (p.contents.flatMap escByte) [] hxs (by simpa using hn)
  simp only [List.nil_append, List.length_nil, Nat.zero_add, Nat.sub_zero] at hfeed
  rw [show ({ OscSlipDecoderInitialise with hasHandler := true } : OscSlipDecoder) =
      ⟨List.replicate OSC_SLIP_DECODER_BUFFER_SIZE 0, 0, true⟩ by
    simp [OscSlipDecoderInitialise]]
  rw [feedBytes_append _ _ _ _ _ hfeed]
  rw [feedBytes_cons]
  have hstep : OscSlipDecoderProcessByte
      ⟨p.contents.flatMap escByte ++
          List.replicate (OSC_SLIP_DECODER_BUFFER_SIZE - (p.contents.flatMap escByte).length) 0,
        (p.contents.flatMap escByte).length, true⟩ SLIP_END =
      (0, ⟨(p.contents.flatMap escByte ++ [SLIP_END]) ++
            List.replicate (OSC_SLIP_DECODER_BUFFER_SIZE -
              (p.contents.flatMap escByte).length - 1) 0,
          0, true⟩, [p]) := by
    unfold OscSlipDecoderProcessByte
    simp only []
    rw [if_pos trivial]
    rw [if_neg (by simp : ¬ ¬ True)]
    rw [set_append_replicate _ _ _ (by omega)]
    rw [show (p.contents.flatMap escByte ++ [SLIP_END]) ++
        List.replicate (OSC_SLIP_DECODER_BUFFER_SIZE -
          (p.contents.flatMap escByte).length - 1) 0 =
        p.contents.flatMap escByte ++ SLIP_END ::
          List.replicate (OSC_SLIP_DECODER_BUFFER_SIZE -
            (p.contents.flatMap escByte).length - 1) 0 by
      simp]
    rw [slipDecodeLoop_unescape p.contents _ [] (by simpa using hsize)]
    simp
  rw [hstep]
  simp [feedBytes]

set_option maxRecDepth 10000 in
/-- C3 witness: the packet `C0 DB 01` encodes to `DB DC DB DD 01 C0` and,
fed byte by byte to a fresh decoder with a handler, produces exactly one
handler invocation carrying the original packet. -/
theorem C3_slip_roundtrip_witness :
    OscSlipEncodePacket ⟨[192, 219, 1]⟩ 100 = some [219, 220, 219, 221, 1, 192] ∧
    ([219, 220, 219, 221, 1, 192] : List Nat).length ≤ OSC_SLIP_DECODER_BUFFER_SIZE ∧
    ([192, 219, 1] : List Nat).length ≤ MAX_OSC_PACKET_SIZE ∧
    (feedBytes { OscSlipDecoderInitialise with hasHandler := true }
      [219, 220, 219, 221, 1, 192]).2 = [⟨[192, 219, 1]⟩] :=
  ⟨by decide, by decide, by decide,
    C3_slip_roundtrip ⟨[192, 219, 1]⟩ 100 [219, 220, 219, 221, 1, 192]
      (by decide) (by decide) (by decide)⟩

/-- C6: the claim fails on the code.  `OscSlipEncodePacket` writes the
trailing END byte — and the second byte of an escape pair — without any
capacity check: encoding the empty packet into a destination of size 0
returns success after writing one byte (at index 0, beyond the
destination), and encoding the one-byte packet `C0` into a destination of
size 1 returns success after writing three bytes (indices 1 and 2 beyond
the destination).  The n-th returned byte is written at destination index
n-1, so a returned list longer than `destinationSize` exhibits writes at
indices at or beyond `destinationSize`. -/
theorem C6_encode_writes_beyond_destination :
    (OscSlipEncodePacket ⟨[]⟩ 0 = some [SLIP_END] ∧
      ([SLIP_END] : List Nat).length > 0) ∧
    (OscSlipEncodePacket ⟨[SLIP_END]⟩ 1 = some [SLIP_ESC, SLIP_ESC_END, SLIP_END] ∧
      ([SLIP_ESC, SLIP_ESC_END, SLIP_END] : List Nat).length > 1) := by
  decide

set_option maxRecDepth 10000 in
/-- C8 counterexample: feeding a single END byte (an empty frame) to a
freshly initialised decoder with a registered handler does invoke the
handler — with an empty packet — contrary to the claim that the handler is
not invoked for an empty frame. -/
theorem C8_counterexample_empty_frame_invokes_handler :
    (feedBytes { OscSlipDecoderInitialise with hasHandler := true } [SLIP_END]).2 =
      [⟨[]⟩] ∧
    (feedBytes { OscSlipDecoderInitialise with hasHandler := true } [SLIP_END]).2 ≠
      [] := by
  constructor
  · decide
  · decide

/-- C8 amended: when the decoder receives an END byte as the first byte of a
frame (`bufferIndex = 0`) with a handler registered, the handler is invoked
once with an empty packet (size 0), the call returns success, and the buffer
index is reset to 0 so subsequent bytes begin a new frame. -/
theorem C8_empty_frame_behaviour (d : OscSlipDecoder)
    (hidx : d.bufferIndex = 0) (hh : d.hasHandler = true)
    (hbuf : d.buffer.length = OSC_SLIP_DECODER_BUFFER_SIZE) :
    OscSlipDecoderProcessByte d SLIP_END =
      (0, ⟨d.buffer.set 0 SLIP_END, 0, true⟩, [⟨[]⟩]) := by
  rcases d with ⟨buf, idx, hh'⟩
  simp only at hidx hh hbuf
  subst hidx
  subst hh
  rcases buf with _ | ⟨b, t⟩
  · simp [OSC_SLIP_DECODER_BUFFER_SIZE, MAX_TRANSPORT_SIZE] at hbuf
  · unfold OscSlipDecoderProcessByte
    simp only []
    rw [if_pos trivial]
    rw [if_neg (by simp : ¬ ¬ True)]
    rw [List.set_cons_zero, slipDecodeLoop_cons_end]

set_option maxRecDepth 10000 in
/-- C8 amended witness: the behaviour at a freshly initialised decoder with
a registered handler. -/
theorem C8_empty_frame_behaviour_witness :
    ({ OscSlipDecoderInitialise with hasHandler := true } : OscSlipDecoder).bufferIndex
        = 0 ∧
    ({ OscSlipDecoderInitialise with hasHandler := true } : OscSlipDecoder).hasHandler
        = true ∧
    ({ OscSlipDecoderInitialise with
        hasHandler := true } : OscSlipDecoder).buffer.length =
      OSC_SLIP_DECODER_BUFFER_SIZE ∧
    OscSlipDecoderProcessByte { OscSlipDecoderInitialise with hasHandler := true }
        SLIP_END =
      (0, ⟨({ OscSlipDecoderInitialise with
            hasHandler := true } : OscSlipDecoder).buffer.set 0 SLIP_END, 0, true⟩,
        [⟨[]⟩]) :=
  ⟨by decide, by decide, by decide,
    C8_empty_frame_behaviour { OscSlipDecoderInitialise with hasHandler := true }
      (by decide) (by decide) (by decide)⟩

/-! ### Bundle element iteration (C7) and empty-bundle parsing (C9) -/

/-- C7 counterexample: a parsed bundle whose element region holds exactly 4
bytes past the cursor — the big-endian size prefix 0, i.e. an empty element
occupying the last 4 remaining bytes — is rejected by
`OscBundleGetBundleElement` with an error, not returned, although the claim
says at least 4 remaining bytes with a non-negative multiple-of-4 size that
fits suffices. -/
theorem C7_counterexample_empty_last_element_rejected :
    OscBundleGetBundleElement
        ⟨[35, 98, 117, 110, 100, 108, 101, 0], 0, [0, 0, 0, 0], 0⟩ =
      (1, ⟨[35, 98, 117, 110, 100, 108, 101, 0], 0, [0, 0, 0, 0], 0⟩, none) := by
  decide

/-- C7 amended: `OscBundleGetBundleElement` requires strictly more than 4
bytes remaining past the iteration cursor (at least 4 remaining is not
enough): when the remaining byte count is exactly 4 the call fails with an
error and the bundle is unchanged; when it exceeds 4, the call reads the
big-endian int32 size and succeeds exactly as the claim describes whenever
that size is non-negative (below `2^31`), a multiple of 4, and does not
extend past the element region, returning the contents view and advancing
the cursor past the element. -/
theorem C7_element_extraction (b : OscBundle) (n : Nat) :
    (b.oscBundleElementsIndex + 4 = b.oscBundleElements.length →
      OscBundleGetBundleElement b = (1, b, none)) ∧
    (b.oscBundleElementsIndex + 4 < b.oscBundleElements.length →
      word32 (b.oscBundleElements.getD b.oscBundleElementsIndex 0)
          (b.oscBundleElements.getD (b.oscBundleElementsIndex + 1) 0)
          (b.oscBundleElements.getD (b.oscBundleElementsIndex + 2) 0)
          (b.oscBundleElements.getD (b.oscBundleElementsIndex + 3) 0) = n →
      n < 2 ^ 31 → n % 4 = 0 →
      b.oscBundleElementsIndex + 4 + n ≤ b.oscBundleElements.length →
      OscBundleGetBundleElement b =
        (0, { b with oscBundleElementsIndex := b.oscBundleElementsIndex + 4 + n },
          some ⟨n, (b.oscBundleElements.drop (b.oscBundleElementsIndex + 4)).take n⟩)) := by
  constructor
  · intro heq
    unfold OscBundleGetBundleElement
    rw [if_pos (by omega)]
  · intro hlt hw hneg hmod hfits
    unfold OscBundleGetBundleElement
    simp only []
    rw [if_neg (by omega)]
    rw [hw]
    rw [if_neg (by omega), if_neg (by omega), if_neg (by omega)]

/-- C7 amended witness: with 8 bytes remaining and prefix size 4 the element
is returned and the cursor advances to the end; with exactly 4 remaining the
call fails. -/
theorem C7_element_extraction_witness :
    ((⟨[35, 98, 117, 110, 100, 108, 101, 0], 0, [0, 0, 0, 0], 0⟩ :
        OscBundle).oscBundleElementsIndex + 4 =
      ([0, 0, 0, 0] : List Nat).length ∧
      OscBundleGetBundleElement
          ⟨[35, 98, 117, 110, 100, 108, 101, 0], 0, [0, 0, 0, 0], 0⟩ =
        (1, ⟨[35, 98, 117, 110, 100, 108, 101, 0], 0, [0, 0, 0, 0], 0⟩, none)) ∧
    OscBundleGetBundleElement
        ⟨[35, 98, 117, 110, 100, 108, 101, 0], 0, [0, 0, 0, 4, 9, 8, 7, 6], 0⟩ =
      (0, ⟨[35, 98, 117, 110, 100, 108, 101, 0], 0, [0, 0, 0, 4, 9, 8, 7, 6], 8⟩,
        some ⟨4, [9, 8, 7, 6]⟩) :=
  ⟨⟨by decide,
      (C7_element_extraction
        ⟨[35, 98, 117, 110, 100, 108, 101, 0], 0, [0, 0, 0, 0], 0⟩ 0).1 (by decide)⟩,
    by
      have := (C7_element_extraction
        ⟨[35, 98, 117, 110, 100, 108, 101, 0], 0, [0, 0, 0, 4, 9, 8, 7, 6], 0⟩ 4).2
        (by decide) (by decide) (by decide) (by decide) (by decide)
      simpa using this⟩

/-- C9: the claim fails on the code, which is a slip: parsing the 16-byte
bundle `#bundle\0` + time tag succeeds (error 0), but the element copy
do-while loop of `OscBundleInitialiseFromCharArray` always executes at least
once, reading one byte past the end of the 16-byte source (out of bounds in
C, the `getD` default 0 in the model) and leaving the element region size at
1 rather than 0, so `OscBundleGetSize` reports 17 and the total-size
invariant 16 + sum over elements of (4 + element.size) is broken. -/
theorem C9_empty_bundle_parse_overreads :
    (OscBundleInitialiseFromCharArray uninitialisedBundle
        [35, 98, 117, 110, 100, 108, 101, 0, 0, 0, 0, 0, 0, 0, 0, 1] 16).1 = 0 ∧
    (OscBundleInitialiseFromCharArray uninitialisedBundle
        [35, 98, 117, 110, 100, 108, 101, 0, 0, 0, 0, 0, 0, 0, 0, 1]
        16).2.oscBundleElements = [0] ∧
    OscBundleGetSize (OscBundleInitialiseFromCharArray uninitialisedBundle
        [35, 98, 117, 110, 100, 108, 101, 0, 0, 0, 0, 0, 0, 0, 0, 1] 16).2 = 17 := by
  decide

/-! ### Packet initialisation from contents (C2) -/

/-- C2: the claim matches the function's documented contract but the code
returns error 1 unconditionally: for the message `/example` (no arguments)
the serialization into the packet succeeds — the packet holds the 16
serialized bytes — yet `OscPacketInitialiseFromContents` returns 1, never
0. -/
theorem C2_initialise_from_contents_returns_error_despite_success :
    OscMessageToCharArray ⟨[47, 101, 120, 97, 109, 112, 108, 101], [44], [], 1, 0⟩
        MAX_OSC_PACKET_SIZE =
      some [47, 101, 120, 97, 109, 112, 108, 101, 0, 0, 0, 0, 44, 0, 0, 0] ∧
    OscPacketInitialiseFromContents
        (.msg ⟨[47, 101, 120, 97, 109, 112, 108, 101], [44], [], 1, 0⟩) =
      (1, ⟨[47, 101, 120, 97, 109, 112, 108, 101, 0, 0, 0, 0, 44, 0, 0, 0]⟩) := by
  decide

/-! ### The packet visitor walk (C4) -/

/-- C4 counterexample: a 24-byte bundle whose single child element is the
4-byte range `2f 00 00 00` — a child message whose parse fails (it is below
`MIN_OSC_MESSAGE_SIZE`) — is walked with return value 0 and one handler
invocation: the child parse failure is not returned to the caller, because
`DeconstructContents` discards the result of
`OscMessageInitialiseFromCharArray`. -/
theorem C4_counterexample_child_parse_failure_swallowed :
    (OscMessageInitialiseFromCharArray [47, 0, 0, 0] 4).1 = 1 ∧
    (DeconstructContents 25 none
        [35, 98, 117, 110, 100, 108, 101, 0, 0, 0, 0, 0, 0, 0, 0, 0,
          0, 0, 0, 4, 47, 0, 0, 0] 24).1 = 0 ∧
    (DeconstructContents 25 none
        [35, 98, 117, 110, 100, 108, 101, 0, 0, 0, 0, 0, 0, 0, 0, 0,
          0, 0, 0, 4, 47, 0, 0, 0] 24).2.length = 1 := by
  decide

/-- C4 amended: during the walk, the failures detected by the walk itself
are returned to the caller and stop the walk at the first failure — empty
contents, a leading byte that is neither the message nor the bundle
discriminator, a failed element extraction, and a failure propagated from a
nested element (returned together with the handler invocations already
made) — but a child message (or bundle) parse failure is not a walk failure:
the message branch ignores the parse result, invokes the handler with
whatever message state the parse left behind and returns success. -/
theorem C4_walk_error_propagation (fuel : Nat) (tt : Option Nat)
    (contents : List Nat) (n : Nat) (b : OscBundle) (e : Nat) (b' : OscBundle)
    (elem : OscBundleElement) (calls : List (Option Nat × OscMessage)) :
    (n ≠ 0 → contents.getD 0 0 = OscContentsTypeMessage →
      DeconstructContents (fuel + 1) tt contents n =
        (0, [(tt, (OscMessageInitialiseFromCharArray contents n).2)])) ∧
    (n = 0 → DeconstructContents (fuel + 1) tt contents n = (1, [])) ∧
    (n ≠ 0 → contents.getD 0 0 ≠ OscContentsTypeMessage →
      contents.getD 0 0 ≠ OscContentsTypeBundle →
      DeconstructContents (fuel + 1) tt contents n = (1, [])) ∧
    (OscBundleIsBundleElementAvailable b = true →
      OscBundleGetBundleElement b = (e, b', none) → e ≠ 0 →
      deconstructBundleLoop (fuel + 1) b = (e, [])) ∧
    (OscBundleIsBundleElementAvailable b = true →
      OscBundleGetBundleElement b = (0, b', some elem) →
      DeconstructContents fuel (some b.oscTimeTag) elem.contents elem.size =
        (e, calls) →
      e ≠ 0 → deconstructBundleLoop (fuel + 1) b = (e, calls)) := by
  refine ⟨?_, ?_, ?_, ?_, ?_⟩
  · intro hn hmsg
    unfold DeconstructContents
    rw [if_neg hn, if_pos hmsg]
  · intro hn
    subst hn
    unfold DeconstructContents
    rw [if_pos rfl]
  · intro hn hmsg hbun
    unfold DeconstructContents
    rw [if_neg hn, if_neg hmsg, if_neg hbun]
  · intro havail hget hne
    unfold deconstructBundleLoop
    rw [if_neg (by simp [havail])]
    rcases e with _ | e1
    · omega
    · rw [hget]
      rfl
  · intro havail hget hrec hne
    unfold deconstructBundleLoop
    rw [if_neg (by simp [havail])]
    rw [hget]
    simp only []
    rw [hrec]
    rcases e with _ | e1
    · omega
    · rfl

/-- C4 amended witness: the five behaviours at concrete inputs — a failing
child message parse swallowed with the handler invoked, the empty-contents
error, the invalid-discriminator error, a failing element extraction
propagated, and a failing nested element propagated. -/
theorem C4_walk_error_propagation_witness :
    DeconstructContents 25 none [47, 0, 0, 0] 4 =
      (0, [(none, (OscMessageInitialiseFromCharArray [47, 0, 0, 0] 4).2)]) ∧
    DeconstructContents 1 none [] 0 = (1, []) ∧
    DeconstructContents 1 none [9, 9, 9, 9] 4 = (1, []) ∧
    deconstructBundleLoop 25
        ⟨[35, 98, 117, 110, 100, 108, 101, 0], 0, [0, 0, 0, 5, 0, 0, 0, 0], 0⟩ =
      (1, []) ∧
    deconstructBundleLoop 25
        ⟨[35, 98, 117, 110, 100, 108, 101, 0], 0, [0, 0, 0, 4, 9, 9, 9, 9], 0⟩ =
      (1, []) :=
  ⟨(C4_walk_error_propagation 24 none [47, 0, 0, 0] 4 uninitialisedBundle 0
      uninitialisedBundle ⟨0, []⟩ []).1 (by decide) (by decide),
    (C4_walk_error_propagation 0 none [] 0 uninitialisedBundle 0
      uninitialisedBundle ⟨0, []⟩ []).2.1 (by decide),
    (C4_walk_error_propagation 0 none [9, 9, 9, 9] 4 uninitialisedBundle 0
      uninitialisedBundle ⟨0, []⟩ []).2.2.1 (by decide) (by decide) (by decide),
    (C4_walk_error_propagation 24 none [] 0
      ⟨[35, 98, 117, 110, 100, 108, 101, 0], 0, [0, 0, 0, 5, 0, 0, 0, 0], 0⟩ 1
      ⟨[35, 98, 117, 110, 100, 108, 101, 0], 0, [0, 0, 0, 5, 0, 0, 0, 0], 4⟩
      ⟨0, []⟩ []).2.2.2.1 (by decide) (by decide) (by decide),
    (C4_walk_error_propagation 24 none [] 0
      ⟨[35, 98, 117, 110, 100, 108, 101, 0], 0, [0, 0, 0, 4, 9, 9, 9, 9], 0⟩ 1
      ⟨[35, 98, 117, 110, 100, 108, 101, 0], 0, [0, 0, 0, 4, 9, 9, 9, 9], 8⟩
      ⟨4, [9, 9, 9, 9]⟩ []).2.2.2.2 (by decide) (by decide) (by decide) (by decide)⟩

/-! ### Characterization of the construction API (towards C1) -/

lemma argPayload_length_mod4 (a : OscArg) : (argPayload a).length % 4 = 0 := by
  cases a <;> simp [argPayload, be32, be64] <;>
    first
      | rfl
      | (rename_i s
         have h1 := le_padTo4 (s.length + 1)
         have h2 := padTo4_mod (s.length + 1)
         omega)

lemma argTag_ne_zero (a : OscArg) : argTag a ≠ 0 := by
  cases a <;> simp only [argTag] <;>
    first
      | decide
      | (rename_i b; cases b <;> decide)

lemma addStringLoop_some (s : List Nat) (init acc : List Nat)
    (h : addStringLoop init s = some acc) : acc = init ++ s := by
  induction s generalizing init with
  | nil =>
    unfold addStringLoop at h
    simp at h
    simp [h.symm]
  | cons c rest ih =>
    unfold addStringLoop at h
    split_ifs at h
    have := ih (init ++ [c]) h
    simp [this]

lemma blobPadLoop_some (fuel : Nat) (l : List Nat)
    (h : padTo4 l.length ≤ MAX_ARGUMENTS_SIZE)
    (hf : padTo4 l.length - l.length < fuel) :
    blobPadLoop fuel l = some (l ++ List.replicate (padTo4 l.length - l.length) 0) := by
  induction fuel generalizing l with
  | zero => omega
  | succ fuel ih =>
    unfold blobPadLoop
    by_cases h4 : l.length % 4 ≠ 0
    · rw [if_pos h4]
      have hlt : ¬ l.length ≥ MAX_ARGUMENTS_SIZE := by
        have := le_padTo4 l.length
        unfold padTo4 at h
        rw [if_pos h4] at h
        omega
      rw [if_neg hlt]
      have hlen : (l ++ [0]).length = l.length + 1 := by simp
      have hpad : padTo4 (l.length + 1) = padTo4 l.length := by
        unfold padTo4
        split_ifs <;> omega
      rw [ih (l ++ [0]) (by rw [hlen, hpad]; exact h)
        (by
          rw [hlen, hpad]
          have hge : l.length < padTo4 l.length := by
            unfold padTo4
            rw [if_pos h4]
            omega
          omega)]
      rw [hlen, hpad]
      have hge : l.length < padTo4 l.length := by
        unfold padTo4
        rw [if_pos h4]
        omega
      rw [List.append_assoc, List.singleton_append, ← List.replicate_succ,
        show padTo4 l.length - (l.length + 1) + 1 = padTo4 l.length - l.length by omega]
    · rw [if_neg h4]
      simp at h4
      rw [padTo4_of_mod _ h4]
      simp

lemma set_append_last (l : List Nat) (x y : Nat) :
    (l ++ [x]).set l.length y = l ++ [y] := by
  rw [List.set_append, if_neg (by simp)]
  simp

/-- The exact effect of a successful `append_*` call: the tag character and
the payload bytes are appended, nothing else changes, and the capacity bounds
hold afterwards. -/
lemma appendOscArg_spec (m : OscMessage) (a : OscArg) (m' : OscMessage)
    (hmod : m.arguments.length % 4 = 0)
    (hlen : m.arguments.length ≤ MAX_ARGUMENTS_SIZE)
    (h : appendOscArg m a = (0, m')) :
    m' = { m with oscTypeTagString := m.oscTypeTagString ++ [argTag a],
                  arguments := m.arguments ++ argPayload a } ∧
      m'.arguments.length ≤ MAX_ARGUMENTS_SIZE ∧
      m'.oscTypeTagString.length ≤ MAX_OSC_TYPE_TAG_STRING_LENGTH := by
  cases a with
  | int32 v =>
    unfold appendOscArg OscMessageAddInt32 at h
    split_ifs at h with h1 h2
    · exact absurd h (by simp)
    · exact absurd h (by simp)
    · injection h with he hm
      subst hm
      refine ⟨rfl, ?_, ?_⟩ <;> simp [argPayload, be32, argTag] <;>
        simp [MAX_NUMBER_OF_ARGUMENTS, MAX_ARGUMENTS_SIZE,
          MAX_OSC_TYPE_TAG_STRING_LENGTH] at h1 h2 ⊢ <;> omega
  | float32 v =>
    unfold appendOscArg OscMessageAddFloat32 at h
    split_ifs at h with h1 h2
    · exact absurd h (by simp)
    · exact absurd h (by simp)
    · injection h with he hm
      subst hm
      refine ⟨rfl, ?_, ?_⟩ <;> simp [argPayload, be32, argTag] <;>
        simp [MAX_NUMBER_OF_ARGUMENTS, MAX_ARGUMENTS_SIZE,
          MAX_OSC_TYPE_TAG_STRING_LENGTH] at h1 h2 ⊢ <;> omega
  | int64 v =>
    unfold appendOscArg OscMessageAddInt64 at h
    split_ifs at h with h1 h2
    · exact absurd h (by simp)
    · exact absurd h (by simp)
    · injection h with he hm
      subst hm
      refine ⟨rfl, ?_, ?_⟩ <;> simp [argPayload, be64, argTag] <;>
        simp [MAX_NUMBER_OF_ARGUMENTS, MAX_ARGUMENTS_SIZE,
          MAX_OSC_TYPE_TAG_STRING_LENGTH] at h1 h2 ⊢ <;> omega
  | timeTag v =>
    unfold appendOscArg OscMessageAddTimeTag at h
    split_ifs at h with h1 h2
    · exact absurd h (by simp)
    · exact absurd h (by simp)
    · injection h with he hm
      subst hm
      refine ⟨rfl, ?_, ?_⟩ <;> simp [argPayload, be64, argTag] <;>
        simp [MAX_NUMBER_OF_ARGUMENTS, MAX_ARGUMENTS_SIZE,
          MAX_OSC_TYPE_TAG_STRING_LENGTH] at h1 h2 ⊢ <;> omega
  | double64 v =>
    unfold appendOscArg OscMessageAddDouble at h
    split_ifs at h with h1 h2
    · exact absurd h (by simp)
    · exact absurd h (by simp)
    · injection h with he hm
      subst hm
      refine ⟨rfl, ?_, ?_⟩ <;> simp [argPayload, be64, argTag] <;>
        simp [MAX_NUMBER_OF_ARGUMENTS, MAX_ARGUMENTS_SIZE,
          MAX_OSC_TYPE_TAG_STRING_LENGTH] at h1 h2 ⊢ <;> omega
  | character c =>
    unfold appendOscArg OscMessageAddCharacter at h
    split_ifs at h with h1 h2
    · exact absurd h (by simp)
    · exact absurd h (by simp)
    · injection h with he hm
      subst hm
      refine ⟨rfl, ?_, ?_⟩ <;> simp [argPayload, argTag] <;>
        simp [MAX_NUMBER_OF_ARGUMENTS, MAX_ARGUMENTS_SIZE,
          MAX_OSC_TYPE_TAG_STRING_LENGTH] at h1 h2 ⊢ <;> omega
  | rgba v =>
    unfold appendOscArg OscMessageAddRgbaColour at h
    split_ifs at h with h1 h2
    · exact absurd h (by simp)
    · exact absurd h (by simp)
    · injection h with he hm
      subst hm
      refine ⟨rfl, ?_, ?_⟩ <;> simp [argPayload, be32, argTag] <;>
        simp [MAX_NUMBER_OF_ARGUMENTS, MAX_ARGUMENTS_SIZE,
          MAX_OSC_TYPE_TAG_STRING_LENGTH] at h1 h2 ⊢ <;> omega
  | midi v =>
    unfold appendOscArg OscMessageAddMidiMessage at h
    split_ifs at h with h1 h2
    · exact absurd h (by simp)
    · exact absurd h (by simp)
    · injection h with he hm
      subst hm
      refine ⟨rfl, ?_, ?_⟩ <;> simp [argPayload, be32, argTag] <;>
        simp [MAX_NUMBER_OF_ARGUMENTS, MAX_ARGUMENTS_SIZE,
          MAX_OSC_TYPE_TAG_STRING_LENGTH] at h1 h2 ⊢ <;> omega
  | boolean b =>
    unfold appendOscArg OscMessageAddBool at h
    split_ifs at h with h1
    · exact absurd h (by simp)
    · injection h with he hm
      subst hm
      refine ⟨by simp [argTag, argPayload], by simpa [argPayload] using hlen, ?_⟩
      simp [argTag]
      simp [MAX_NUMBER_OF_ARGUMENTS, MAX_OSC_TYPE_TAG_STRING_LENGTH] at h1 ⊢
      omega
  | nil =>
    unfold appendOscArg OscMessageAddNil at h
    split_ifs at h with h1
    · exact absurd h (by simp)
    · injection h with he hm
      subst hm
      refine ⟨by simp [argTag, argPayload], by simpa [argPayload] using hlen, ?_⟩
      simp [argTag]
      simp [MAX_NUMBER_OF_ARGUMENTS, MAX_OSC_TYPE_TAG_STRING_LENGTH] at h1 ⊢
      omega
  | infinitum =>
    unfold appendOscArg OscMessageAddInfinitum at h
    split_ifs at h with h1
    · exact absurd h (by simp)
    · injection h with he hm
      subst hm
      refine ⟨by simp [argTag, argPayload], by simpa [argPayload] using hlen, ?_⟩
      simp [argTag]
      simp [MAX_NUMBER_OF_ARGUMENTS, MAX_OSC_TYPE_TAG_STRING_LENGTH] at h1 ⊢
      omega
  | beginArray =>
    unfold appendOscArg OscMessageAddBeginArray at h
    split_ifs at h with h1
    · exact absurd h (by simp)
    · injection h with he hm
      subst hm
      refine ⟨by simp [argTag, argPayload], by simpa [argPayload] using hlen, ?_⟩
      simp [argTag]
      simp [MAX_NUMBER_OF_ARGUMENTS, MAX_OSC_TYPE_TAG_STRING_LENGTH] at h1 ⊢
      omega
  | endArray =>
    unfold appendOscArg OscMessageAddEndArray at h
    split_ifs at h with h1
    · exact absurd h (by simp)
    · injection h with he hm
      subst hm
      refine ⟨by simp [argTag, argPayload], by simpa [argPayload] using hlen, ?_⟩
      simp [argTag]
      simp [MAX_NUMBER_OF_ARGUMENTS, MAX_OSC_TYPE_TAG_STRING_LENGTH] at h1 ⊢
      omega
  | string s =>
    replace h : OscMessageAddString m s = (0, m') := h
    unfold OscMessageAddString at h
    split_ifs at h with h1
    · exact absurd h (by simp)
    · rcases hb : (addStringLoop m.arguments s).bind
          (fun acc => TerminateOscString 4 acc MAX_ARGUMENTS_SIZE) with _ | acc2
      · rw [hb] at h
        exact absurd h (by simp)
      · rw [hb] at h
        injection h with he hm
        subst hm
        obtain ⟨acc, hloop, hterm⟩ := Option.bind_eq_some.mp hb
        have hacc := addStringLoop_some s m.arguments acc hloop
        subst hacc
        obtain ⟨hshape, hlen2, hmax⟩ := terminateOscString_spec _ _ _ _ hterm
        have hlenapp : (m.arguments ++ s).length = m.arguments.length + s.length := by
          simp
        rw [hlenapp] at hlen2
        have hpadsplit : padTo4 (m.arguments.length + s.length + 1) =
            m.arguments.length + padTo4 (s.length + 1) := by
          rw [show m.arguments.length + s.length + 1 =
            m.arguments.length + (s.length + 1) by omega]
          exact padTo4_add_left _ _ hmod
        refine ⟨?_, ?_, ?_⟩
        · rw [hshape]
          simp only [argTag, argPayload]
          congr 1
          rw [List.append_assoc]
          congr 2
          rw [hlenapp, hlen2, hpadsplit]
          congr 1
          have := le_padTo4 (s.length + 1)
          omega
        · exact hmax
        · simp only []
          simp [MAX_NUMBER_OF_ARGUMENTS, MAX_OSC_TYPE_TAG_STRING_LENGTH] at h1 ⊢
          omega
  | altString s =>
    replace h : OscMessageAddAlternateString m s = (0, m') := h
    unfold OscMessageAddAlternateString at h
    rcases hs : OscMessageAddString m s with ⟨e0, m1⟩
    rw [hs] at h
    cases e0 with
    | succ e1 => exact absurd h (by simp)
    | zero =>
      simp only [] at h
      injection h with he hm
      unfold OscMessageAddString at hs
      split_ifs at hs with h1
      · exact absurd hs (by simp)
      · rcases hb : (addStringLoop m.arguments s).bind
            (fun acc => TerminateOscString 4 acc MAX_ARGUMENTS_SIZE) with _ | acc2
        · rw [hb] at hs
          exact absurd hs (by simp)
        · rw [hb] at hs
          injection hs with he1 hm1
          subst hm1
          subst hm
          obtain ⟨acc, hloop, hterm⟩ := Option.bind_eq_some.mp hb
          have hacc := addStringLoop_some s m.arguments acc hloop
          subst hacc
          obtain ⟨hshape, hlen2, hmax⟩ := terminateOscString_spec _ _ _ _ hterm
          have hlenapp : (m.arguments ++ s).length =
              m.arguments.length + s.length := by simp
          rw [hlenapp] at hlen2
          have hpadsplit : padTo4 (m.arguments.length + s.length + 1) =
              m.arguments.length + padTo4 (s.length + 1) := by
            rw [show m.arguments.length + s.length + 1 =
              m.arguments.length + (s.length + 1) by omega]
            exact padTo4_add_left _ _ hmod
          refine ⟨?_, ?_, ?_⟩
          · simp only []
            rw [show (m.oscTypeTagString ++ [OscTypeTagString]).length =
                m.oscTypeTagString.length + 1 by simp]
            rw [show m.oscTypeTagString.length + 1 - 1 = m.oscTypeTagString.length
              by omega]
            rw [set_append_last]
            congr 1
            rw [hshape]
            simp only [argPayload]
            rw [List.append_assoc]
            congr 2
            rw [hlenapp, hlen2, hpadsplit]
            congr 1
            have := le_padTo4 (s.length + 1)
            omega
          · exact hmax
          · simp only [List.length_set]
            simp [MAX_NUMBER_OF_ARGUMENTS, MAX_OSC_TYPE_TAG_STRING_LENGTH] at h1 ⊢
            omega
  | blob bytes =>
    replace h : OscMessageAddBlob m bytes = (0, m') := h
    unfold OscMessageAddBlob at h
    split_ifs at h with h1 h2
    · exact absurd h (by simp)
    · exact absurd h (by simp)
    · rcases hb : blobPadLoop 4 (m.arguments ++ be32 bytes.length ++ bytes)
          with _ | acc
      · rw [hb] at h
        exact absurd h (by simp)
      · rw [hb] at h
        injection h with he hm
        subst hm
        have hstartlen : (m.arguments ++ be32 bytes.length ++ bytes).length =
            m.arguments.length + 4 + bytes.length := by
          simp [be32]
          omega
        have hbound : padTo4 (m.arguments.length + 4 + bytes.length) ≤
            MAX_ARGUMENTS_SIZE := by
          apply padTo4_le_of_le
          · omega
          · decide
        have hb2 := blobPadLoop_some 4 (m.arguments ++ be32 bytes.length ++ bytes)
          (by rw [hstartlen]; exact hbound)
          (by
            rw [hstartlen]
            have := le_padTo4 (m.arguments.length + 4 + bytes.length)
            have := padTo4_le (m.arguments.length + 4 + bytes.length)
            omega)
        rw [hb] at hb2
        injection hb2 with hacc
        subst hacc
        have hpadsplit : padTo4 (m.arguments.length + 4 + bytes.length) =
            m.arguments.length + 4 + padTo4 bytes.length := by
          rw [show m.arguments.length + 4 + bytes.length =
            (m.arguments.length + 4) + bytes.length by omega]
          exact padTo4_add_left _ _ (by omega)
        refine ⟨?_, ?_, ?_⟩
        · have hc : padTo4 ((m.arguments ++ be32 bytes.length ++ bytes).length) -
              (m.arguments ++ be32 bytes.length ++ bytes).length =
              (4 - bytes.length % 4) % 4 := by
            rw [hstartlen, hpadsplit]
            unfold padTo4
            split_ifs <;> omega
          rw [hc]
          simp only [argTag, argPayload]
          congr 1
          simp [List.append_assoc]
        · show ((m.arguments ++ be32 bytes.length ++ bytes) ++
              List.replicate (padTo4 (m.arguments ++ be32 bytes.length ++ bytes).length -
                (m.arguments ++ be32 bytes.length ++ bytes).length) 0).length ≤
              MAX_ARGUMENTS_SIZE
          rw [List.length_append, List.length_replicate, hstartlen]
          have hge := le_padTo4 (m.arguments.length + 4 + bytes.length)
          omega
        · simp only []
          simp [MAX_NUMBER_OF_ARGUMENTS, MAX_OSC_TYPE_TAG_STRING_LENGTH] at h1 ⊢
          omega

lemma appendAddressLoop_ok (s init : List Nat)
    (h : init.length + s.length ≤ MAX_OSC_ADDRESS_PATTERN_LENGTH) :
    appendAddressLoop init s = (0, init ++ s) := by
  induction s generalizing init with
  | nil => simp [appendAddressLoop]
  | cons c rest ih =>
    unfold appendAddressLoop
    rw [if_neg (by simp at h ⊢; omega)]
    rw [ih (init ++ [c]) (by simp at h ⊢; omega)]
    simp

lemma appendAddressLoop_spec (s init acc : List Nat)
    (h : appendAddressLoop init s = (0, acc)) :
    acc = init ++ s ∧ (s ≠ [] → acc.length ≤ MAX_OSC_ADDRESS_PATTERN_LENGTH) := by
  induction s generalizing init with
  | nil =>
    unfold appendAddressLoop at h
    injection h with he ha
    subst ha
    simp
  | cons c rest ih =>
    unfold appendAddressLoop at h
    split_ifs at h with h1
    · exact absurd h (by simp)
    · obtain ⟨ha, hb⟩ := ih (init ++ [c]) h
      refine ⟨by rw [ha]; simp, fun _ => ?_⟩
      rcases hr : rest with _ | ⟨d, rest'⟩
      · subst hr
        rw [ha]
        simp at h1 ⊢
        omega
      · exact hb (by rw [hr]; simp)

/-- `OscMessageInitialise` on a well-formed address pattern that fits the
address buffer: the address is committed verbatim and the other fields take
their reset values. -/
lemma oscMessageInitialise_spec (addr : List Nat) (hwf : AddrWF addr)
    (hlen : addr.length ≤ MAX_OSC_ADDRESS_PATTERN_LENGTH) :
    OscMessageInitialise addr = (0, ⟨addr, [commaByte], [], 1, 0⟩) := by
  obtain ⟨hne, hhead, hbytes⟩ := hwf
  unfold OscMessageInitialise OscMessageSetAddressPattern OscMessageAppendAddressPattern
  simp only []
  rw [if_pos (by rw [hhead]; decide)]
  rw [if_neg (by rw [hhead]; simp)]
  rw [appendAddressLoop_ok addr [] (by simpa using hlen)]
  simp

lemma buildArgs_spec (args : List OscArg) (m m' : OscMessage)
    (hmod : m.arguments.length % 4 = 0)
    (hlen : m.arguments.length ≤ MAX_ARGUMENTS_SIZE)
    (htag : m.oscTypeTagString.length ≤ MAX_OSC_TYPE_TAG_STRING_LENGTH)
    (h : buildArgs m args = some m') :
    m' = { m with oscTypeTagString := m.oscTypeTagString ++ args.map argTag,
                  arguments := m.arguments ++ args.flatMap argPayload } ∧
      m'.arguments.length ≤ MAX_ARGUMENTS_SIZE ∧
      m'.oscTypeTagString.length ≤ MAX_OSC_TYPE_TAG_STRING_LENGTH := by
  induction args generalizing m with
  | nil =>
    unfold buildArgs at h
    injection h with hm
    subst hm
    refine ⟨by simp, hlen, htag⟩
  | cons a rest ih =>
    unfold buildArgs at h
    rcases ha : appendOscArg m a with ⟨e, m1⟩
    rw [ha] at h
    cases e with
    | succ e1 => simp at h
    | zero =>
      simp only [] at h
      obtain ⟨hshape, hbound, htag1⟩ := appendOscArg_spec m a m1 hmod hlen ha
      have hmod1 : m1.arguments.length % 4 = 0 := by
        rw [hshape]
        simp only [List.length_append]
        have := argPayload_length_mod4 a
        omega
      obtain ⟨hshape2, hbound2, htag2⟩ := ih m1 hmod1 hbound htag1 h
      refine ⟨?_, hbound2, htag2⟩
      rw [hshape2, hshape]
      simp [List.append_assoc]

/-- `buildMessage` on a well-formed address: the resulting message is exactly
the address, the comma-led tag string, and the concatenated payloads, and all
committed lengths are within the capacity bounds. -/
lemma buildMessage_spec (addr : List Nat) (args : List OscArg) (m : OscMessage)
    (hwf : AddrWF addr) (h : buildMessage addr args = some m) :
    m = ⟨addr, commaByte :: args.map argTag, args.flatMap argPayload, 1, 0⟩ ∧
      addr.length ≤ MAX_OSC_ADDRESS_PATTERN_LENGTH ∧
      m.arguments.length ≤ MAX_ARGUMENTS_SIZE ∧
      m.oscTypeTagString.length ≤ MAX_OSC_TYPE_TAG_STRING_LENGTH := by
  obtain ⟨hne, hhead, hbytes⟩ := hwf
  unfold buildMessage at h
  rcases hi : OscMessageInitialise addr with ⟨e, m0⟩
  rw [hi] at h
  cases e with
  | succ e1 => simp at h
  | zero =>
    simp only [] at h
    unfold OscMessageInitialise OscMessageSetAddressPattern
      OscMessageAppendAddressPattern at hi
    simp only [] at hi
    rw [if_pos (by rw [hhead]; decide)] at hi
    rw [if_neg (by rw [hhead]; simp)] at hi
    rcases hL : appendAddressLoop [] addr with ⟨eL, acc⟩
    rw [hL] at hi
    cases eL with
    | succ e2 => simp at hi
    | zero =>
      simp only [] at hi
      injection hi with he hm0
      obtain ⟨hacc, hbound⟩ := appendAddressLoop_spec addr [] acc hL
      rw [List.nil_append] at hacc
      have haddrlen : addr.length ≤ MAX_OSC_ADDRESS_PATTERN_LENGTH := by
        have hb := hbound hne
        rwa [hacc] at hb
      rw [hacc] at hm0
      subst hm0
      obtain ⟨hshape, hbound2, htag2⟩ := buildArgs_spec args _ m
        (by simp) (by simp [MAX_ARGUMENTS_SIZE])
        (by simp [MAX_OSC_TYPE_TAG_STRING_LENGTH, MAX_NUMBER_OF_ARGUMENTS]) h
      refine ⟨?_, haddrlen, hbound2, htag2⟩
      rw [hshape]
      simp

/-! ### Characterization of the parse loops of `OscMessageInitialiseFromCharArray` -/

lemma getD_replicate_zero (k j : Nat) : (List.replicate k (0 : Nat)).getD j 0 = 0 := by
  induction k generalizing j with
  | zero => simp
  | succ k ih =>
    cases j with
    | zero => simp [List.replicate_succ]
    | succ j => simp [List.replicate_succ, ih]

lemma msgParseAddrLoop_reads (chunk : List Nat) (source : List Nat)
    (sourceSize i : Nat) (acc : List Nat) (fuel : Nat)
    (hreg : ∀ j, j < chunk.length → source.getD (i + j) 0 = chunk.getD j 0)
    (hnz : ∀ c ∈ chunk, c ≠ 0)
    (hzero : source.getD (i + chunk.length) 0 = 0)
    (hlen : acc.length + chunk.length ≤ MAX_OSC_ADDRESS_PATTERN_LENGTH)
    (hsize : i + chunk.length < sourceSize)
    (hfuel : chunk.length < fuel) :
    msgParseAddrLoop fuel source sourceSize i acc = (0, i + chunk.length, acc ++ chunk) := by
  induction chunk generalizing i acc fuel with
  | nil =>
    cases fuel with
    | zero => omega
    | succ fuel =>
      unfold msgParseAddrLoop
      rw [if_neg (by simpa using hzero)]
      simp
  | cons c rest ih =>
    cases fuel with
    | zero => simp at hfuel
    | succ fuel =>
      unfold msgParseAddrLoop
      have hc : source.getD i 0 = c := by
        have h0 := hreg 0 (by simp)
        simpa using h0
      rw [if_pos (by rw [hc]; exact hnz c (by simp))]
      simp only []
      rw [hc]
      rw [if_neg (by simp at hlen ⊢; omega)]
      rw [if_neg (by simp at hsize ⊢; omega)]
      rw [ih (i + 1) (acc ++ [c]) fuel
        (fun j hj => by
          have h2 := hreg (j + 1) (by simp; omega)
          rw [show i + 1 + j = i + (j + 1) by omega]
          simpa using h2)
        (fun d hd => hnz d (by simp [hd]))
        (by rw [show i + 1 + rest.length = i + (c :: rest).length by simp; omega]
            exact hzero)
        (by simp at hlen ⊢; omega)
        (by simp at hsize ⊢; omega)
        (by simp at hfuel ⊢; omega)]
      simp [List.append_assoc]
      omega

lemma msgParseTagLoop_reads (chunk : List Nat) (source : List Nat)
    (sourceSize i : Nat) (acc : List Nat) (fuel : Nat)
    (hreg : ∀ j, j < chunk.length → source.getD (i + j) 0 = chunk.getD j 0)
    (hnz : ∀ c ∈ chunk, c ≠ 0)
    (hzero : source.getD (i + chunk.length) 0 = 0)
    (hlen : acc.length + chunk.length ≤ MAX_OSC_TYPE_TAG_STRING_LENGTH)
    (hsize : i + chunk.length < sourceSize)
    (hfuel : chunk.length < fuel) :
    msgParseTagLoop fuel source sourceSize i acc = (0, i + chunk.length, acc ++ chunk) := by
  induction chunk generalizing i acc fuel with
  | nil =>
    cases fuel with
    | zero => omega
    | succ fuel =>
      unfold msgParseTagLoop
      rw [if_neg (by simpa using hzero)]
      simp
  | cons c rest ih =>
    cases fuel with
    | zero => simp at hfuel
    | succ fuel =>
      unfold msgParseTagLoop
      have hc : source.getD i 0 = c := by
        have h0 := hreg 0 (by simp)
        simpa using h0
      rw [if_pos (by rw [hc]; exact hnz c (by simp))]
      simp only []
      rw [hc]
      rw [if_neg (by simp at hlen ⊢; omega)]
      rw [if_neg (by simp at hsize ⊢; omega)]
      rw [ih (i + 1) (acc ++ [c]) fuel
        (fun j hj => by
          have h2 := hreg (j + 1) (by simp; omega)
          rw [show i + 1 + j = i + (j + 1) by omega]
          simpa using h2)
        (fun d hd => hnz d (by simp [hd]))
        (by rw [show i + 1 + rest.length = i + (c :: rest).length by simp; omega]
            exact hzero)
        (by simp at hlen ⊢; omega)
        (by simp at hsize ⊢; omega)
        (by simp at hfuel ⊢; omega)]
      simp [List.append_assoc]
      omega

lemma msgParseSkipToCommaLoop_finds (n : Nat) (source : List Nat)
    (sourceSize i : Nat) (fuel : Nat)
    (hnc : ∀ j, j < n → source.getD (i - 1 + j) 0 ≠ commaByte)
    (hc : source.getD (i - 1 + n) 0 = commaByte)
    (hi : 1 ≤ i)
    (hsize : i + n < sourceSize)
    (hfuel : n < fuel) :
    msgParseSkipToCommaLoop fuel source sourceSize i = (0, i + n) := by
  induction n generalizing i fuel with
  | zero =>
    cases fuel with
    | zero => omega
    | succ fuel =>
      unfold msgParseSkipToCommaLoop
      rw [if_neg (by simpa using hc)]
      simp
  | succ n ih =>
    cases fuel with
    | zero => omega
    | succ fuel =>
      unfold msgParseSkipToCommaLoop
      rw [if_pos (by simpa using hnc 0 (by omega))]
      rw [if_neg (by omega)]
      rw [ih (i + 1) fuel
        (fun j hj => by
          rw [show i + 1 - 1 + j = i - 1 + (j + 1) by omega]
          exact hnc (j + 1) (by omega))
        (by rw [show i + 1 - 1 + n = i - 1 + (n + 1) by omega]; exact hc)
        (by omega) (by omega) (by omega)]
      rw [show i + 1 + n = i + (n + 1) by omega]

lemma msgParseAlignLoop_aligns (fuel sourceSize i : Nat)
    (hfuel : padTo4 (i + 1) - i ≤ fuel)
    (hs : padTo4 (i + 1) ≤ sourceSize) :
    msgParseAlignLoop fuel sourceSize i = (0, padTo4 (i + 1)) := by
  induction fuel generalizing i with
  | zero =>
    have := le_padTo4 (i + 1)
    omega
  | succ fuel ih =>
    unfold msgParseAlignLoop
    simp only []
    rw [if_neg (by have := le_padTo4 (i + 1); omega)]
    by_cases h4 : (i + 1) % 4 ≠ 0
    · rw [if_pos h4]
      rw [show padTo4 (i + 1) = padTo4 (i + 1 + 1) from (padTo4_succ_of_not _ h4).symm]
      exact ih (i + 1)
        (by
          rw [padTo4_succ_of_not _ h4]
          have := le_padTo4 (i + 1)
          omega)
        (by rw [padTo4_succ_of_not _ h4]; exact hs)
    · rw [if_neg h4]
      simp at h4
      rw [padTo4_of_mod _ h4]

lemma msgParseArgsLoop_reads (chunk : List Nat) (source : List Nat)
    (sourceSize i : Nat) (acc : List Nat) (fuel : Nat)
    (hreg : ∀ j, j < chunk.length → source.getD (i + j) 0 = chunk.getD j 0)
    (hend : i + chunk.length = sourceSize)
    (hfuel : chunk.length < fuel) :
    msgParseArgsLoop fuel source sourceSize i acc = acc ++ chunk := by
  induction chunk generalizing i acc fuel with
  | nil =>
    cases fuel with
    | zero => omega
    | succ fuel =>
      unfold msgParseArgsLoop
      rw [if_neg (by simp at hend; omega)]
      simp
  | cons c rest ih =>
    cases fuel with
    | zero => simp at hfuel
    | succ fuel =>
      unfold msgParseArgsLoop
      rw [if_pos (by simp at hend; omega)]
      have hc : source.getD i 0 = c := by
        have h0 := hreg 0 (by simp)
        simpa using h0
      rw [hc]
      rw [ih (i + 1) (acc ++ [c]) fuel
        (fun j hj => by
          have h2 := hreg (j + 1) (by simp; omega)
          rw [show i + 1 + j = i + (j + 1) by omega]
          simpa using h2)
        (by simp at hend ⊢; omega)
        (by simp at hfuel ⊢; omega)]
      simp [List.append_assoc]

lemma getD_append_middle (pre rest : List Nat) (j : Nat) :
    (pre ++ rest).getD (pre.length + j) 0 = rest.getD j 0 := by
  rw [List.getD_append_right pre rest 0 (pre.length + j) (by omega)]
  congr 1
  omega

/-- Parsing the serialized image of a message whose address pattern is
well-formed and does not end in a comma, whose type tags are non-null, and
whose argument bytes are 4-aligned reconstructs exactly the message. -/
lemma parse_serial_components (addr tags args : List Nat)
    (hne : addr ≠ [])
    (hhead : addr.getD 0 0 = OscContentsTypeMessage)
    (haddrnz : ∀ c ∈ addr, c ≠ 0)
    (hlast : addr.getD (addr.length - 1) 0 ≠ commaByte)
    (haddrlen : addr.length ≤ MAX_OSC_ADDRESS_PATTERN_LENGTH)
    (htagsnz : ∀ c ∈ tags, c ≠ 0)
    (htagslen : tags.length + 1 ≤ MAX_OSC_TYPE_TAG_STRING_LENGTH)
    (hargsmod : args.length % 4 = 0)
    (hmax : padTo4 (addr.length + 1) + padTo4 (tags.length + 1 + 1) + args.length ≤
      MAX_OSC_MESSAGE_SIZE) :
    OscMessageInitialiseFromCharArray
        (serialBytes ⟨addr, commaByte :: tags, args, 1, 0⟩)
        (serialBytes ⟨addr, commaByte :: tags, args, 1, 0⟩).length =
      (0, ⟨addr, commaByte :: tags, args, 1, 0⟩) := by
  have hA : 1 ≤ addr.length := by
    cases addr with
    | nil => exact absurd rfl hne
    | cons a t => simp
  have hPA1 : addr.length + 1 ≤ padTo4 (addr.length + 1) := le_padTo4 _
  have hPAmod : padTo4 (addr.length + 1) % 4 = 0 := padTo4_mod _
  have hPAle : padTo4 (addr.length + 1) ≤ addr.length + 4 := by
    have := padTo4_le (addr.length + 1); omega
  have hPT1 : tags.length + 2 ≤ padTo4 (tags.length + 1 + 1) := by
    have := le_padTo4 (tags.length + 1 + 1); omega
  have hPTmod : padTo4 (tags.length + 1 + 1) % 4 = 0 := padTo4_mod _
  have hPTle : padTo4 (tags.length + 1 + 1) ≤ tags.length + 5 := by
    have := padTo4_le (tags.length + 1 + 1); omega
  have hlen : (serialBytes ⟨addr, commaByte :: tags, args, 1, 0⟩).length =
      padTo4 (addr.length + 1) + padTo4 (tags.length + 1 + 1) + args.length := by
    rw [serialBytes_length, oscMessageGetSize_eq]
    simp
  have hsrc : serialBytes ⟨addr, commaByte :: tags, args, 1, 0⟩ =
      addr ++ (List.replicate (padTo4 (addr.length + 1) - addr.length) 0 ++
        ((commaByte :: tags) ++
          (List.replicate (padTo4 (tags.length + 1 + 1) - (tags.length + 1)) 0 ++
            args))) := by
    unfold serialBytes
    simp
  have haddrget : ∀ j, j < addr.length →
      (serialBytes ⟨addr, commaByte :: tags, args, 1, 0⟩).getD j 0 = addr.getD j 0 := by
    intro j hj
    rw [hsrc]
    exact List.getD_append _ _ 0 j hj
  have hmid0 : ∀ j, (serialBytes ⟨addr, commaByte :: tags, args, 1, 0⟩).getD
      (addr.length + j) 0 =
      (List.replicate (padTo4 (addr.length + 1) - addr.length) 0 ++
        ((commaByte :: tags) ++
          (List.replicate (padTo4 (tags.length + 1 + 1) - (tags.length + 1)) 0 ++
            args))).getD j 0 := by
    intro j
    rw [hsrc]
    exact getD_append_middle addr _ j
  have hmid1 : ∀ j, (serialBytes ⟨addr, commaByte :: tags, args, 1, 0⟩).getD
      (addr.length + ((padTo4 (addr.length + 1) - addr.length) + j)) 0 =
      ((commaByte :: tags) ++
        (List.replicate (padTo4 (tags.length + 1 + 1) - (tags.length + 1)) 0 ++
          args)).getD j 0 := by
    intro j
    rw [hmid0]
    have h2 := getD_append_middle
      (List.replicate (padTo4 (addr.length + 1) - addr.length) 0)
      ((commaByte :: tags) ++
        (List.replicate (padTo4 (tags.length + 1 + 1) - (tags.length + 1)) 0 ++
          args)) j
    rwa [List.length_replicate] at h2
  have hmid2 : ∀ j, (serialBytes ⟨addr, commaByte :: tags, args, 1, 0⟩).getD
      (addr.length + ((padTo4 (addr.length + 1) - addr.length) +
        ((tags.length + 1) + j))) 0 =
      (List.replicate (padTo4 (tags.length + 1 + 1) - (tags.length + 1)) 0 ++
        args).getD j 0 := by
    intro j
    rw [hmid1]
    have h2 := getD_append_middle (commaByte :: tags)
      (List.replicate (padTo4 (tags.length + 1 + 1) - (tags.length + 1)) 0 ++
        args) j
    rwa [List.length_cons] at h2
  have hmid3 : ∀ j, (serialBytes ⟨addr, commaByte :: tags, args, 1, 0⟩).getD
      (addr.length + ((padTo4 (addr.length + 1) - addr.length) +
        ((tags.length + 1) +
          ((padTo4 (tags.length + 1 + 1) - (tags.length + 1)) + j)))) 0 =
      args.getD j 0 := by
    intro j
    rw [hmid2]
    have h2 := getD_append_middle
      (List.replicate (padTo4 (tags.length + 1 + 1) - (tags.length + 1)) 0) args j
    rwa [List.length_replicate] at h2
  have hzero_mid : ∀ j, j < padTo4 (addr.length + 1) - addr.length →
      (serialBytes ⟨addr, commaByte :: tags, args, 1, 0⟩).getD (addr.length + j) 0 = 0 := by
    intro j hj
    rw [hmid0 j]
    rw [List.getD_append _ _ 0 j (by rw [List.length_replicate]; exact hj)]
    exact getD_replicate_zero _ _
  have hzeroA : (serialBytes ⟨addr, commaByte :: tags, args, 1, 0⟩).getD
      addr.length 0 = 0 := by
    have h2 := hzero_mid 0 (by omega)
    simpa using h2
  have hsrc0 : (serialBytes ⟨addr, commaByte :: tags, args, 1, 0⟩).getD 0 0 =
      OscContentsTypeMessage := by
    rw [haddrget 0 (by omega)]
    exact hhead
  have hnc : ∀ j, j < padTo4 (addr.length + 1) + 1 - addr.length →
      (serialBytes ⟨addr, commaByte :: tags, args, 1, 0⟩).getD
        (addr.length - 1 + j) 0 ≠ commaByte := by
    intro j hj
    cases j with
    | zero =>
      rw [show addr.length - 1 + 0 = addr.length - 1 by omega]
      rw [hsrc, List.getD_append _ _ 0 _ (by omega)]
      exact hlast
    | succ k =>
      rw [show addr.length - 1 + (k + 1) = addr.length + k by omega]
      rw [hzero_mid k (by omega)]
      decide
  have hcomma : (serialBytes ⟨addr, commaByte :: tags, args, 1, 0⟩).getD
      (addr.length - 1 + (padTo4 (addr.length + 1) + 1 - addr.length)) 0 =
      commaByte := by
    have h2 := hmid1 0
    rw [List.getD_append _ _ 0 0 (by simp)] at h2
    rw [List.getD_cons_zero] at h2
    rw [show addr.length - 1 + (padTo4 (addr.length + 1) + 1 - addr.length) =
      addr.length + ((padTo4 (addr.length + 1) - addr.length) + 0) by omega]
    exact h2
  have htreg : ∀ j, j < tags.length →
      (serialBytes ⟨addr, commaByte :: tags, args, 1, 0⟩).getD
        (padTo4 (addr.length + 1) + 1 + j) 0 = tags.getD j 0 := by
    intro j hj
    have h2 := hmid1 (j + 1)
    rw [List.getD_append _ _ 0 (j + 1) (by simp; omega)] at h2
    rw [List.getD_cons_succ] at h2
    rw [show padTo4 (addr.length + 1) + 1 + j =
      addr.length + ((padTo4 (addr.length + 1) - addr.length) + (j + 1)) by omega]
    exact h2
  have htzero : (serialBytes ⟨addr, commaByte :: tags, args, 1, 0⟩).getD
      (padTo4 (addr.length + 1) + 1 + tags.length) 0 = 0 := by
    have h2 := hmid2 0
    rw [List.getD_append _ _ 0 0 (by rw [List.length_replicate]; omega)] at h2
    rw [getD_replicate_zero] at h2
    rw [show padTo4 (addr.length + 1) + 1 + tags.length =
      addr.length + ((padTo4 (addr.length + 1) - addr.length) +
        ((tags.length + 1) + 0)) by omega]
    exact h2
  have hareg : ∀ j, j < args.length →
      (serialBytes ⟨addr, commaByte :: tags, args, 1, 0⟩).getD
        (padTo4 (addr.length + 1) + padTo4 (tags.length + 1 + 1) + j) 0 =
        args.getD j 0 := by
    intro j hj
    have h2 := hmid3 j
    rw [show padTo4 (addr.length + 1) + padTo4 (tags.length + 1 + 1) + j =
      addr.length + ((padTo4 (addr.length + 1) - addr.length) +
        ((tags.length + 1) +
          ((padTo4 (tags.length + 1 + 1) - (tags.length + 1)) + j))) by omega]
    exact h2
  have hloop1 : msgParseAddrLoop
      ((serialBytes ⟨addr, commaByte :: tags, args, 1, 0⟩).length + 1)
      (serialBytes ⟨addr, commaByte :: tags, args, 1, 0⟩)
      (serialBytes ⟨addr, commaByte :: tags, args, 1, 0⟩).length 0 [] =
      (0, addr.length, addr) := by
    have h2 := msgParseAddrLoop_reads addr
      (serialBytes ⟨addr, commaByte :: tags, args, 1, 0⟩)
      (serialBytes ⟨addr, commaByte :: tags, args, 1, 0⟩).length 0 []
      ((serialBytes ⟨addr, commaByte :: tags, args, 1, 0⟩).length + 1)
      (fun j hj => by rw [show (0 : Nat) + j = j by omega]; exact haddrget j hj)
      haddrnz
      (by rw [show (0 : Nat) + addr.length = addr.length by omega]; exact hzeroA)
      (by simpa using haddrlen)
      (by rw [hlen]; omega)
      (by rw [hlen]; omega)
    simpa using h2
  have hloop2 : msgParseSkipToCommaLoop
      ((serialBytes ⟨addr, commaByte :: tags, args, 1, 0⟩).length + 1)
      (serialBytes ⟨addr, commaByte :: tags, args, 1, 0⟩)
      (serialBytes ⟨addr, commaByte :: tags, args, 1, 0⟩).length addr.length =
      (0, padTo4 (addr.length + 1) + 1) := by
    have h2 := msgParseSkipToCommaLoop_finds
      (padTo4 (addr.length + 1) + 1 - addr.length)
      (serialBytes ⟨addr, commaByte :: tags, args, 1, 0⟩)
      (serialBytes ⟨addr, commaByte :: tags, args, 1, 0⟩).length addr.length
      ((serialBytes ⟨addr, commaByte :: tags, args, 1, 0⟩).length + 1)
      hnc hcomma hA
      (by rw [hlen]; omega)
      (by rw [hlen]; omega)
    rw [show addr.length + (padTo4 (addr.length + 1) + 1 - addr.length) =
      padTo4 (addr.length + 1) + 1 by omega] at h2
    exact h2
  have hloop3 : msgParseTagLoop
      ((serialBytes ⟨addr, commaByte :: tags, args, 1, 0⟩).length + 1)
      (serialBytes ⟨addr, commaByte :: tags, args, 1, 0⟩)
      (serialBytes ⟨addr, commaByte :: tags, args, 1, 0⟩).length
      (padTo4 (addr.length + 1) + 1) [commaByte] =
      (0, padTo4 (addr.length + 1) + 1 + tags.length, commaByte :: tags) := by
    have h2 := msgParseTagLoop_reads tags
      (serialBytes ⟨addr, commaByte :: tags, args, 1, 0⟩)
      (serialBytes ⟨addr, commaByte :: tags, args, 1, 0⟩).length
      (padTo4 (addr.length + 1) + 1) [commaByte]
      ((serialBytes ⟨addr, commaByte :: tags, args, 1, 0⟩).length + 1)
      htreg htagsnz htzero
      (by simp; omega)
      (by rw [hlen]; omega)
      (by rw [hlen]; omega)
    simpa using h2
  have hloop4 : msgParseAlignLoop 4
      (serialBytes ⟨addr, commaByte :: tags, args, 1, 0⟩).length
      (padTo4 (addr.length + 1) + 1 + tags.length) =
      (0, padTo4 (addr.length + 1) + padTo4 (tags.length + 1 + 1)) := by
    have h2 := msgParseAlignLoop_aligns 4
      (serialBytes ⟨addr, commaByte :: tags, args, 1, 0⟩).length
      (padTo4 (addr.length + 1) + 1 + tags.length)
      (by
        rw [show padTo4 (addr.length + 1) + 1 + tags.length + 1 =
          padTo4 (addr.length + 1) + (tags.length + 1 + 1) by omega,
          padTo4_add_left _ _ hPAmod]
        omega)
      (by
        rw [show padTo4 (addr.length + 1) + 1 + tags.length + 1 =
          padTo4 (addr.length + 1) + (tags.length + 1 + 1) by omega,
          padTo4_add_left _ _ hPAmod, hlen]
        omega)
    rw [show padTo4 (addr.length + 1) + 1 + tags.length + 1 =
      padTo4 (addr.length + 1) + (tags.length + 1 + 1) by omega,
      padTo4_add_left _ _ hPAmod] at h2
    exact h2
  have hloop5 : msgParseArgsLoop
      ((serialBytes ⟨addr, commaByte :: tags, args, 1, 0⟩).length + 1)
      (serialBytes ⟨addr, commaByte :: tags, args, 1, 0⟩)
      (serialBytes ⟨addr, commaByte :: tags, args, 1, 0⟩).length
      (padTo4 (addr.length + 1) + padTo4 (tags.length + 1 + 1)) [] = args := by
    have h2 := msgParseArgsLoop_reads args
      (serialBytes ⟨addr, commaByte :: tags, args, 1, 0⟩)
      (serialBytes ⟨addr, commaByte :: tags, args, 1, 0⟩).length
      (padTo4 (addr.length + 1) + padTo4 (tags.length + 1 + 1)) []
      ((serialBytes ⟨addr, commaByte :: tags, args, 1, 0⟩).length + 1)
      hareg
      (by rw [hlen])
      (by rw [hlen]; omega)
    simpa using h2
  unfold OscMessageInitialiseFromCharArray
  simp only []
  rw [if_neg (by rw [hlen]; omega)]
  rw [if_neg (by rw [hlen]; unfold MIN_OSC_MESSAGE_SIZE; omega)]
  rw [if_neg (by rw [hlen]; omega)]
  rw [if_neg (by rw [hsrc0]; simp)]
  simp only [hloop1, hloop2, hloop3, hloop4, hloop5, freshMessage]

/-! ### Characterization of the positional getters -/

lemma word32_be32 (v : Nat) (hv : v < 2 ^ 32) :
    word32 (v / 2 ^ 24 % 256) (v / 2 ^ 16 % 256) (v / 2 ^ 8 % 256) (v % 256) = v := by
  unfold word32
  omega

lemma word64_be64 (v : Nat) (hv : v < 2 ^ 64) :
    word64 (v / 2 ^ 56 % 256) (v / 2 ^ 48 % 256) (v / 2 ^ 40 % 256) (v / 2 ^ 32 % 256)
      (v / 2 ^ 24 % 256) (v / 2 ^ 16 % 256) (v / 2 ^ 8 % 256) (v % 256) = v := by
  unfold word64
  omega

lemma getD_middle_left (pre mid post : List Nat) (j : Nat) (h : j < mid.length) :
    (pre ++ (mid ++ post)).getD (pre.length + j) 0 = mid.getD j 0 := by
  rw [getD_append_middle]
  exact List.getD_append _ _ 0 j h

lemma getStringLoop_reads (s : List Nat) (args : List Nat) (i : Nat) (acc : List Nat)
    (destSize fuel : Nat)
    (hreg : ∀ j, j < s.length → args.getD (i + j) 0 = s.getD j 0)
    (hnz : ∀ c ∈ s, c ≠ 0)
    (hzero : args.getD (i + s.length) 0 = 0)
    (hdest : acc.length + s.length + 1 ≤ destSize)
    (hfuel : s.length < fuel) :
    getStringLoop fuel args i acc destSize = some (acc ++ (s ++ [0]), i + s.length + 1) := by
  induction s generalizing i acc fuel with
  | nil =>
    cases fuel with
    | zero => omega
    | succ fuel =>
      unfold getStringLoop
      simp only []
      rw [show args.getD i 0 = 0 from by simpa using hzero]
      rw [if_neg (by simp at hdest ⊢; omega)]
      rw [if_neg (by simp)]
      simp
  | cons c rest ih =>
    cases fuel with
    | zero => simp at hfuel
    | succ fuel =>
      unfold getStringLoop
      simp only []
      have hc : args.getD i 0 = c := by
        have h0 := hreg 0 (by simp)
        simpa using h0
      rw [hc]
      rw [if_neg (by simp at hdest ⊢; omega)]
      rw [if_pos (by simpa using hnz c (by simp))]
      rw [ih (i + 1) (acc ++ [c]) fuel
        (fun j hj => by
          have h2 := hreg (j + 1) (by simp; omega)
          rw [show i + 1 + j = i + (j + 1) by omega]
          simpa using h2)
        (fun d hd => hnz d (by simp [hd]))
        (by rw [show i + 1 + rest.length = i + (c :: rest).length by simp; omega]
            exact hzero)
        (by simp at hdest ⊢; omega)
        (by simp at hfuel ⊢; omega)]
      simp [List.append_assoc]
      omega

lemma getAlignCursorLoop_aligns (fuel size i : Nat)
    (hfuel : padTo4 i - i ≤ fuel)
    (hsz : padTo4 i ≤ size) :
    getAlignCursorLoop fuel size i = some (padTo4 i) := by
  induction fuel generalizing i with
  | zero =>
    unfold getAlignCursorLoop
    have h0 : padTo4 i = i := by
      have := le_padTo4 i
      omega
    rw [h0]
  | succ fuel ih =>
    unfold getAlignCursorLoop
    by_cases h4 : i % 4 ≠ 0
    · rw [if_pos h4]
      have hlt : i < padTo4 i := by
        unfold padTo4
        rw [if_pos h4]
        omega
      rw [if_neg (by omega)]
      have hpad : padTo4 (i + 1) = padTo4 i := by
        unfold padTo4
        split_ifs <;> omega
      rw [show padTo4 i = padTo4 (i + 1) from hpad.symm]
      exact ih (i + 1) (by rw [hpad]; omega) (by rw [hpad]; exact hsz)
    · rw [if_neg h4]
      simp at h4
      rw [padTo4_of_mod _ h4]

/-- The exact effect of `checkArg` at the canonical read position: for a
message laid out as built (tag cursor on the argument's tag, arguments cursor
at the start of its payload, arguments within capacity), the matching `get_*`
call succeeds, returns the argument's value, and advances both cursors past
the argument. -/
lemma checkArg_step (a : OscArg) (addr tags1 tailTags pre tailPay : List Nat)
    (hwf : ArgWF a)
    (hpre4 : pre.length % 4 = 0)
    (hfits : pre.length + (argPayload a).length + tailPay.length ≤ MAX_ARGUMENTS_SIZE) :
    checkArg ⟨addr, commaByte :: (tags1 ++ (argTag a :: tailTags)),
        pre ++ (argPayload a ++ tailPay), 1 + tags1.length, pre.length⟩ a =
      some ⟨addr, commaByte :: (tags1 ++ (argTag a :: tailTags)),
        pre ++ (argPayload a ++ tailPay), 1 + tags1.length + 1,
        pre.length + (argPayload a).length⟩ := by
  have htag : (commaByte :: (tags1 ++ (argTag a :: tailTags))).getD (1 + tags1.length) 0 =
      argTag a := by
    rw [show 1 + tags1.length = tags1.length + 1 by omega]
    rw [List.getD_cons_succ]
    have h2 := getD_append_middle tags1 (argTag a :: tailTags) 0
    rw [show tags1.length + 0 = tags1.length by omega] at h2
    rw [h2]
    exact List.getD_cons_zero
  cases a with
  | int32 v =>
    have hv : v < 2 ^ 32 := hwf
    simp only [argPayload] at hfits ⊢
    simp only [argTag] at htag ⊢
    have hb0 : (pre ++ (be32 v ++ tailPay)).getD pre.length 0 = v / 2 ^ 24 % 256 := by
      have h2 := getD_middle_left pre (be32 v) tailPay 0 (by simp [be32])
      simpa [be32] using h2
    have hb1 : (pre ++ (be32 v ++ tailPay)).getD (pre.length + 1) 0 = v / 2 ^ 16 % 256 := by
      have h2 := getD_middle_left pre (be32 v) tailPay 1 (by simp [be32])
      simpa [be32] using h2
    have hb2 : (pre ++ (be32 v ++ tailPay)).getD (pre.length + 2) 0 = v / 2 ^ 8 % 256 := by
      have h2 := getD_middle_left pre (be32 v) tailPay 2 (by simp [be32])
      simpa [be32] using h2
    have hb3 : (pre ++ (be32 v ++ tailPay)).getD (pre.length + 3) 0 = v % 256 := by
      have h2 := getD_middle_left pre (be32 v) tailPay 3 (by simp [be32])
      simpa [be32] using h2
    have hget : OscMessageGetInt32
        ⟨addr, commaByte :: (tags1 ++ (OscTypeTagInt32 :: tailTags)),
          pre ++ (be32 v ++ tailPay), 1 + tags1.length, pre.length⟩ =
        (0, ⟨addr, commaByte :: (tags1 ++ (OscTypeTagInt32 :: tailTags)),
          pre ++ (be32 v ++ tailPay), 1 + tags1.length + 1, pre.length + 4⟩, some v) := by
      unfold OscMessageGetInt32
      simp only []
      rw [if_neg (by rw [htag]; simp)]
      rw [if_neg (by simp [be32])]
      rw [hb0, hb1, hb2, hb3, word32_be32 v hv]
    simp only [checkArg, hget]
    simp [be32]
  | float32 v =>
    have hv : v < 2 ^ 32 := hwf
    simp only [argPayload] at hfits ⊢
    simp only [argTag] at htag ⊢
    have hb0 : (pre ++ (be32 v ++ tailPay)).getD pre.length 0 = v / 2 ^ 24 % 256 := by
      have h2 := getD_middle_left pre (be32 v) tailPay 0 (by simp [be32])
      simpa [be32] using h2
    have hb1 : (pre ++ (be32 v ++ tailPay)).getD (pre.length + 1) 0 = v / 2 ^ 16 % 256 := by
      have h2 := getD_middle_left pre (be32 v) tailPay 1 (by simp [be32])
      simpa [be32] using h2
    have hb2 : (pre ++ (be32 v ++ tailPay)).getD (pre.length + 2) 0 = v / 2 ^ 8 % 256 := by
      have h2 := getD_middle_left pre (be32 v) tailPay 2 (by simp [be32])
      simpa [be32] using h2
    have hb3 : (pre ++ (be32 v ++ tailPay)).getD (pre.length + 3) 0 = v % 256 := by
      have h2 := getD_middle_left pre (be32 v) tailPay 3 (by simp [be32])
      simpa [be32] using h2
    have hget : OscMessageGetFloat32
        ⟨addr, commaByte :: (tags1 ++ (OscTypeTagFloat32 :: tailTags)),
          pre ++ (be32 v ++ tailPay), 1 + tags1.length, pre.length⟩ =
        (0, ⟨addr, commaByte :: (tags1 ++ (OscTypeTagFloat32 :: tailTags)),
          pre ++ (be32 v ++ tailPay), 1 + tags1.length + 1, pre.length + 4⟩, some v) := by
      unfold OscMessageGetFloat32
      simp only []
      rw [if_neg (by rw [htag]; simp)]
      rw [if_neg (by simp [be32])]
      rw [hb0, hb1, hb2, hb3, word32_be32 v hv]
    simp only [checkArg, hget]
    simp [be32]
  | rgba v =>
    have hv : v < 2 ^ 32 := hwf
    simp only [argPayload] at hfits ⊢
    simp only [argTag] at htag ⊢
    have hb0 : (pre ++ (be32 v ++ tailPay)).getD pre.length 0 = v / 2 ^ 24 % 256 := by
      have h2 := getD_middle_left pre (be32 v) tailPay 0 (by simp [be32])
      simpa [be32] using h2
    have hb1 : (pre ++ (be32 v ++ tailPay)).getD (pre.length + 1) 0 = v / 2 ^ 16 % 256 := by
      have h2 := getD_middle_left pre (be32 v) tailPay 1 (by simp [be32])
      simpa [be32] using h2
    have hb2 : (pre ++ (be32 v ++ tailPay)).getD (pre.length + 2) 0 = v / 2 ^ 8 % 256 := by
      have h2 := getD_middle_left pre (be32 v) tailPay 2 (by simp [be32])
      simpa [be32] using h2
    have hb3 : (pre ++ (be32 v ++ tailPay)).getD (pre.length + 3) 0 = v % 256 := by
      have h2 := getD_middle_left pre (be32 v) tailPay 3 (by simp [be32])
      simpa [be32] using h2
    have hget : OscMessageGetRgbaColour
        ⟨addr, commaByte :: (tags1 ++ (OscTypeTagRgbaColour :: tailTags)),
          pre ++ (be32 v ++ tailPay), 1 + tags1.length, pre.length⟩ =
        (0, ⟨addr, commaByte :: (tags1 ++ (OscTypeTagRgbaColour :: tailTags)),
          pre ++ (be32 v ++ tailPay), 1 + tags1.length + 1, pre.length + 4⟩, some v) := by
      unfold OscMessageGetRgbaColour
      simp only []
      rw [if_neg (by rw [htag]; simp)]
      rw [if_neg (by simp [be32])]
      rw [hb0, hb1, hb2, hb3, word32_be32 v hv]
    simp only [checkArg, hget]
    simp [be32]
  | midi v =>
    have hv : v < 2 ^ 32 := hwf
    simp only [argPayload] at hfits ⊢
    simp only [argTag] at htag ⊢
    have hb0 : (pre ++ (be32 v ++ tailPay)).getD pre.length 0 = v / 2 ^ 24 % 256 := by
      have h2 := getD_middle_left pre (be32 v) tailPay 0 (by simp [be32])
      simpa [be32] using h2
    have hb1 : (pre ++ (be32 v ++ tailPay)).getD (pre.length + 1) 0 = v / 2 ^ 16 % 256 := by
      have h2 := getD_middle_left pre (be32 v) tailPay 1 (by simp [be32])
      simpa [be32] using h2
    have hb2 : (pre ++ (be32 v ++ tailPay)).getD (pre.length + 2) 0 = v / 2 ^ 8 % 256 := by
      have h2 := getD_middle_left pre (be32 v) tailPay 2 (by simp [be32])
      simpa [be32] using h2
    have hb3 : (pre ++ (be32 v ++ tailPay)).getD (pre.length + 3) 0 = v % 256 := by
      have h2 := getD_middle_left pre (be32 v) tailPay 3 (by simp [be32])
      simpa [be32] using h2
    have hget : OscMessageGetMidiMessage
        ⟨addr, commaByte :: (tags1 ++ (OscTypeTagMidiMessage :: tailTags)),
          pre ++ (be32 v ++ tailPay), 1 + tags1.length, pre.length⟩ =
        (0, ⟨addr, commaByte :: (tags1 ++ (OscTypeTagMidiMessage :: tailTags)),
          pre ++ (be32 v ++ tailPay), 1 + tags1.length + 1, pre.length + 4⟩, some v) := by
      unfold OscMessageGetMidiMessage
      simp only []
      rw [if_neg (by rw [htag]; simp)]
      rw [if_neg (by simp [be32])]
      rw [hb0, hb1, hb2, hb3, word32_be32 v hv]
    simp only [checkArg, hget]
    simp [be32]
  | int64 v =>
    have hv : v < 2 ^ 64 := hwf
    simp only [argPayload] at hfits ⊢
    simp only [argTag] at htag ⊢
    have hb0 : (pre ++ (be64 v ++ tailPay)).getD pre.length 0 = v / 2 ^ 56 % 256 := by
      have h2 := getD_middle_left pre (be64 v) tailPay 0 (by simp [be64])
      simpa [be64] using h2
    have hb1 : (pre ++ (be64 v ++ tailPay)).getD (pre.length + 1) 0 = v / 2 ^ 48 % 256 := by
      have h2 := getD_middle_left pre (be64 v) tailPay 1 (by simp [be64])
      simpa [be64] using h2
    have hb2 : (pre ++ (be64 v ++ tailPay)).getD (pre.length + 2) 0 = v / 2 ^ 40 % 256 := by
      have h2 := getD_middle_left pre (be64 v) tailPay 2 (by simp [be64])
      simpa [be64] using h2
    have hb3 : (pre ++ (be64 v ++ tailPay)).getD (pre.length + 3) 0 = v / 2 ^ 32 % 256 := by
      have h2 := getD_middle_left pre (be64 v) tailPay 3 (by simp [be64])
      simpa [be64] using h2
    have hb4 : (pre ++ (be64 v ++ tailPay)).getD (pre.length + 4) 0 = v / 2 ^ 24 % 256 := by
      have h2 := getD_middle_left pre (be64 v) tailPay 4 (by simp [be64])
      simpa [be64] using h2
    have hb5 : (pre ++ (be64 v ++ tailPay)).getD (pre.length + 5) 0 = v / 2 ^ 16 % 256 := by
      have h2 := getD_middle_left pre (be64 v) tailPay 5 (by simp [be64])
      simpa [be64] using h2
    have hb6 : (pre ++ (be64 v ++ tailPay)).getD (pre.length + 6) 0 = v / 2 ^ 8 % 256 := by
      have h2 := getD_middle_left pre (be64 v) tailPay 6 (by simp [be64])
      simpa [be64] using h2
    have hb7 : (pre ++ (be64 v ++ tailPay)).getD (pre.length + 7) 0 = v % 256 := by
      have h2 := getD_middle_left pre (be64 v) tailPay 7 (by simp [be64])
      simpa [be64] using h2
    have hget : OscMessageGetInt64
        ⟨addr, commaByte :: (tags1 ++ (OscTypeTagInt64 :: tailTags)),
          pre ++ (be64 v ++ tailPay), 1 + tags1.length, pre.length⟩ =
        (0, ⟨addr, commaByte :: (tags1 ++ (OscTypeTagInt64 :: tailTags)),
          pre ++ (be64 v ++ tailPay), 1 + tags1.length + 1, pre.length + 8⟩, some v) := by
      unfold OscMessageGetInt64
      simp only []
      rw [if_neg (by rw [htag]; simp)]
      rw [if_neg (by simp [be64])]
      rw [hb0, hb1, hb2, hb3, hb4, hb5, hb6, hb7, word64_be64 v hv]
    simp only [checkArg, hget]
    simp [be64]
  | timeTag v =>
    have hv : v < 2 ^ 64 := hwf
    simp only [argPayload] at hfits ⊢
    simp only [argTag] at htag ⊢
    have hb0 : (pre ++ (be64 v ++ tailPay)).getD pre.length 0 = v / 2 ^ 56 % 256 := by
      have h2 := getD_middle_left pre (be64 v) tailPay 0 (by simp [be64])
      simpa [be64] using h2
    have hb1 : (pre ++ (be64 v ++ tailPay)).getD (pre.length + 1) 0 = v / 2 ^ 48 % 256 := by
      have h2 := getD_middle_left pre (be64 v) tailPay 1 (by simp [be64])
      simpa [be64] using h2
    have hb2 : (pre ++ (be64 v ++ tailPay)).getD (pre.length + 2) 0 = v / 2 ^ 40 % 256 := by
      have h2 := getD_middle_left pre (be64 v) tailPay 2 (by simp [be64])
      simpa [be64] using h2
    have hb3 : (pre ++ (be64 v ++ tailPay)).getD (pre.length + 3) 0 = v / 2 ^ 32 % 256 := by
      have h2 := getD_middle_left pre (be64 v) tailPay 3 (by simp [be64])
      simpa [be64] using h2
    have hb4 : (pre ++ (be64 v ++ tailPay)).getD (pre.length + 4) 0 = v / 2 ^ 24 % 256 := by
      have h2 := getD_middle_left pre (be64 v) tailPay 4 (by simp [be64])
      simpa [be64] using h2
    have hb5 : (pre ++ (be64 v ++ tailPay)).getD (pre.length + 5) 0 = v / 2 ^ 16 % 256 := by
      have h2 := getD_middle_left pre (be64 v) tailPay 5 (by simp [be64])
      simpa [be64] using h2
    have hb6 : (pre ++ (be64 v ++ tailPay)).getD (pre.length + 6) 0 = v / 2 ^ 8 % 256 := by
      have h2 := getD_middle_left pre (be64 v) tailPay 6 (by simp [be64])
      simpa [be64] using h2
    have hb7 : (pre ++ (be64 v ++ tailPay)).getD (pre.length + 7) 0 = v % 256 := by
      have h2 := getD_middle_left pre (be64 v) tailPay 7 (by simp [be64])
      simpa [be64] using h2
    have hget : OscMessageGetTimeTag
        ⟨addr, commaByte :: (tags1 ++ (OscTypeTagTimeTag :: tailTags)),
          pre ++ (be64 v ++ tailPay), 1 + tags1.length, pre.length⟩ =
        (0, ⟨addr, commaByte :: (tags1 ++ (OscTypeTagTimeTag :: tailTags)),
          pre ++ (be64 v ++ tailPay), 1 + tags1.length + 1, pre.length + 8⟩, some v) := by
      unfold OscMessageGetTimeTag
      simp only []
      rw [if_neg (by rw [htag]; simp)]
      rw [if_neg (by simp [be64])]
      rw [hb0, hb1, hb2, hb3, hb4, hb5, hb6, hb7, word64_be64 v hv]
    simp only [checkArg, hget]
    simp [be64]
  | double64 v =>
    have hv : v < 2 ^ 64 := hwf
    simp only [argPayload] at hfits ⊢
    simp only [argTag] at htag ⊢
    have hb0 : (pre ++ (be64 v ++ tailPay)).getD pre.length 0 = v / 2 ^ 56 % 256 := by
      have h2 := getD_middle_left pre (be64 v) tailPay 0 (by simp [be64])
      simpa [be64] using h2
    have hb1 : (pre ++ (be64 v ++ tailPay)).getD (pre.length + 1) 0 = v / 2 ^ 48 % 256 := by
      have h2 := getD_middle_left pre (be64 v) tailPay 1 (by simp [be64])
      simpa [be64] using h2
    have hb2 : (pre ++ (be64 v ++ tailPay)).getD (pre.length + 2) 0 = v / 2 ^ 40 % 256 := by
      have h2 := getD_middle_left pre (be64 v) tailPay 2 (by simp [be64])
      simpa [be64] using h2
    have hb3 : (pre ++ (be64 v ++ tailPay)).getD (pre.length + 3) 0 = v / 2 ^ 32 % 256 := by
      have h2 := getD_middle_left pre (be64 v) tailPay 3 (by simp [be64])
      simpa [be64] using h2
    have hb4 : (pre ++ (be64 v ++ tailPay)).getD (pre.length + 4) 0 = v / 2 ^ 24 % 256 := by
      have h2 := getD_middle_left pre (be64 v) tailPay 4 (by simp [be64])
      simpa [be64] using h2
    have hb5 : (pre ++ (be64 v ++ tailPay)).getD (pre.length + 5) 0 = v / 2 ^ 16 % 256 := by
      have h2 := getD_middle_left pre (be64 v) tailPay 5 (by simp [be64])
      simpa [be64] using h2
    have hb6 : (pre ++ (be64 v ++ tailPay)).getD (pre.length + 6) 0 = v / 2 ^ 8 % 256 := by
      have h2 := getD_middle_left pre (be64 v) tailPay 6 (by simp [be64])
      simpa [be64] using h2
    have hb7 : (pre ++ (be64 v ++ tailPay)).getD (pre.length + 7) 0 = v % 256 := by
      have h2 := getD_middle_left pre (be64 v) tailPay 7 (by simp [be64])
      simpa [be64] using h2
    have hget : OscMessageGetDouble
        ⟨addr, commaByte :: (tags1 ++ (OscTypeTagDouble :: tailTags)),
          pre ++ (be64 v ++ tailPay), 1 + tags1.length, pre.length⟩ =
        (0, ⟨addr, commaByte :: (tags1 ++ (OscTypeTagDouble :: tailTags)),
          pre ++ (be64 v ++ tailPay), 1 + tags1.length + 1, pre.length + 8⟩, some v) := by
      unfold OscMessageGetDouble
      simp only []
      rw [if_neg (by rw [htag]; simp)]
      rw [if_neg (by simp [be64])]
      rw [hb0, hb1, hb2, hb3, hb4, hb5, hb6, hb7, word64_be64 v hv]
    simp only [checkArg, hget]
    simp [be64]
  | character c =>
    simp only [argPayload] at hfits ⊢
    simp only [argTag] at htag ⊢
    have hb3 : (pre ++ ([0, 0, 0, c] ++ tailPay)).getD (pre.length + 3) 0 = c := by
      have h2 := getD_middle_left pre [0, 0, 0, c] tailPay 3 (by simp)
      simpa using h2
    have hget : OscMessageGetCharacter
        ⟨addr, commaByte :: (tags1 ++ (OscTypeTagCharacter :: tailTags)),
          pre ++ ([0, 0, 0, c] ++ tailPay), 1 + tags1.length, pre.length⟩ =
        (0, ⟨addr, commaByte :: (tags1 ++ (OscTypeTagCharacter :: tailTags)),
          pre ++ ([0, 0, 0, c] ++ tailPay), 1 + tags1.length + 1, pre.length + 4⟩,
          some c) := by
      unfold OscMessageGetCharacter
      simp only []
      rw [if_neg (by rw [htag]; simp)]
      rw [if_neg (by simp)]
      rw [hb3]
    simp only [checkArg, hget]
    simp
  | boolean b =>
    have hty : OscMessageGetArgumentType
        ⟨addr, commaByte :: (tags1 ++ (argTag (OscArg.boolean b) :: tailTags)),
          pre ++ (argPayload (OscArg.boolean b) ++ tailPay), 1 + tags1.length,
          pre.length⟩ = argTag (OscArg.boolean b) := by
      unfold OscMessageGetArgumentType
      rw [if_neg (by simp; omega)]
      exact htag
    have hskip : OscMessageSkipArgument
        ⟨addr, commaByte :: (tags1 ++ (argTag (OscArg.boolean b) :: tailTags)),
          pre ++ (argPayload (OscArg.boolean b) ++ tailPay), 1 + tags1.length,
          pre.length⟩ =
        (0, ⟨addr, commaByte :: (tags1 ++ (argTag (OscArg.boolean b) :: tailTags)),
          pre ++ (argPayload (OscArg.boolean b) ++ tailPay), 1 + tags1.length + 1,
          pre.length⟩) := by
      unfold OscMessageSkipArgument
      rw [if_neg (by simp; omega)]
    simp only [checkArg]
    rw [if_pos (by rw [hty]; simp [argTag])]
    simp only [hskip]
    simp [argPayload]
  | nil =>
    have hty : OscMessageGetArgumentType
        ⟨addr, commaByte :: (tags1 ++ (argTag OscArg.nil :: tailTags)),
          pre ++ (argPayload OscArg.nil ++ tailPay), 1 + tags1.length,
          pre.length⟩ = argTag OscArg.nil := by
      unfold OscMessageGetArgumentType
      rw [if_neg (by simp; omega)]
      exact htag
    have hskip : OscMessageSkipArgument
        ⟨addr, commaByte :: (tags1 ++ (argTag OscArg.nil :: tailTags)),
          pre ++ (argPayload OscArg.nil ++ tailPay), 1 + tags1.length,
          pre.length⟩ =
        (0, ⟨addr, commaByte :: (tags1 ++ (argTag OscArg.nil :: tailTags)),
          pre ++ (argPayload OscArg.nil ++ tailPay), 1 + tags1.length + 1,
          pre.length⟩) := by
      unfold OscMessageSkipArgument
      rw [if_neg (by simp; omega)]
    simp only [checkArg]
    rw [if_pos (by rw [hty]; simp [argTag])]
    simp only [hskip]
    simp [argPayload]
  | infinitum =>
    have hty : OscMessageGetArgumentType
        ⟨addr, commaByte :: (tags1 ++ (argTag OscArg.infinitum :: tailTags)),
          pre ++ (argPayload OscArg.infinitum ++ tailPay), 1 + tags1.length,
          pre.length⟩ = argTag OscArg.infinitum := by
      unfold OscMessageGetArgumentType
      rw [if_neg (by simp; omega)]
      exact htag
    have hskip : OscMessageSkipArgument
        ⟨addr, commaByte :: (tags1 ++ (argTag OscArg.infinitum :: tailTags)),
          pre ++ (argPayload OscArg.infinitum ++ tailPay), 1 + tags1.length,
          pre.length⟩ =
        (0, ⟨addr, commaByte :: (tags1 ++ (argTag OscArg.infinitum :: tailTags)),
          pre ++ (argPayload OscArg.infinitum ++ tailPay), 1 + tags1.length + 1,
          pre.length⟩) := by
      unfold OscMessageSkipArgument
      rw [if_neg (by simp; omega)]
    simp only [checkArg]
    rw [if_pos (by rw [hty]; simp [argTag])]
    simp only [hskip]
    simp [argPayload]
  | beginArray =>
    have hty : OscMessageGetArgumentType
        ⟨addr, commaByte :: (tags1 ++ (argTag OscArg.beginArray :: tailTags)),
          pre ++ (argPayload OscArg.beginArray ++ tailPay), 1 + tags1.length,
          pre.length⟩ = argTag OscArg.beginArray := by
      unfold OscMessageGetArgumentType
      rw [if_neg (by simp; omega)]
      exact htag
    have hskip : OscMessageSkipArgument
        ⟨addr, commaByte :: (tags1 ++ (argTag OscArg.beginArray :: tailTags)),
          pre ++ (argPayload OscArg.beginArray ++ tailPay), 1 + tags1.length,
          pre.length⟩ =
        (0, ⟨addr, commaByte :: (tags1 ++ (argTag OscArg.beginArray :: tailTags)),
          pre ++ (argPayload OscArg.beginArray ++ tailPay), 1 + tags1.length + 1,
          pre.length⟩) := by
      unfold OscMessageSkipArgument
      rw [if_neg (by simp; omega)]
    simp only [checkArg]
    rw [if_pos (by rw [hty]; simp [argTag])]
    simp only [hskip]
    simp [argPayload]
  | endArray =>
    have hty : OscMessageGetArgumentType
        ⟨addr, commaByte :: (tags1 ++ (argTag OscArg.endArray :: tailTags)),
          pre ++ (argPayload OscArg.endArray ++ tailPay), 1 + tags1.length,
          pre.length⟩ = argTag OscArg.endArray := by
      unfold OscMessageGetArgumentType
      rw [if_neg (by simp; omega)]
      exact htag
    have hskip : OscMessageSkipArgument
        ⟨addr, commaByte :: (tags1 ++ (argTag OscArg.endArray :: tailTags)),
          pre ++ (argPayload OscArg.endArray ++ tailPay), 1 + tags1.length,
          pre.length⟩ =
        (0, ⟨addr, commaByte :: (tags1 ++ (argTag OscArg.endArray :: tailTags)),
          pre ++ (argPayload OscArg.endArray ++ tailPay), 1 + tags1.length + 1,
          pre.length⟩) := by
      unfold OscMessageSkipArgument
      rw [if_neg (by simp; omega)]
    simp only [checkArg]
    rw [if_pos (by rw [hty]; simp [argTag])]
    simp only [hskip]
    simp [argPayload]
  | string s =>
    have hs : ∀ c ∈ s, 0 < c ∧ c < 256 := hwf
    simp only [argPayload] at hfits ⊢
    simp only [argTag] at htag ⊢
    have hP1 : s.length + 1 ≤ padTo4 (s.length + 1) := le_padTo4 _
    have hPmod : padTo4 (s.length + 1) % 4 = 0 := padTo4_mod _
    have hPle : padTo4 (s.length + 1) ≤ s.length + 4 := by
      have := padTo4_le (s.length + 1); omega
    have hP4 : 4 ≤ padTo4 (s.length + 1) := by omega
    have hplen : (s ++ List.replicate (padTo4 (s.length + 1) - s.length) 0).length =
        padTo4 (s.length + 1) := by
      simp
      omega
    have hreg : ∀ j, j < s.length →
        (pre ++ ((s ++ List.replicate (padTo4 (s.length + 1) - s.length) 0) ++
          tailPay)).getD (pre.length + j) 0 = s.getD j 0 := by
      intro j hj
      have h2 := getD_middle_left pre
        (s ++ List.replicate (padTo4 (s.length + 1) - s.length) 0) tailPay j
        (by simp; omega)
      rw [h2]
      exact List.getD_append _ _ 0 j hj
    have hzero : (pre ++ ((s ++ List.replicate (padTo4 (s.length + 1) - s.length) 0) ++
        tailPay)).getD (pre.length + s.length) 0 = 0 := by
      have h2 := getD_middle_left pre
        (s ++ List.replicate (padTo4 (s.length + 1) - s.length) 0) tailPay s.length
        (by simp; omega)
      rw [h2]
      rw [List.getD_append_right s _ 0 s.length (by omega)]
      rw [Nat.sub_self]
      exact getD_replicate_zero _ _
    have hloop : getStringLoop
        ((pre ++ ((s ++ List.replicate (padTo4 (s.length + 1) - s.length) 0) ++
          tailPay)).length + 2)
        (pre ++ ((s ++ List.replicate (padTo4 (s.length + 1) - s.length) 0) ++
          tailPay)) pre.length [] (MAX_ARGUMENTS_SIZE + 4) =
        some (s ++ [0], pre.length + s.length + 1) := by
      have h2 := getStringLoop_reads s
        (pre ++ ((s ++ List.replicate (padTo4 (s.length + 1) - s.length) 0) ++
          tailPay)) pre.length [] (MAX_ARGUMENTS_SIZE + 4)
        ((pre ++ ((s ++ List.replicate (padTo4 (s.length + 1) - s.length) 0) ++
          tailPay)).length + 2)
        hreg
        (fun c hc => by have := (hs c hc).1; omega)
        hzero
        (by simp [MAX_ARGUMENTS_SIZE] at hfits ⊢; omega)
        (by simp; omega)
      simpa using h2
    have halign : getAlignCursorLoop 4
        (pre ++ ((s ++ List.replicate (padTo4 (s.length + 1) - s.length) 0) ++
          tailPay)).length (pre.length + s.length + 1) =
        some (pre.length +
          (s ++ List.replicate (padTo4 (s.length + 1) - s.length) 0).length) := by
      have h2 := getAlignCursorLoop_aligns 4
        (pre ++ ((s ++ List.replicate (padTo4 (s.length + 1) - s.length) 0) ++
          tailPay)).length (pre.length + s.length + 1)
        (by have := padTo4_le (pre.length + s.length + 1)
            have := le_padTo4 (pre.length + s.length + 1)
            omega)
        (by rw [show pre.length + s.length + 1 = pre.length + (s.length + 1) by omega,
              padTo4_add_left _ _ hpre4]
            simp
            omega)
      rw [h2]
      congr 1
      rw [show pre.length + s.length + 1 = pre.length + (s.length + 1) by omega,
        padTo4_add_left _ _ hpre4, hplen]
    have hget : OscMessageGetString
        ⟨addr, commaByte :: (tags1 ++ (OscTypeTagString :: tailTags)),
          pre ++ ((s ++ List.replicate (padTo4 (s.length + 1) - s.length) 0) ++
            tailPay), 1 + tags1.length, pre.length⟩ (MAX_ARGUMENTS_SIZE + 4) =
        (0, ⟨addr, commaByte :: (tags1 ++ (OscTypeTagString :: tailTags)),
          pre ++ ((s ++ List.replicate (padTo4 (s.length + 1) - s.length) 0) ++
            tailPay), 1 + tags1.length + 1,
          pre.length +
            (s ++ List.replicate (padTo4 (s.length + 1) - s.length) 0).length⟩,
          some (s ++ [0])) := by
      unfold OscMessageGetString
      simp only []
      rw [if_neg (by rw [htag]; simp)]
      rw [if_neg (by simp; omega)]
      rw [if_neg (by simp [MAX_ARGUMENTS_SIZE])]
      simp only [hloop, halign]
    simp only [checkArg, hget]
    simp
  | altString s =>
    have hs : ∀ c ∈ s, 0 < c ∧ c < 256 := hwf
    simp only [argPayload] at hfits ⊢
    simp only [argTag] at htag ⊢
    have hP1 : s.length + 1 ≤ padTo4 (s.length + 1) := le_padTo4 _
    have hPmod : padTo4 (s.length + 1) % 4 = 0 := padTo4_mod _
    have hPle : padTo4 (s.length + 1) ≤ s.length + 4 := by
      have := padTo4_le (s.length + 1); omega
    have hP4 : 4 ≤ padTo4 (s.length + 1) := by omega
    have hplen : (s ++ List.replicate (padTo4 (s.length + 1) - s.length) 0).length =
        padTo4 (s.length + 1) := by
      simp
      omega
    have hreg : ∀ j, j < s.length →
        (pre ++ ((s ++ List.replicate (padTo4 (s.length + 1) - s.length) 0) ++
          tailPay)).getD (pre.length + j) 0 = s.getD j 0 := by
      intro j hj
      have h2 := getD_middle_left pre
        (s ++ List.replicate (padTo4 (s.length + 1) - s.length) 0) tailPay j
        (by simp; omega)
      rw [h2]
      exact List.getD_append _ _ 0 j hj
    have hzero : (pre ++ ((s ++ List.replicate (padTo4 (s.length + 1) - s.length) 0) ++
        tailPay)).getD (pre.length + s.length) 0 = 0 := by
      have h2 := getD_middle_left pre
        (s ++ List.replicate (padTo4 (s.length + 1) - s.length) 0) tailPay s.length
        (by simp; omega)
      rw [h2]
      rw [List.getD_append_right s _ 0 s.length (by omega)]
      rw [Nat.sub_self]
      exact getD_replicate_zero _ _
    have hloop : getStringLoop
        ((pre ++ ((s ++ List.replicate (padTo4 (s.length + 1) - s.length) 0) ++
          tailPay)).length + 2)
        (pre ++ ((s ++ List.replicate (padTo4 (s.length + 1) - s.length) 0) ++
          tailPay)) pre.length [] (MAX_ARGUMENTS_SIZE + 4) =
        some (s ++ [0], pre.length + s.length + 1) := by
      have h2 := getStringLoop_reads s
        (pre ++ ((s ++ List.replicate (padTo4 (s.length + 1) - s.length) 0) ++
          tailPay)) pre.length [] (MAX_ARGUMENTS_SIZE + 4)
        ((pre ++ ((s ++ List.replicate (padTo4 (s.length + 1) - s.length) 0) ++
          tailPay)).length + 2)
        hreg
        (fun c hc => by have := (hs c hc).1; omega)
        hzero
        (by simp [MAX_ARGUMENTS_SIZE] at hfits ⊢; omega)
        (by simp; omega)
      simpa using h2
    have halign : getAlignCursorLoop 4
        (pre ++ ((s ++ List.replicate (padTo4 (s.length + 1) - s.length) 0) ++
          tailPay)).length (pre.length + s.length + 1) =
        some (pre.length +
          (s ++ List.replicate (padTo4 (s.length + 1) - s.length) 0).length) := by
      have h2 := getAlignCursorLoop_aligns 4
        (pre ++ ((s ++ List.replicate (padTo4 (s.length + 1) - s.length) 0) ++
          tailPay)).length (pre.length + s.length + 1)
        (by have := padTo4_le (pre.length + s.length + 1)
            have := le_padTo4 (pre.length + s.length + 1)
            omega)
        (by rw [show pre.length + s.length + 1 = pre.length + (s.length + 1) by omega,
              padTo4_add_left _ _ hpre4]
            simp
            omega)
      rw [h2]
      congr 1
      rw [show pre.length + s.length + 1 = pre.length + (s.length + 1) by omega,
        padTo4_add_left _ _ hpre4, hplen]
    have hget : OscMessageGetString
        ⟨addr, commaByte :: (tags1 ++ (OscTypeTagAlternateString :: tailTags)),
          pre ++ ((s ++ List.replicate (padTo4 (s.length + 1) - s.length) 0) ++
            tailPay), 1 + tags1.length, pre.length⟩ (MAX_ARGUMENTS_SIZE + 4) =
        (0, ⟨addr, commaByte :: (tags1 ++ (OscTypeTagAlternateString :: tailTags)),
          pre ++ ((s ++ List.replicate (padTo4 (s.length + 1) - s.length) 0) ++
            tailPay), 1 + tags1.length + 1,
          pre.length +
            (s ++ List.replicate (padTo4 (s.length + 1) - s.length) 0).length⟩,
          some (s ++ [0])) := by
      unfold OscMessageGetString
      simp only []
      rw [if_neg (by rw [htag]; simp)]
      rw [if_neg (by simp; omega)]
      rw [if_neg (by simp [MAX_ARGUMENTS_SIZE])]
      simp only [hloop, halign]
    simp only [checkArg, hget]
    simp
  | blob bytes =>
    simp only [argPayload] at hfits ⊢
    simp only [argTag] at htag ⊢
    have hfitsN : pre.length +
        (be32 bytes.length ++ bytes ++
          List.replicate ((4 - bytes.length % 4) % 4) 0).length +
        tailPay.length ≤ 1384 := by
      simpa [MAX_ARGUMENTS_SIZE] using hfits
    simp [be32] at hfitsN
    have hv32 : bytes.length < 2 ^ 32 := by omega
    have hb0 : (pre ++ (be32 bytes.length ++ bytes ++
        List.replicate ((4 - bytes.length % 4) % 4) 0 ++ tailPay)).getD
        pre.length 0 = bytes.length / 2 ^ 24 % 256 := by
      have h2 := getD_middle_left pre
        (be32 bytes.length ++ bytes ++
          List.replicate ((4 - bytes.length % 4) % 4) 0) tailPay 0
        (by simp [be32])
      rw [List.getD_append _ _ 0 0 (by simp [be32])] at h2
      rw [List.getD_append _ _ 0 0 (by simp [be32])] at h2
      simpa [be32] using h2
    have hb1 : (pre ++ (be32 bytes.length ++ bytes ++
        List.replicate ((4 - bytes.length % 4) % 4) 0 ++ tailPay)).getD
        (pre.length + 1) 0 = bytes.length / 2 ^ 16 % 256 := by
      have h2 := getD_middle_left pre
        (be32 bytes.length ++ bytes ++
          List.replicate ((4 - bytes.length % 4) % 4) 0) tailPay 1
        (by simp [be32])
      rw [List.getD_append _ _ 0 1 (by simp [be32])] at h2
      rw [List.getD_append _ _ 0 1 (by simp [be32])] at h2
      simpa [be32] using h2
    have hb2 : (pre ++ (be32 bytes.length ++ bytes ++
        List.replicate ((4 - bytes.length % 4) % 4) 0 ++ tailPay)).getD
        (pre.length + 2) 0 = bytes.length / 2 ^ 8 % 256 := by
      have h2 := getD_middle_left pre
        (be32 bytes.length ++ bytes ++
          List.replicate ((4 - bytes.length % 4) % 4) 0) tailPay 2
        (by simp [be32])
      rw [List.getD_append _ _ 0 2 (by simp [be32])] at h2
      rw [List.getD_append _ _ 0 2 (by simp [be32])] at h2
      simpa [be32] using h2
    have hb3 : (pre ++ (be32 bytes.length ++ bytes ++
        List.replicate ((4 - bytes.length % 4) % 4) 0 ++ tailPay)).getD
        (pre.length + 3) 0 = bytes.length % 256 := by
      have h2 := getD_middle_left pre
        (be32 bytes.length ++ bytes ++
          List.replicate ((4 - bytes.length % 4) % 4) 0) tailPay 3
        (by simp [be32])
      rw [List.getD_append _ _ 0 3 (by simp [be32])] at h2
      rw [List.getD_append _ _ 0 3 (by simp [be32])] at h2
      simpa [be32] using h2
    have hbyte : ∀ j, j < bytes.length →
        (pre ++ (be32 bytes.length ++ bytes ++
          List.replicate ((4 - bytes.length % 4) % 4) 0 ++ tailPay)).getD
          (pre.length + 4 + j) 0 = bytes.getD j 0 := by
      intro j hj
      rw [show pre.length + 4 + j = pre.length + (4 + j) by omega]
      have h2 := getD_middle_left pre
        (be32 bytes.length ++ bytes ++
          List.replicate ((4 - bytes.length % 4) % 4) 0) tailPay (4 + j)
        (by simp [be32]; omega)
      rw [h2]
      rw [List.getD_append _ _ 0 (4 + j) (by simp [be32]; omega)]
      have h3 := getD_append_middle (be32 bytes.length) bytes j
      rw [show (be32 bytes.length).length = 4 from by simp [be32]] at h3
      rw [h3]
    have hdest : (List.range bytes.length).map
        (fun j => (pre ++ (be32 bytes.length ++ bytes ++
          List.replicate ((4 - bytes.length % 4) % 4) 0 ++ tailPay)).getD
          (pre.length + 4 + j) 0) = bytes := by
      apply List.ext_getElem (by simp)
      intro j h1 h2
      simp only [List.getElem_map, List.getElem_range]
      rw [hbyte j (by simpa using h1)]
      exact List.getD_eq_getElem bytes 0 h2
    have hpt : padTo4 bytes.length = bytes.length + (4 - bytes.length % 4) % 4 := by
      unfold padTo4
      split_ifs <;> omega
    have halign : getAlignCursorLoop 4
        (pre ++ (be32 bytes.length ++ bytes ++
          List.replicate ((4 - bytes.length % 4) % 4) 0 ++ tailPay)).length
        (pre.length + 4 + bytes.length) =
        some (pre.length + (be32 bytes.length ++ bytes ++
          List.replicate ((4 - bytes.length % 4) % 4) 0).length) := by
      have h2 := getAlignCursorLoop_aligns 4
        (pre ++ (be32 bytes.length ++ bytes ++
          List.replicate ((4 - bytes.length % 4) % 4) 0 ++ tailPay)).length
        (pre.length + 4 + bytes.length)
        (by have := padTo4_le (pre.length + 4 + bytes.length)
            have := le_padTo4 (pre.length + 4 + bytes.length)
            omega)
        (by rw [show pre.length + 4 + bytes.length =
              (pre.length + 4) + bytes.length by omega,
              padTo4_add_left _ _ (by omega), hpt]
            simp [be32]
            omega)
      rw [h2]
      congr 1
      rw [show pre.length + 4 + bytes.length =
        (pre.length + 4) + bytes.length by omega,
        padTo4_add_left _ _ (by omega), hpt]
      simp [be32]
      omega
    have hget : OscMessageGetBlob
        ⟨addr, commaByte :: (tags1 ++ (OscTypeTagBlob :: tailTags)),
          pre ++ (be32 bytes.length ++ bytes ++
            List.replicate ((4 - bytes.length % 4) % 4) 0 ++ tailPay),
          1 + tags1.length, pre.length⟩ MAX_ARGUMENTS_SIZE =
        (0, ⟨addr, commaByte :: (tags1 ++ (OscTypeTagBlob :: tailTags)),
          pre ++ (be32 bytes.length ++ bytes ++
            List.replicate ((4 - bytes.length % 4) % 4) 0 ++ tailPay),
          1 + tags1.length + 1,
          pre.length + (be32 bytes.length ++ bytes ++
            List.replicate ((4 - bytes.length % 4) % 4) 0).length⟩,
          some (bytes.length, bytes)) := by
      unfold OscMessageGetBlob
      simp only []
      rw [if_neg (by rw [htag]; simp)]
      rw [if_neg (by simp [be32])]
      rw [hb0, hb1, hb2, hb3, word32_be32 bytes.length hv32]
      rw [if_neg (by omega)]
      rw [if_neg (by simp [be32]; omega)]
      rw [if_neg (by simp [MAX_ARGUMENTS_SIZE]; omega)]
      rw [hdest]
      simp only [halign]
    simp only [checkArg]
    rw [hget]
    simp

lemma flatMap_argPayload_mod4 (args : List OscArg) :
    (args.flatMap argPayload).length % 4 = 0 := by
  induction args with
  | nil => simp
  | cons a rest ih =>
    simp only [List.flatMap_cons, List.length_append]
    have := argPayload_length_mod4 a
    omega

/-- Reading back a built argument list in positional order from the canonical
cursor positions succeeds. -/
lemma checkArgs_layout (args : List OscArg) (addr tags1 pre : List Nat)
    (hwf : ∀ a ∈ args, ArgWF a)
    (hpre4 : pre.length % 4 = 0)
    (hfits : pre.length + (args.flatMap argPayload).length ≤ MAX_ARGUMENTS_SIZE) :
    (checkArgs ⟨addr, commaByte :: (tags1 ++ args.map argTag),
        pre ++ args.flatMap argPayload, 1 + tags1.length, pre.length⟩ args).isSome := by
  induction args generalizing tags1 pre with
  | nil => simp [checkArgs]
  | cons a rest ih =>
    simp only [List.map_cons, List.flatMap_cons]
    have hfits1 : pre.length + (argPayload a).length + (rest.flatMap argPayload).length ≤
        MAX_ARGUMENTS_SIZE := by
      have h := hfits
      simp only [List.flatMap_cons, List.length_append] at h
      omega
    have hstep := checkArg_step a addr tags1 (rest.map argTag) pre
      (rest.flatMap argPayload) (hwf a (by simp)) hpre4 hfits1
    simp only [checkArgs, hstep]
    have hih := ih (tags1 ++ [argTag a]) (pre ++ argPayload a)
      (fun x hx => hwf x (by simp [hx]))
      (by
        simp only [List.length_append]
        have := argPayload_length_mod4 a
        omega)
      (by
        have h := hfits
        simp only [List.flatMap_cons, List.length_append] at h
        simp only [List.length_append]
        omega)
    have hMeq : (⟨addr, commaByte :: (tags1 ++ (argTag a :: rest.map argTag)),
        pre ++ (argPayload a ++ rest.flatMap argPayload), 1 + tags1.length + 1,
        pre.length + (argPayload a).length⟩ : OscMessage) =
        ⟨addr, commaByte :: (tags1 ++ [argTag a] ++ rest.map argTag),
        pre ++ argPayload a ++ rest.flatMap argPayload,
        1 + (tags1 ++ [argTag a]).length, (pre ++ argPayload a).length⟩ := by
      simp [List.append_assoc]
      omega
    rw [hMeq]
    exact hih

/-- C1: round-trip of the message codec for well-formed inputs whose address
pattern does not end in a comma: a message built through `OscMessageInitialise`
and the `append_*` calls serializes by `OscMessageToCharArray` to its canonical
byte image, `OscMessageInitialiseFromCharArray` parses those bytes back to an
equal message, and the positional `get_*` reads return the appended arguments
in order with their values.  (The unrestricted claim is false: when the
address pattern's final character is a comma the parser's skip-to-comma scan
desynchronises; see the counterexample.) -/
theorem C1_message_roundtrip (addr : List Nat) (args : List OscArg) (m : OscMessage)
    (haddr : AddrWF addr)
    (hlast : addr.getD (addr.length - 1) 0 ≠ commaByte)
    (hargs : ∀ a ∈ args, ArgWF a)
    (hbuild : buildMessage addr args = some m) :
    OscMessageToCharArray m MAX_OSC_PACKET_SIZE = some (serialBytes m) ∧
    OscMessageInitialiseFromCharArray (serialBytes m) (serialBytes m).length = (0, m) ∧
    (checkArgs m args).isSome = true := by
  obtain ⟨hshape, haddrlen, hargbound, htagbound⟩ := buildMessage_spec addr args m haddr hbuild
  obtain ⟨hne, hhead, hbytes⟩ := haddr
  have hA : 1 ≤ addr.length := by
    cases addr with
    | nil => exact absurd rfl hne
    | cons a t => simp
  subst hshape
  have htagsN : args.length + 1 ≤ MAX_OSC_TYPE_TAG_STRING_LENGTH := by
    simpa using htagbound
  have hargsN : (args.flatMap argPayload).length ≤ MAX_ARGUMENTS_SIZE := by
    simpa using hargbound
  have hsize : OscMessageGetSize
      ⟨addr, commaByte :: args.map argTag, args.flatMap argPayload, 1, 0⟩ ≤ 1472 := by
    rw [oscMessageGetSize_eq]
    show padTo4 (addr.length + 1) +
      padTo4 ((commaByte :: args.map argTag).length + 1) +
      (args.flatMap argPayload).length ≤ 1472
    have h1 : padTo4 (addr.length + 1) ≤ 68 := by
      apply padTo4_le_of_le
      · rw [show MAX_OSC_ADDRESS_PATTERN_LENGTH = 64 from rfl] at haddrlen
        omega
      · decide
    have h2 : padTo4 ((commaByte :: args.map argTag).length + 1) ≤ 20 := by
      apply padTo4_le_of_le
      · rw [show MAX_OSC_TYPE_TAG_STRING_LENGTH = 17 from rfl] at htagsN
        simp
        omega
      · decide
    have h3 : (args.flatMap argPayload).length ≤ 1384 := by
      rw [show MAX_ARGUMENTS_SIZE = 1384 from rfl] at hargsN
      exact hargsN
    omega
  refine ⟨?_, ?_, ?_⟩
  · exact toCharArray_eq_serialBytes _ _ (by show addr.length ≠ 0; omega) hhead
      (by show OscMessageGetSize _ ≤ MAX_OSC_PACKET_SIZE
          rw [show MAX_OSC_PACKET_SIZE = 1472 from rfl]
          exact hsize)
  · exact parse_serial_components addr (args.map argTag) (args.flatMap argPayload)
      hne hhead (fun c hc => by have := (hbytes c hc).1; omega) hlast haddrlen
      (fun c hc => by
        obtain ⟨a, ha, rfl⟩ := List.mem_map.mp hc
        exact argTag_ne_zero a)
      (by simpa using htagsN)
      (flatMap_argPayload_mod4 args)
      (by
        have h2 := hsize
        rw [oscMessageGetSize_eq] at h2
        simp only [] at h2
        simp [MAX_OSC_MESSAGE_SIZE, MAX_OSC_CONTENTS_SIZE, MAX_TRANSPORT_SIZE]
        simpa using h2)
  · have h := checkArgs_layout args addr [] [] hargs (by simp) (by simpa using hargsN)
    simpa using h

/-- C1 counterexample: the address pattern "/," (47, 44) is accepted by the
construction API and serializes successfully, but parsing the serialized
bytes succeeds with a different message: the parser's skip-to-comma scan
stops at the address pattern's final comma instead of the type tag string's
comma, so the parsed message gains the spurious argument bytes
[44, 0, 0, 0].  The unrestricted round-trip property is therefore false. -/
theorem C1_counterexample_comma_final_address :
    buildMessage [47, 44] [] = some ⟨[47, 44], [commaByte], [], 1, 0⟩ ∧
    OscMessageToCharArray ⟨[47, 44], [commaByte], [], 1, 0⟩ MAX_OSC_PACKET_SIZE =
      some [47, 44, 0, 0, 44, 0, 0, 0] ∧
    OscMessageInitialiseFromCharArray [47, 44, 0, 0, 44, 0, 0, 0] 8 =
      (0, ⟨[47, 44], [commaByte], [44, 0, 0, 0], 1, 0⟩) ∧
    (⟨[47, 44], [commaByte], [44, 0, 0, 0], 1, 0⟩ : OscMessage) ≠
      ⟨[47, 44], [commaByte], [], 1, 0⟩ := by
  decide

theorem C1_message_roundtrip_witness :
    AddrWF [47, 97] ∧
    ([47, 97] : List Nat).getD (([47, 97] : List Nat).length - 1) 0 ≠ commaByte ∧
    (∀ a ∈ [OscArg.int32 7], ArgWF a) ∧
    buildMessage [47, 97] [OscArg.int32 7] =
      some ⟨[47, 97], [commaByte, OscTypeTagInt32], [0, 0, 0, 7], 1, 0⟩ ∧
    (OscMessageToCharArray ⟨[47, 97], [commaByte, OscTypeTagInt32], [0, 0, 0, 7], 1, 0⟩
        MAX_OSC_PACKET_SIZE =
      some (serialBytes ⟨[47, 97], [commaByte, OscTypeTagInt32], [0, 0, 0, 7], 1, 0⟩) ∧
    OscMessageInitialiseFromCharArray
        (serialBytes ⟨[47, 97], [commaByte, OscTypeTagInt32], [0, 0, 0, 7], 1, 0⟩)
        (serialBytes ⟨[47, 97], [commaByte, OscTypeTagInt32], [0, 0, 0, 7], 1, 0⟩).length =
      (0, ⟨[47, 97], [commaByte, OscTypeTagInt32], [0, 0, 0, 7], 1, 0⟩) ∧
    (checkArgs ⟨[47, 97], [commaByte, OscTypeTagInt32], [0, 0, 0, 7], 1, 0⟩
        [OscArg.int32 7]).isSome = true) :=
  ⟨by unfold AddrWF; decide, by decide,
    by
      intro a ha
      simp at ha
      subst ha
      show (7 : Nat) < 2 ^ 32
      decide,
    by decide,
    C1_message_roundtrip [47, 97] [OscArg.int32 7]
      ⟨[47, 97], [commaByte, OscTypeTagInt32], [0, 0, 0, 7], 1, 0⟩
      (by unfold AddrWF; decide) (by decide)
      (by
        intro a ha
        simp at ha
        subst ha
        show (7 : Nat) < 2 ^ 32
        decide)
      (by decide)⟩

end Osc99
